import Mathlib

/-!
# GCA-3DModelViewer: the state store, the undo/redo stacks and the URL codec

A shallow embedding of `src/js/gca-3dmodelview.js`.

* A JavaScript value is a tree (`JSValue`).  The application state built by
  `JSON.parse` is a tree and no statement of the program stores one object of
  the state in two places, so assignment through a path is modelled by
  rebuilding the tree along that path.  The last section of the definitions
  models the same objects by reference, in a heap, for the one question that
  is about references: whether a snapshot can change through the live state.
* An object is the list of its own properties in insertion order; inherited
  properties are not modelled.
* A string is the list of its characters.  The program measures and splits
  strings of ASCII text only (fields of URL parameters, sanitised colours).
* A finite number is the rational it denotes (rounding to binary64 is not
  modelled).  The conversions from numbers to text, which depend on binary64
  digits, are parameters of the definitions that use them.
* JSON text is represented by its syntax tree (`Json`).
* Calls into the DOM and into the renderer are taken to return normally and
  to leave `state` untouched; `document.getElementById` is taken to find the
  elements of the page and no element named `domain<n>`.
* A function that can throw returns `Except`; the error carries the value of
  the globals at the throw, because an exception does not undo assignments.
* The `value` of an input element is a string, as the DOM defines it; the
  floating-point expressions of `getSliderValue` are a parameter.
* `updateStateFromParam` is also given block by block (`debugStage`, ...,
  `sectionStage`); `updateStateFromParam_stages` shows it is their sequence.
-/

namespace GCA

/-! ## JavaScript values -/

/-- A JavaScript string, as its list of characters. -/
abbrev JSString := List Char

/-- A JavaScript number. -/
inductive JSNum where
  | fin (q : ℚ)
  | negZero
  | nan
  | posInf
  | negInf
  deriving DecidableEq, Repr

/-- A JavaScript value: primitives, arrays (indexed elements plus named own
properties, as a regular-expression match result has) and plain objects. -/
inductive JSValue where
  | undefined
  | null
  | bool (b : Bool)
  | num (n : JSNum)
  | str (s : JSString)
  | arr (elems : List JSValue) (props : List (String × JSValue))
  | obj (props : List (String × JSValue))

/-- A JSON document. -/
inductive Json where
  | null
  | bool (b : Bool)
  | num (q : ℚ)
  | str (s : JSString)
  | arr (elems : List Json)
  | obj (members : List (String × Json))

/-- The own properties of an object, in insertion order. -/
abbrev Props := List (String × JSValue)

/-- The number `n` as a JavaScript value. -/
def JSValue.ofNat (n : Nat) : JSValue := .num (.fin n)

/-- Is the value `undefined` or `null` (reading a property of it throws)? -/
def JSValue.isNullish : JSValue → Bool
  | .undefined => true
  | .null => true
  | _ => false

/-- Is the value `undefined` (the test `x === undefined`)? -/
def JSValue.isUndefined : JSValue → Bool
  | .undefined => true
  | _ => false

/-- Is the value a plain object? -/
def JSValue.isObj : JSValue → Bool
  | .obj _ => true
  | _ => false

/-- The conversion `Boolean(v)`, also applied by `if(v)`, `!v` and `v ? a : b`. -/
def truthy : JSValue → Bool
  | .undefined => false
  | .null => false
  | .bool b => b
  | .num (.fin q) => decide (q ≠ 0)
  | .num .posInf => true
  | .num .negInf => true
  | .num _ => false
  | .str s => !s.isEmpty
  | .arr _ _ => true
  | .obj _ => true

/-! ## Property access -/

/-- The value stored under key `k`, if any. -/
def lookup (k : String) : Props → Option JSValue
  | [] => none
  | (k', v) :: ps => if k' = k then some v else lookup k ps

/-- Store `x` under key `k`: in place when the key exists, else at the end. -/
def assocSet (k : String) (x : JSValue) : Props → Props
  | [] => [(k, x)]
  | (k', v) :: ps => if k' = k then (k', x) :: ps else (k', v) :: assocSet k x ps

/-- Assignment `a[i] = x` on the elements of an array; the array grows with
holes (read as `undefined`) when `i` is past its end. -/
def setElem : List JSValue → Nat → JSValue → List JSValue
  | [], 0, x => [x]
  | [], i + 1, x => .undefined :: setElem [] i x
  | _ :: es, 0, x => x :: es
  | e :: es, i + 1, x => e :: setElem es i x

/-- A property key: a name or an array index. -/
inductive Key where
  | prop (k : String)
  | idx (i : Nat)
  deriving DecidableEq, Repr

instance : Coe String Key := ⟨Key.prop⟩

/-- The decimal text of a natural number (`'' + i` for a loop counter). -/
def natToString (n : Nat) : JSString := Nat.toDigits 10 n

/-- The name under which a plain object stores a key. -/
def Key.name : Key → String
  | .prop k => k
  | .idx i => String.mk (natToString i)

/-- The read `v[k]`; `none` is the TypeError thrown when `v` is `undefined`
or `null`. -/
def getKey (v : JSValue) (k : Key) : Option JSValue :=
  match v with
  | .undefined => none
  | .null => none
  | .obj ps => some ((lookup k.name ps).getD .undefined)
  | .arr es ps =>
    match k with
    | .idx i => some (es.getD i .undefined)
    | .prop p =>
      if p = "length" then some (JSValue.ofNat es.length)
      else some ((lookup p ps).getD .undefined)
  | .str s =>
    match k with
    | .idx i => some (match s.get? i with | some c => .str [c] | none => .undefined)
    | .prop p => if p = "length" then some (JSValue.ofNat s.length) else some .undefined
  | .bool _ => some .undefined
  | .num _ => some .undefined

/-- The assignment `v[k] = x` (sloppy mode): `none` is the TypeError thrown
when `v` is `undefined` or `null`; on another primitive it does nothing.
Assigning `length` of an array is not used by the program and is left as a
named property here. -/
def setKey (v : JSValue) (k : Key) (x : JSValue) : Option JSValue :=
  match v with
  | .undefined => none
  | .null => none
  | .obj ps => some (.obj (assocSet k.name x ps))
  | .arr es ps =>
    match k with
    | .idx i => some (.arr (setElem es i x) ps)
    | .prop p => some (.arr es (assocSet p x ps))
  | .str s => some (.str s)
  | .bool b => some (.bool b)
  | .num n => some (.num n)

/-- The read `v.k1.k2...kn`; `none` is a TypeError. -/
def getPath (v : JSValue) : List Key → Option JSValue
  | [] => some v
  | k :: ks => (getKey v k).bind fun c => getPath c ks

/-- The assignment `v.k1.k2...kn = x`, rebuilding `v`; `none` is a TypeError. -/
def setPath (v : JSValue) : List Key → JSValue → Option JSValue
  | [], x => some x
  | [k], x => setKey v k x
  | k :: k2 :: ks, x =>
    (getKey v k).bind fun c => (setPath c (k2 :: ks) x).bind fun c' => setKey v k c'

/-! ## Exceptions -/

/-- What was thrown.  `unsupported` marks a run that left the model: a
comparison against the `length` property of a plain object, which would need
the conversion of an arbitrary value to a number. -/
inductive ThrowKind where
  | typeError
  | jsonError
  | unsupported
  deriving DecidableEq, Repr

/-- An exception together with the globals as they were when it was thrown. -/
structure Thrown (σ : Type) where
  kind : ThrowKind
  now : σ

/-- Turn a failed read or assignment into a TypeError thrown in state `st`. -/
def orThrow {σ α : Type} (st : σ) : Option α → Except (Thrown σ) α
  | some a => .ok a
  | none => .error ⟨.typeError, st⟩

/-- The globals a run ends with, whether it returned or threw. -/
def finalOf {σ : Type} : Except (Thrown σ) σ → σ
  | .ok s => s
  | .error t => t.now

/-- The bound `n` such that `i < v.length` holds exactly for `i < n`, for a
natural `i`.  A primitive other than a string and an object without `length`
have `v.length` undefined, and `i < undefined` is false. -/
def lengthBound (v : JSValue) : Except ThrowKind Nat :=
  match v with
  | .undefined => .error .typeError
  | .null => .error .typeError
  | .arr es _ => .ok es.length
  | .str s => .ok s.length
  | .bool _ => .ok 0
  | .num _ => .ok 0
  | .obj ps =>
    match lookup "length" ps with
    | none => .ok 0
    | some _ => .error .unsupported

/-- Run `lengthBound` in state `st`. -/
def lengthIn {σ : Type} (st : σ) (v : JSValue) : Except (Thrown σ) Nat :=
  match lengthBound v with
  | .ok n => .ok n
  | .error k => .error ⟨k, st⟩

/-! ## JSON and `cloneStruct` -/

mutual
/-- The tree of the text `JSON.stringify(v)`; `none` when it returns
`undefined`.  A property whose value is `undefined` is left out, an
`undefined` element becomes `null`, the named properties of an array are left
out, `NaN` and the infinities become `null`, `-0` becomes `0`. -/
def stringify : JSValue → Option Json
  | .undefined => none
  | .null => some .null
  | .bool b => some (.bool b)
  | .num (.fin q) => some (.num q)
  | .num .negZero => some (.num 0)
  | .num .nan => some .null
  | .num .posInf => some .null
  | .num .negInf => some .null
  | .str s => some (.str s)
  | .arr es _ => some (.arr (stringifyElems es))
  | .obj ps => some (.obj (stringifyProps ps))
/-- The elements of a serialised array. -/
def stringifyElems : List JSValue → List Json
  | [] => []
  | v :: vs => (stringify v).getD .null :: stringifyElems vs
/-- The members of a serialised object. -/
def stringifyProps : List (String × JSValue) → List (String × Json)
  | [] => []
  | (k, v) :: ps =>
    match stringify v with
    | some j => (k, j) :: stringifyProps ps
    | none => stringifyProps ps
end

mutual
/-- The value `JSON.parse` builds from a document. -/
def parse : Json → JSValue
  | .null => .null
  | .bool b => .bool b
  | .num q => .num (.fin q)
  | .str s => .str s
  | .arr es => .arr (parseElems es) []
  | .obj ms => .obj (parseMembers ms)
/-- The elements of a parsed array. -/
def parseElems : List Json → List JSValue
  | [] => []
  | j :: js => parse j :: parseElems js
/-- The properties of a parsed object. -/
def parseMembers : List (String × Json) → List (String × JSValue)
  | [] => []
  | (k, j) :: ms => (k, parse j) :: parseMembers ms
end

/-- The source's `cloneStruct(s)`, that is `JSON.parse(JSON.stringify(s))`;
`none` is the SyntaxError of `JSON.parse(undefined)`. -/
def cloneStruct (s : JSValue) : Option JSValue :=
  (stringify s).map parse

/-! ## Strings -/

/-- The source's `s.split(',')` for a separator character. -/
def split (sep : Char) : JSString → List JSString
  | [] => [[]]
  | c :: cs =>
    if c = sep then [] :: split sep cs
    else
      match split sep cs with
      | [] => [[c]]
      | f :: fs => (c :: f) :: fs

/-- One character of `toLowerCase()`: the letters `A` to `Z`.  A character
outside ASCII is left as it is; none of them lower-cases to a hex digit, so
the filter the program applies next removes it either way. -/
def lowerChar (c : Char) : Char :=
  if 65 ≤ c.toNat ∧ c.toNat ≤ 90 then Char.ofNat (c.toNat + 32) else c

/-- The source's `s.toLowerCase()`. -/
def toLowerCase (s : JSString) : JSString := s.map lowerChar

/-- Membership in the class `[0-9a-f]`. -/
def isLowerHex (c : Char) : Bool :=
  (48 ≤ c.toNat && c.toNat ≤ 57) || (97 ≤ c.toNat && c.toNat ≤ 102)

/-- The source's `s.toLowerCase().replace(/[^0-9a-f]+/g, '')`. -/
def sanitizeColor (s : JSString) : JSString := (toLowerCase s).filter isLowerHex

/-- The source's `s.match(/^[tT]/)`: `null`, or the match array with its
`index`, `input` and `groups` properties. -/
def matchLeadingT (s : JSString) : JSValue :=
  match s with
  | [] => .null
  | c :: _ =>
    if c = 't' ∨ c = 'T' then
      .arr [.str [c]] [("index", JSValue.ofNat 0), ("input", .str s), ("groups", .undefined)]
    else .null

/-- The white space that `parseInt` and `parseFloat` skip. -/
def isStrWhiteSpace (c : Char) : Bool :=
  let n := c.toNat
  (9 ≤ n && n ≤ 13) || n = 32 || n = 160 || n = 0x1680 || (0x2000 ≤ n && n ≤ 0x200A) ||
    n = 0x2028 || n = 0x2029 || n = 0x202F || n = 0x205F || n = 0x3000 || n = 0xFEFF

/-- The value of a digit character in radix up to 36. -/
def digitValue (c : Char) : Option Nat :=
  let n := c.toNat
  if 48 ≤ n ∧ n ≤ 57 then some (n - 48)
  else if 97 ≤ n ∧ n ≤ 122 then some (n - 87)
  else if 65 ≤ n ∧ n ≤ 90 then some (n - 55)
  else none

/-- The values of the longest run of leading digits of radix `r`, and the rest. -/
def takeDigits (r : Nat) : JSString → List Nat × JSString
  | [] => ([], [])
  | c :: cs =>
    match digitValue c with
    | some d =>
      if d < r then ((takeDigits r cs).1.cons d, (takeDigits r cs).2) else ([], c :: cs)
    | none => ([], c :: cs)

/-- The number written by a list of digits, most significant first. -/
def digitsValue (r : Nat) (ds : List Nat) : Nat := ds.foldl (fun acc d => acc * r + d) 0

/-- The source's `parseInt(s)` for a string `s`: `none` is `NaN`, else the
integer read (as a mathematical integer; `-0` is `0`). -/
def parseInt (s : JSString) : Option Int :=
  let s1 := s.dropWhile isStrWhiteSpace
  let neg := s1.head? = some '-'
  let s2 := if s1.head? = some '-' ∨ s1.head? = some '+' then s1.tail else s1
  let hex := s2.take 2 = ['0', 'x'] ∨ s2.take 2 = ['0', 'X']
  let r := if hex then 16 else 10
  let s3 := if hex then s2.drop 2 else s2
  let ds := (takeDigits r s3).1
  if ds = [] then none
  else if neg then some (-(digitsValue r ds : Int)) else some (digitsValue r ds : Int)

/-- The exponent part `e[+-]digits` at the head of `s`, or `0` without one. -/
def exponentPart (s : JSString) : Int :=
  match s with
  | [] => 0
  | c :: r =>
    if c = 'e' ∨ c = 'E' then
      let neg := r.head? = some '-'
      let r2 := if r.head? = some '-' ∨ r.head? = some '+' then r.tail else r
      let ds := (takeDigits 10 r2).1
      if ds = [] then 0
      else if neg then -(digitsValue 10 ds : Int) else (digitsValue 10 ds : Int)
    else 0

/-- The source's `parseFloat(s)` for a string `s`, read as the exact decimal
value of the longest prefix that is a decimal literal (rounding to binary64
and overflow to infinity are not modelled). -/
def parseFloat (s : JSString) : JSNum :=
  let s1 := s.dropWhile isStrWhiteSpace
  let neg := s1.head? = some '-'
  let s2 := if s1.head? = some '-' ∨ s1.head? = some '+' then s1.tail else s1
  if s2.take 8 = "Infinity".toList then (if neg then .negInf else .posInf)
  else
    let ip := takeDigits 10 s2
    let fp := if ip.2.head? = some '.' then takeDigits 10 ip.2.tail else ([], ip.2)
    if ip.1 = [] ∧ fp.1 = [] then .nan
    else
      let mant : Nat := digitsValue 10 (ip.1 ++ fp.1)
      let ex : Int := exponentPart fp.2 - fp.1.length
      let q : ℚ := if 0 ≤ ex then ((mant * 10 ^ ex.toNat : Nat) : ℚ)
                    else (mant : ℚ) / ((10 ^ (-ex).toNat : Nat) : ℚ)
      if mant = 0 then (if neg then .negZero else .fin 0)
      else if neg then .fin (-q) else .fin q

mutual
/-- The conversion of a value to a string, as string concatenation applies
it; `numStr` is the conversion of a number (`Number::toString`). -/
def toStr (numStr : JSNum → JSString) : JSValue → JSString
  | .undefined => "undefined".toList
  | .null => "null".toList
  | .bool true => "true".toList
  | .bool false => "false".toList
  | .num n => numStr n
  | .str s => s
  | .arr es _ => [','].intercalate (toStrElems numStr es)
  | .obj _ => "[object Object]".toList
/-- The strings that `Array.prototype.join` joins: `undefined` and `null`
elements give the empty string. -/
def toStrElems (numStr : JSNum → JSString) : List JSValue → List JSString
  | [] => []
  | v :: vs => (if v.isNullish then [] else toStr numStr v) :: toStrElems numStr vs
end

/-! ## The state: reads, assignments and loops -/

/-- The read `state.k1...kn` in state `st`. -/
def readPath (st : JSValue) (p : List Key) : Except (Thrown JSValue) JSValue :=
  orThrow st (getPath st p)

/-- The assignment `state.k1...kn = x` in state `st`. -/
def assign (st : JSValue) (p : List Key) (x : JSValue) : Except (Thrown JSValue) JSValue :=
  orThrow st (setPath st p x)

/-- The statement `if(state.k1...kn === undefined) state.k1...kn = x`. -/
def defaultAt (st : JSValue) (p : List Key) (x : JSValue) : Except (Thrown JSValue) JSValue :=
  match readPath st p with
  | .error e => .error e
  | .ok v => if v.isUndefined then assign st p x else .ok st

/-- The loop `for(i = start; i < start + count; ++i) body(i)` over the state. -/
def forFrom (body : Nat → JSValue → Except (Thrown JSValue) JSValue) :
    Nat → Nat → JSValue → Except (Thrown JSValue) JSValue
  | 0, _, st => .ok st
  | count + 1, i, st =>
    match body i st with
    | .ok st' => forFrom body count (i + 1) st'
    | .error e => .error e

/-- The bound of a loop `for(i = 0; i < state.k1...kn.length; ++i)`. -/
def loopBound (st : JSValue) (p : List Key) : Except (Thrown JSValue) Nat :=
  match readPath st p with
  | .error e => .error e
  | .ok v => lengthIn st v

/-! ## Model and domain management (the part of it that touches `state`) -/

/-- The source's `baseURL()`: it reads `sec.iip3dsrv` and `sec.wlzobj` and,
when both are truthy, the three elements of `sec.fxp`.  Returns whether the
URL is not `null`. -/
def baseURL (st : JSValue) : Except (Thrown JSValue) Bool := do
  let srv ← readPath st ["model", "section", "iip3dsrv"]
  let wlz ← readPath st ["model", "section", "wlzobj"]
  if truthy srv && truthy wlz then
    let _ ← readPath st ["model", "section", "fxp", .idx 0]
    pure true
  else pure false

/-- The source's `setSectionTexture()`: it builds a URL from the section, the
model colour and the visible domains; only its reads can throw. -/
def setSectionTexture (st : JSValue) : Except (Thrown JSValue) JSValue := do
  let _ ← baseURL st
  let _ ← readPath st ["model", "domains"]
  let vis ← readPath st ["domain_sections_visible"]
  if truthy vis then
    let n ← loopBound st ["model", "domains"]
    forFrom (fun i s => do
      let _ ← readPath s ["model", "domains", .idx i, "visible"]
      pure s) n 0 st
  else pure st

/-- The source's `updateSection()`: renderer calls guarded by reads of the
section. -/
def updateSection (st : JSValue) : Except (Thrown JSValue) JSValue := do
  let sectioning ← readPath st ["sectioning"]
  if truthy sectioning then
    let vis ← readPath st ["model", "section", "visible"]
    if truthy vis then
      let _ ← baseURL st
      let _ ← readPath st ["model", "section", "voxelsz", .idx 0]
      setSectionTexture st
    else pure st
  else pure st

/-- The source's `updateModel(mod)` with `mod = state.model`. -/
def updateModel (st : JSValue) : Except (Thrown JSValue) JSValue := do
  let _ ← readPath st ["model", "color"]
  updateSection st

/-- The source's `updateDomain(dom_idx)`: it refreshes the widgets of one
domain; `dom.cat.length` is read for the loop over the categories. -/
def updateDomain (i : Nat) (st : JSValue) : Except (Thrown JSValue) JSValue := do
  let _ ← readPath st ["model", "domains", .idx i, "color"]
  let _ ← loopBound st ["model", "domains", .idx i, "cat"]
  updateSection st

/-- The source's `setDomain(new_dom_idx)`: it re-creates the scene object of
one domain and calls `updateDomain`. -/
def setDomain (i : Nat) (st : JSValue) : Except (Thrown JSValue) JSValue := do
  let _ ← readPath st ["model", "domains", .idx i, "obj"]
  updateDomain i st

/-- The source's `checkModelSection()`.  The two `for(var p in [...])` loops
run over the indices of the array literals, that is over the keys `0`, `1`,
`2` and `0`, `1`, not over the names in them. -/
def checkModelSection (st : JSValue) : Except (Thrown JSValue) JSValue := do
  let sectioning ← readPath st ["sectioning"]
  if truthy sectioning then
    let st ← defaultAt st ["model", "section"] (.arr [] [])
    let st ← defaultAt st ["model", "section", .idx 0] (.num (.fin 0))
    let st ← defaultAt st ["model", "section", .idx 1] (.num (.fin 0))
    let st ← defaultAt st ["model", "section", .idx 2] (.num (.fin 0))
    let st ← defaultAt st ["model", "section", .idx 0] (.bool false)
    let st ← defaultAt st ["model", "section", .idx 1] (.bool false)
    let st ← defaultAt st ["model", "section", "fxp"]
      (.arr [.num (.fin 0), .num (.fin 0), .num (.fin 0)] [])
    let st ← defaultAt st ["model", "section", "voxelsz"]
      (.arr [.num (.fin 1), .num (.fin 1), .num (.fin 1)] [])
    let st ← defaultAt st ["model", "section", "iip3dsrv"] .null
    defaultAt st ["model", "section", "wlzobj"] .null
  else pure st

/-- The source's `initSectioning()`: with sectioning on it reads the section
to build the section controls and the first section texture. -/
def initSectioning (st : JSValue) : Except (Thrown JSValue) JSValue := do
  let sectioning ← readPath st ["sectioning"]
  match sectioning with
  | .undefined => pure st
  | .bool false => pure st
  | _ =>
    let _ ← baseURL st
    let _ ← readPath st ["model", "section", "voxelsz", .idx 0]
    setSectionTexture st

/-- The body of the loop over the categories in `initDomainSelect()`, for
category `c`, with `nSel` categories: the row of the category is built, then
every category and every domain gets `visible = false` when it has none, then
every domain gets `cat = []` when it has none and `dom.cat.indexOf` is called
(a TypeError unless `cat` is an array or a string). -/
def initDomainSelectBody (nSel : Nat) (c : Nat) (st : JSValue) :
    Except (Thrown JSValue) JSValue := do
  let _ ← readPath st ["domain_sel", .idx c, "name"]
  let st ← forFrom (fun i s => defaultAt s ["domain_sel", .idx i, "visible"] (.bool false))
    nSel 0 st
  let nDom ← loopBound st ["model", "domains"]
  let st ← forFrom (fun i s => defaultAt s ["model", "domains", .idx i, "visible"] (.bool false))
    nDom 0 st
  let nDom ← loopBound st ["model", "domains"]
  forFrom (fun i s => do
    let s ← defaultAt s ["model", "domains", .idx i, "cat"] (.arr [] [])
    let cat ← readPath s ["model", "domains", .idx i, "cat"]
    match cat with
    | .arr _ _ => pure s
    | .str _ => pure s
    | _ => throw ⟨.typeError, s⟩) nDom 0 st

/-- The source's `initDomainSelect()`. -/
def initDomainSelect (st : JSValue) : Except (Thrown JSValue) JSValue := do
  let _ ← readPath st ["model", "domains"]
  let nSel ← loopBound st ["domain_sel"]
  let st ← forFrom (initDomainSelectBody nSel) nSel 0 st
  let nDom ← loopBound st ["model", "domains"]
  forFrom setDomain nDom 0 st

/-- The source's `initModel()`: it builds the model controls and reads
`state.model.opacity` for the opacity slider. -/
def initModel (st : JSValue) : Except (Thrown JSValue) JSValue := do
  let _ ← readPath st ["model", "opacity"]
  pure st

/-- The source's `setModel()`. -/
def setModel (st : JSValue) : Except (Thrown JSValue) JSValue := do
  let _ ← readPath st ["model", "name"]
  let nSel ← loopBound st ["domain_sel"]
  let st ← forFrom (fun i s => do
    let v ← readPath s ["domain_sel", .idx i, "sel_idx"]
    if v.isNullish then assign s ["domain_sel", .idx i, "sel_idx"] (JSValue.ofNat 0)
    else pure s) nSel 0 st
  let st ← assign st ["model_init"] (.bool true)
  let st ← checkModelSection st
  let _ ← readPath st ["model", "camera_home", "cen", .idx 0]
  let _ ← readPath st ["model", "camera_home", "pos", .idx 0]
  let _ ← readPath st ["model", "camera_home", "up", .idx 0]
  let st ← initSectioning st
  let st ← updateModel st
  initDomainSelect st

/-- The body of the source's `setState(newState)` after the assignment
`state = cloneStruct(newState)`, started in the cloned state. -/
def setStateBody (st : JSValue) : Except (Thrown JSValue) JSValue := do
  let _ ← readPath st ["title"]
  let st ← defaultAt st ["sectioning"] (.bool false)
  let st ← initModel st
  let st ← setModel st
  let nSel ← loopBound st ["domain_sel"]
  forFrom setDomain nSel 0 st

/-! ## The globals and the undo/redo stacks -/

/-- The globals `state`, `undoStack` and `redoStack`.  A stack is the list of
its entries from index 0 (the oldest) to the top. -/
structure App where
  state : JSValue
  undoStack : List JSValue
  redoStack : List JSValue

/-- The source's `maxSavedStates`. -/
def maxSavedStates : Nat := 100

/-- Carry a run over `state` to the globals. -/
def liftState (a : App) : Except (Thrown JSValue) JSValue → Except (Thrown App) App
  | .ok s => .ok { a with state := s }
  | .error t => .error ⟨t.kind, { a with state := t.now }⟩

/-- The source's `debug(str)`: it reads `state.debug`, a TypeError when
`state` is `undefined` or `null`. -/
def debug (a : App) : Except (Thrown App) App :=
  match getKey a.state "debug" with
  | some _ => .ok a
  | none => .error ⟨.typeError, a⟩

/-- The assignment `stack.length = maxSavedStates - 1` guarded by
`stack.length >= maxSavedStates`. -/
def truncateStack (stack : List JSValue) : List JSValue :=
  if stack.length ≥ maxSavedStates then stack.take (maxSavedStates - 1) else stack

/-- The source's `pushState()`. -/
def pushState (a : App) : Except (Thrown App) App := do
  let a ← debug a
  let a1 : App := { a with undoStack := truncateStack a.undoStack }
  match cloneStruct a1.state with
  | none => throw ⟨.jsonError, a1⟩
  | some c => pure { a1 with undoStack := a1.undoStack ++ [c] }

/-- The source's `popState()`: the value returned and the globals. -/
def popState (a : App) : Except (Thrown App) (JSValue × App) := do
  let a ← debug a
  pure (a.undoStack.getLast?.getD .undefined, { a with undoStack := a.undoStack.dropLast })

/-- The source's `pushRedoState()`. -/
def pushRedoState (a : App) : Except (Thrown App) App := do
  let a ← debug a
  let a1 : App := { a with redoStack := truncateStack a.redoStack }
  match cloneStruct a1.state with
  | none => throw ⟨.jsonError, a1⟩
  | some c => pure { a1 with redoStack := a1.redoStack ++ [c] }

/-- The source's `popRedoState()`: the value returned and the globals. -/
def popRedoState (a : App) : Except (Thrown App) (JSValue × App) := do
  let a ← debug a
  pure (a.redoStack.getLast?.getD .undefined, { a with redoStack := a.redoStack.dropLast })

/-- The source's `setState(newState)`. -/
def setState (newState : JSValue) (a : App) : Except (Thrown App) App := do
  let a ← debug a
  match cloneStruct newState with
  | none => throw ⟨.jsonError, a⟩
  | some c => liftState a (setStateBody c)

/-- The statement `if(Boolean(s)) { setState(s); }`. -/
def setStateIf (s : JSValue) (a : App) : Except (Thrown App) App :=
  if truthy s then setState s a else .ok a

/-- The source's `redoAction()`. -/
def redoAction (a : App) : Except (Thrown App) App := do
  let a ← debug a
  let a ← pushState a
  let a ← setStateIf (a.redoStack.getLast?.getD .undefined)
    { a with redoStack := a.redoStack.dropLast }
  debug a

/-- The source's `undoAction()`. -/
def undoAction (a : App) : Except (Thrown App) App := do
  let a ← debug a
  let a ← pushRedoState a
  let r ← popState a
  let a ← setStateIf r.1 r.2
  debug a

/-- The text `JSON.stringify(state, null, 2)` that `saveStateToFileAction()`
offers for download; `none` when `state` is `undefined`. -/
def saveStateToFileAction (a : App) : Except (Thrown App) (Option Json) := do
  let a ← debug a
  pure (stringify a.state)

/-- The source's `loadStateFromFileAction()` followed by the `onload`
callback of the file reader for a file holding the document `jsn` (`none`: a
file that is not JSON, for which `JSON.parse` throws). -/
def loadStateFromFileAction (jsn : Option Json) (a : App) : Except (Thrown App) App := do
  let a ← debug a
  let a ← pushState a
  match jsn with
  | none => throw ⟨.jsonError, a⟩
  | some j => setState (parse j) a

/-! ## The URL codec: `shareViewAction` -/

/-- The value of the `model` parameter in the URL of `shareViewAction()`:
`state.model.color + ',' + ((state.model_visible)? 't': 'f')`. -/
def shareModelValue (numStr : JSNum → JSString) (st : JSValue) :
    Except (Thrown JSValue) JSString := do
  let color ← readPath st ["model", "color"]
  let vis ← readPath st ["model_visible"]
  pure (toStr numStr color ++ [','] ++ (if truthy vis then ['t'] else ['f']))

/-- The triplets `idx + ',' + dom.color + ',' + dom.visible` that the loop of
`shareViewAction()` emits for the domains `i`, ..., `i + count - 1`. -/
def shareDomainTriplets (numStr : JSNum → JSString) (st : JSValue) :
    Nat → Nat → Except (Thrown JSValue) (List JSString)
  | 0, _ => .ok []
  | count + 1, i => do
    let color ← readPath st ["model", "domains", .idx i, "color"]
    let vis ← readPath st ["model", "domains", .idx i, "visible"]
    let rest ← shareDomainTriplets numStr st count (i + 1)
    pure ((natToString i ++ [','] ++ toStr numStr color ++ [','] ++ toStr numStr vis) :: rest)

/-- The value of the `domains` parameter in the URL of `shareViewAction()`:
the triplets joined by commas; `none` when there is no domain, for which the
URL holds `&domains` without `=`. -/
def shareDomainsValue (numStr : JSNum → JSString) (st : JSValue) :
    Except (Thrown JSValue) (Option JSString) := do
  let n ← loopBound st ["model", "domains"]
  let ts ← shareDomainTriplets numStr st n 0
  pure (if n = 0 then none else some ([','].intercalate ts))

/-- The camera values that `shareViewAction()` reads from the renderer. -/
structure RenView where
  centerX : JSValue
  centerY : JSValue
  centerZ : JSValue
  nearPlane : JSValue
  farPlane : JSValue
  positionX : JSValue
  positionY : JSValue
  positionZ : JSValue
  upX : JSValue
  upY : JSValue
  upZ : JSValue

/-- The value of the `section` parameter in the URL of `shareViewAction()`,
`none` when it is not emitted; `floatStr` is the source's `sensibleFloatStr`. -/
def shareSectionValue (floatStr : JSValue → JSString) (st : JSValue) :
    Except (Thrown JSValue) (Option JSString) := do
  let sectioning ← readPath st ["sectioning"]
  if truthy sectioning then
    let sec ← readPath st ["model", "section"]
    if sec.isUndefined then pure none
    else
      let dst ← readPath st ["model", "section", "dst"]
      let pit ← readPath st ["model", "section", "pit"]
      let yaw ← readPath st ["model", "section", "yaw"]
      let f0 ← readPath st ["model", "section", "fxp", .idx 0]
      let f1 ← readPath st ["model", "section", "fxp", .idx 1]
      let f2 ← readPath st ["model", "section", "fxp", .idx 2]
      pure (some ([','].intercalate
        [floatStr dst, floatStr pit, floatStr yaw, floatStr f0, floatStr f1, floatStr f2]))
  else pure none

/-- The URL that the source's `shareViewAction()` shows, for the globals
`base_url` and `config_file`; `numStr` converts a number to a string and
`floatStr` is the source's `sensibleFloatStr`. -/
def shareViewAction (numStr : JSNum → JSString) (floatStr : JSValue → JSString)
    (ren : RenView) (baseUrl configFile : JSString) (st : JSValue) :
    Except (Thrown JSValue) JSString := do
  let _ ← readPath st ["debug"]
  let model ← shareModelValue numStr st
  let domains ← shareDomainsValue numStr st
  let home := [','].intercalate
    [floatStr ren.centerX, floatStr ren.centerY, floatStr ren.centerZ,
     floatStr ren.nearPlane, floatStr ren.farPlane,
     floatStr ren.positionX, floatStr ren.positionY, floatStr ren.positionZ,
     floatStr ren.upX, floatStr ren.upY, floatStr ren.upZ]
  let sec ← shareSectionValue floatStr st
  pure (baseUrl ++ "?config=".toList ++ configFile ++ "&model=".toList ++ model ++
    "&domains".toList ++ (match domains with | some v => '=' :: v | none => []) ++
    "&home=".toList ++ home ++
    (match sec with | some v => "&section=".toList ++ v | none => []))

/-! ## The URL codec: `updateStateFromParam` -/

/-- The value of `err` in `updateStateFromParam()` when it is not `null`. -/
inductive ParamError where
  | model
  | domains
  | home
  | section_
  deriving DecidableEq, Repr

/-- The entries of the global `prm` that `updateStateFromParam()` reads;
`none` is an absent key. -/
structure Params where
  debug : Option JSString := none
  model : Option JSString := none
  domains : Option JSString := none
  home : Option JSString := none
  sectioning : Option JSString := none
  section_ : Option JSString := none

/-- The test `if(prm[k])`: the value when it is a non-empty string. -/
def paramGiven : Option JSString → Option JSString
  | some (c :: cs) => some (c :: cs)
  | _ => none

/-- The `model` block of `updateStateFromParam()` for the value `v`. -/
def decodeModel (v : JSString) (st : JSValue) :
    Except (Thrown JSValue) (JSValue × Option ParamError) :=
  match split ',' v with
  | [mc, mv] => do
    let st ← assign st ["model", "color"] (.str (sanitizeColor mc))
    let st ← assign st ["model", "visible"] (matchLeadingT mv)
    pure (st, none)
  | _ => pure (st, some .model)

/-- The loop of the `domains` block over the fields `ga` not yet read.  The
loop runs while `idx < ga.length / 3`, so a last group of one or two fields
is read too, and calling a method of its missing field throws. -/
def decodeTriplets (st : JSValue) :
    List JSString → Except (Thrown JSValue) (JSValue × Option ParamError)
  | [] => .ok (st, none)
  | [_] => .error ⟨.typeError, st⟩
  | [_, _] => .error ⟨.typeError, st⟩
  | ai :: ac :: av :: rest =>
    match parseInt ai with
    | none => .ok (st, some .domains)
    | some n =>
      if (sanitizeColor ac).length ≠ 6 then .ok (st, some .domains)
      else if 0 < n then
        match loopBound st ["model", "domains"] with
        | .error e => .error e
        | .ok len =>
          if n < (len : Int) then
            match assign st ["model", "domains", .idx n.toNat, "color"]
                (.str (sanitizeColor ac)) with
            | .error e => .error e
            | .ok st1 =>
              match assign st1 ["model", "domains", .idx n.toNat, "visible"]
                  (matchLeadingT av) with
              | .error e => .error e
              | .ok st2 => decodeTriplets st2 rest
          else decodeTriplets st rest
      else decodeTriplets st rest

/-- The `domains` block of `updateStateFromParam()` for the value `v`. -/
def decodeDomains (v : JSString) (st : JSValue) :
    Except (Thrown JSValue) (JSValue × Option ParamError) := do
  let _ ← readPath st ["model", "domains"]
  decodeTriplets st (split ',' v)

/-- The `home` block of `updateStateFromParam()` for the value `v`. -/
def decodeHome (v : JSString) (st : JSValue) :
    Except (Thrown JSValue) (JSValue × Option ParamError) :=
  match (split ',' v).map parseFloat with
  | [c0, c1, c2, near, far, p0, p1, p2, u0, u1, u2] =>
    if [c0, c1, c2, near, far, p0, p1, p2, u0, u1, u2].any (fun x => decide (x = JSNum.nan))
    then pure (st, some .home)
    else do
      let st ← assign st ["model", "camera_home", "cen", .idx 0] (.num c0)
      let st ← assign st ["model", "camera_home", "cen", .idx 1] (.num c1)
      let st ← assign st ["model", "camera_home", "cen", .idx 2] (.num c2)
      let st ← assign st ["model", "camera_home", "near"] (.num near)
      let st ← assign st ["model", "camera_home", "far"] (.num far)
      let st ← assign st ["model", "camera_home", "pos", .idx 0] (.num p0)
      let st ← assign st ["model", "camera_home", "pos", .idx 1] (.num p1)
      let st ← assign st ["model", "camera_home", "pos", .idx 2] (.num p2)
      let st ← assign st ["model", "camera_home", "up", .idx 0] (.num u0)
      let st ← assign st ["model", "camera_home", "up", .idx 1] (.num u1)
      let st ← assign st ["model", "camera_home", "up", .idx 2] (.num u2)
      pure (st, none)
  | _ => pure (st, some .home)

/-- The `sectioning` block of `updateStateFromParam()`. -/
def decodeSectioning (p : Option JSString) (st : JSValue) :
    Except (Thrown JSValue) JSValue :=
  match paramGiven p with
  | some v => assign st ["sectioning"] (.bool (decide (v = "true".toList)))
  | none => do
    let cur ← readPath st ["sectioning"]
    assign st ["sectioning"] (.bool (truthy cur))

/-- The `section` block of `updateStateFromParam()` for the value `v`. -/
def decodeSection (v : JSString) (st : JSValue) :
    Except (Thrown JSValue) (JSValue × Option ParamError) :=
  match split ',' v with
  | [g0, g1, g2, g3, g4, g5] => do
    let sectioning ← readPath st ["sectioning"]
    if truthy sectioning then
      let sec ← readPath st ["model", "section"]
      if sec.isUndefined then pure (st, none)
      else
        let dst ← readPath st ["model", "section", "dst"]
        let pit ← readPath st ["model", "section", "pit"]
        let yaw ← readPath st ["model", "section", "yaw"]
        let fxp ← readPath st ["model", "section", "fxp"]
        if dst.isUndefined || pit.isUndefined || yaw.isUndefined || fxp.isUndefined
        then pure (st, none)
        else
          let st ← assign st ["model", "section", "dst"] (.str g0)
          let st ← assign st ["model", "section", "pit"] (.str g1)
          let st ← assign st ["model", "section", "yaw"] (.str g2)
          let st ← assign st ["model", "section", "fxp", .idx 0] (.str g3)
          let st ← assign st ["model", "section", "fxp", .idx 1] (.str g4)
          let st ← assign st ["model", "section", "fxp", .idx 2] (.str g5)
          pure (st, none)
    else pure (st, none)
  | _ => pure (st, some .section_)

/-- The source's `updateStateFromParam()`: the state it leaves and the
parameter named by the alert, if any. -/
def updateStateFromParam (prm : Params) (st : JSValue) :
    Except (Thrown JSValue) (JSValue × Option ParamError) := do
  let st ← match paramGiven prm.debug with
    | some d => assign st ["debug"] (matchLeadingT d)
    | none => pure st
  let (st, err) ← match paramGiven prm.model with
    | some v => decodeModel v st
    | none => pure (st, none)
  let (st, err) ← match err, paramGiven prm.domains with
    | none, some v => decodeDomains v st
    | _, _ => pure (st, err)
  let (st, err) ← match err, paramGiven prm.home with
    | none, some v => decodeHome v st
    | _, _ => pure (st, err)
  let st ← match err with
    | none => decodeSectioning prm.sectioning st
    | some _ => pure st
  match err, paramGiven prm.section_ with
  | none, some v => decodeSection v st
  | _, _ => pure (st, err)

/-! ## Sequences of calls on the stacks -/

/-- One call on the stacks, or any change of the live state between calls. -/
inductive StackOp where
  | pushState
  | pushRedoState
  | popState
  | popRedoState
  | undoAction
  | redoAction
  | edit (s : JSValue)

/-- The globals after one call, whether it returned or threw. -/
def StackOp.run : StackOp → App → App
  | .pushState, a => finalOf (GCA.pushState a)
  | .pushRedoState, a => finalOf (GCA.pushRedoState a)
  | .popState, a => finalOf ((GCA.popState a).map Prod.snd)
  | .popRedoState, a => finalOf ((GCA.popRedoState a).map Prod.snd)
  | .undoAction, a => finalOf (GCA.undoAction a)
  | .redoAction, a => finalOf (GCA.redoAction a)
  | .edit s, a => { a with state := s }

/-- The globals after a sequence of calls. -/
def runOps (ops : List StackOp) (a : App) : App := ops.foldl (fun a op => op.run a) a

/-- Both stacks hold at most `maxSavedStates` entries. -/
abbrev Bounded (a : App) : Prop :=
  a.undoStack.length ≤ maxSavedStates ∧ a.redoStack.length ≤ maxSavedStates

/-- A property of the globals that holds however a run ends: `Q` of the result
when it returns, `P` of the globals when it throws. -/
def Always {σ α : Type} (P : σ → Prop) (Q : α → Prop) : Except (Thrown σ) α → Prop
  | .ok x => Q x
  | .error t => P t.now

/-- The globals after the states `ss` were made live and pushed, one after
the other. -/
def pushAll (ss : List JSValue) (a : App) : App :=
  ss.foldl (fun a s => finalOf (pushState { a with state := s })) a

/-! ## Vocabulary of the claims about the `domains` parameter -/

/-- The state is an object whose `model` is an object whose `domains` is an
array with the elements `ds`. -/
def HasDomains (st : JSValue) (ds : List JSValue) : Prop :=
  ∃ ps ms dp, st = .obj ps ∧ lookup "model" ps = some (.obj ms) ∧
    lookup "domains" ms = some (.arr ds dp)

/-- One group `idx,color,visible` of three fields of a `domains` value. -/
structure Triplet where
  idx : JSString
  color : JSString
  visible : JSString

/-- The fields of a `domains` value made of the triplets `ts`. -/
def fieldsOf : List Triplet → List JSString
  | [] => []
  | t :: ts => t.idx :: t.color :: t.visible :: fieldsOf ts

/-- The hexadecimal digits, in either case. -/
def isHexDigit (c : Char) : Bool := c ∈ "0123456789abcdefABCDEF".toList

/-- The text is exactly six hexadecimal digits. -/
def IsHex6 (s : JSString) : Prop := s.length = 6 ∧ ∀ c ∈ s, isHexDigit c = true

/-- The text starts with `t` or `T`. -/
def startsWithT (s : JSString) : Bool :=
  match s with
  | [] => false
  | c :: _ => decide (c = 't' ∨ c = 'T')

/-- A domain object after `dom.color = c; dom.visible = v`. -/
def withColorVisible (c v : JSValue) : JSValue → JSValue
  | .obj dp => .obj (assocSet "visible" v (assocSet "color" c dp))
  | d => d

/-- The domains after the triplet `t` was applied at the index it names. -/
def applyTriplet (ds : List JSValue) (t : Triplet) : List JSValue :=
  match parseInt t.idx with
  | some i =>
    ds.set i.toNat (withColorVisible (.str (toLowerCase t.color)) (matchLeadingT t.visible)
      (ds.getD i.toNat .undefined))
  | none => ds

/-- The domains after one round of the decoding loop on the triplet `t`: the
triplet is applied when its index is above 0 and below the number of
domains. -/
def stepDomains (ds : List JSValue) (t : Triplet) : List JSValue :=
  match parseInt t.idx with
  | some i => if 0 < i ∧ i < (ds.length : Int) then applyTriplet ds t else ds
  | none => ds

/-- The index of the triplet parses as an integer above 0 and below `n`. -/
def Triplet.inRange (n : Nat) (t : Triplet) : Bool :=
  match parseInt t.idx with
  | some i => decide (0 < i ∧ i < (n : Int))
  | none => false

/-- A domain object of the example states. -/
def demoDomain (name color : String) (visible : Bool) : JSValue :=
  .obj [("name", .str name.toList), ("color", .str color.toList), ("visible", .bool visible),
    ("obj", .str (name ++ ".vtk").toList), ("cat", .arr [JSValue.ofNat 0] [])]

/-- The three domains of the example state. -/
def demoDomains : List JSValue :=
  [demoDomain "colon" "ff0000" true, demoDomain "ileum" "00ff00" false,
    demoDomain "jejunum" "0000ff" true]

/-- An example of a configuration document as `JSON.parse` returns it: a
model with three domains in one category, no `sectioning` key. -/
def demoState : JSValue :=
  .obj [("title", .str "Gut".toList), ("info", .str "demo".toList),
    ("model_visible", .bool true),
    ("model", .obj [("name", .str "gut".toList), ("color", .str "ffffff".toList),
      ("opacity", JSValue.ofNat 1), ("surface", .str "gut.vtk".toList),
      ("camera_home", .obj [
        ("cen", .arr [JSValue.ofNat 0, JSValue.ofNat 0, JSValue.ofNat 0] []),
        ("near", JSValue.ofNat 1), ("far", JSValue.ofNat 1000),
        ("pos", .arr [JSValue.ofNat 0, JSValue.ofNat 0, JSValue.ofNat 10] []),
        ("up", .arr [JSValue.ofNat 0, JSValue.ofNat 1, JSValue.ofNat 0] [])]),
      ("domains", .arr demoDomains [])]),
    ("domain_sel", .arr [.obj [("name", .str "all".toList)]] [])]

/-- The state has a `domains` array whose element 0 is `d0` (`none`: the
array is empty). -/
def DomainZero (d0 : Option JSValue) (st : JSValue) : Prop :=
  ∃ ds, HasDomains st ds ∧ ds[0]? = d0

/-- A property of the state that holds however a run of the decoder ends. -/
def DecodeAlways (P : JSValue → Prop) :
    Except (Thrown JSValue) (JSValue × Option ParamError) → Prop
  | .ok r => P r.1
  | .error e => P e.now

/-- A second example state, the one whose view is shared: the model is not
visible and every colour differs from the one in `demoState`. -/
def sharedState : JSValue :=
  .obj [("title", .str "Gut".toList), ("model_visible", .bool false),
    ("model", .obj [("name", .str "gut".toList), ("color", .str "12ab9f".toList),
      ("domains", .arr [demoDomain "colon" "a1b2c3" false, demoDomain "ileum" "0d0e0f" true,
        demoDomain "jejunum" "445566" false] [])])]

/-- The value is neither `undefined` nor `null`. -/
def NonNull (v : JSValue) : Prop := v.isNullish = false

/-- The source's `setState(s)` reproduces `s`: started on `s` it returns and
leaves `state` equal to `s`. -/
def Reproduced (s : JSValue) : Prop :=
  ∃ c, cloneStruct s = some c ∧ setStateBody c = .ok s

/-- The properties of `demoLive`. -/
def demoLiveProps : Props :=
  [("title", .str "Gut".toList), ("info", .str "demo".toList),
    ("model_visible", .bool true),
    ("model", .obj [("name", .str "gut".toList), ("color", .str "ffffff".toList),
      ("opacity", JSValue.ofNat 1), ("surface", .str "gut.vtk".toList),
      ("camera_home", .obj [
        ("cen", .arr [JSValue.ofNat 0, JSValue.ofNat 0, JSValue.ofNat 0] []),
        ("near", JSValue.ofNat 1), ("far", JSValue.ofNat 1000),
        ("pos", .arr [JSValue.ofNat 0, JSValue.ofNat 0, JSValue.ofNat 10] []),
        ("up", .arr [JSValue.ofNat 0, JSValue.ofNat 1, JSValue.ofNat 0] [])]),
      ("domains", .arr demoDomains [])]),
    ("domain_sel", .arr [.obj [("name", .str "all".toList), ("sel_idx", JSValue.ofNat 0),
      ("visible", .bool false)]] []),
    ("model_init", .bool true)]

/-- The example state once the application runs: `demoState` after
`initModel()` and `setModel()`, as `main()` calls them.  It has no
`sectioning` key. -/
def demoLive : JSValue := .obj demoLiveProps

/-- The state `demoLive` with `sectioning` set to `false`, as `setState`
leaves it. -/
def demoStable : JSValue := .obj (demoLiveProps ++ [("sectioning", .bool false)])

/-! ## Objects by reference: the heap behind the snapshots

The definitions above treat a state as a value.  Whether a snapshot can be
changed through the live state is a question about references, so this
section models the objects of the program in a heap: a value is a primitive
or the address of an object, and an assignment through the live state
overwrites one object in place. -/

/-- A value of the program: a primitive or a reference to a heap object. -/
inductive HValue where
  | undefined
  | null
  | bool (b : Bool)
  | num (n : JSNum)
  | str (s : JSString)
  | ref (addr : Nat)
  deriving DecidableEq, Repr

/-- A heap object: an array or a plain object, holding values. -/
inductive HObject where
  | arr (elems : List HValue) (props : List (String × HValue))
  | obj (props : List (String × HValue))

/-- The heap: the object at address `a` is the entry of index `a`; allocation
appends. -/
abbrev Heap := List HObject

/-- The values an object holds. -/
def HObject.values : HObject → List HValue
  | .arr es ps => es ++ ps.map Prod.snd
  | .obj ps => ps.map Prod.snd

/-- Apply `g` to every element, failing when one application fails. -/
def mapOpt {α β : Type} (g : α → Option β) : List α → Option (List β)
  | [] => some []
  | x :: xs =>
    match g x, mapOpt g xs with
    | some y, some ys => some (y :: ys)
    | _, _ => none

/-- The tree that a value denotes in heap `h`, read to depth `fuel`; `none`
when the fuel runs out (as it does on a cyclic structure, for which
`JSON.stringify` throws) or a reference dangles. -/
def reify (h : Heap) : Nat → HValue → Option JSValue
  | _, .undefined => some .undefined
  | _, .null => some .null
  | _, .bool b => some (.bool b)
  | _, .num n => some (.num n)
  | _, .str s => some (.str s)
  | 0, .ref _ => none
  | fuel + 1, .ref a =>
    match h[a]? with
    | none => none
    | some (.arr es ps) =>
      match mapOpt (reify h fuel) es,
          mapOpt (fun kv => (reify h fuel kv.2).map fun v => (kv.1, v)) ps with
      | some es', some ps' => some (.arr es' ps')
      | _, _ => none
    | some (.obj ps) =>
      match mapOpt (fun kv => (reify h fuel kv.2).map fun v => (kv.1, v)) ps with
      | some ps' => some (.obj ps')
      | none => none

mutual
/-- Build the tree `t` out of fresh objects: the value that stands for it and
the extended heap.  This is what `JSON.parse` and an array or object literal
do. -/
def allocValue : JSValue → Heap → HValue × Heap
  | .undefined, h => (.undefined, h)
  | .null, h => (.null, h)
  | .bool b, h => (.bool b, h)
  | .num n, h => (.num n, h)
  | .str s, h => (.str s, h)
  | .arr es ps, h =>
    ((.ref (allocProps ps (allocElems es h).2).2.length),
      (allocProps ps (allocElems es h).2).2 ++
        [.arr (allocElems es h).1 (allocProps ps (allocElems es h).2).1])
  | .obj ps, h =>
    ((.ref (allocProps ps h).2.length), (allocProps ps h).2 ++ [.obj (allocProps ps h).1])
/-- Build the elements of an array. -/
def allocElems : List JSValue → Heap → List HValue × Heap
  | [], h => ([], h)
  | v :: vs, h =>
    ((allocValue v h).1 :: (allocElems vs (allocValue v h).2).1,
      (allocElems vs (allocValue v h).2).2)
/-- Build the properties of an object. -/
def allocProps : List (String × JSValue) → Heap → List (String × HValue) × Heap
  | [], h => ([], h)
  | (k, v) :: ps, h =>
    ((k, (allocValue v h).1) :: (allocProps ps (allocValue v h).2).1,
      (allocProps ps (allocValue v h).2).2)
end

mutual
/-- The depth of a tree: the fuel that reading it back needs. -/
def depth : JSValue → Nat
  | .arr es ps => max (depthElems es) (depthProps ps) + 1
  | .obj ps => depthProps ps + 1
  | _ => 0
/-- The largest depth among the elements. -/
def depthElems : List JSValue → Nat
  | [] => 0
  | v :: vs => max (depth v) (depthElems vs)
/-- The largest depth among the property values. -/
def depthProps : List (String × JSValue) → Nat
  | [] => 0
  | (_, v) :: ps => max (depth v) (depthProps ps)
end

/-- The heap version of `cloneStruct(v)`: the tree of `v` is serialised, and
the parsed document is built out of fresh objects.  `none` is an exception. -/
def hCloneStruct (h : Heap) (v : HValue) : Option (HValue × Heap) :=
  (reify h (h.length + 1) v).bind fun t =>
    (stringify t).map fun j => allocValue (parse j) h

/-- The value stored under key `k` in a list of properties. -/
def hLookup (k : String) : List (String × HValue) → Option HValue
  | [] => none
  | (k', v) :: ps => if k' = k then some v else hLookup k ps

/-- Store `x` under key `k` in a list of properties. -/
def hAssocSet (k : String) (x : HValue) : List (String × HValue) → List (String × HValue)
  | [] => [(k, x)]
  | (k', v) :: ps => if k' = k then (k', x) :: ps else (k', v) :: hAssocSet k x ps

/-- Assignment `a[i] = x` on the elements of an array in the heap. -/
def hSetElem : List HValue → Nat → HValue → List HValue
  | [], 0, x => [x]
  | [], i + 1, x => .undefined :: hSetElem [] i x
  | _ :: es, 0, x => x :: es
  | e :: es, i + 1, x => e :: hSetElem es i x

/-- The read `o[k]` of a heap object. -/
def HObject.getKey : HObject → Key → HValue
  | .obj ps, k => (hLookup k.name ps).getD .undefined
  | .arr es _, .idx i => es.getD i .undefined
  | .arr es ps, .prop p =>
    if p = "length" then .num (.fin es.length) else (hLookup p ps).getD .undefined

/-- The object after the assignment `o[k] = x`. -/
def HObject.setKey : HObject → Key → HValue → HObject
  | .obj ps, k, x => .obj (hAssocSet k.name x ps)
  | .arr es ps, .idx i, x => .arr (hSetElem es i x) ps
  | .arr es ps, .prop p, x => .arr es (hAssocSet p x ps)

/-- The read `v[k]` in heap `h`; `none` is a TypeError. -/
def hGet (h : Heap) (v : HValue) (k : Key) : Option HValue :=
  match v with
  | .undefined => none
  | .null => none
  | .ref a => (h[a]?).map fun o => o.getKey k
  | .str s =>
    match k with
    | .idx i => some (match s.get? i with | some c => .str [c] | none => .undefined)
    | .prop p => if p = "length" then some (.num (.fin s.length)) else some .undefined
  | .bool _ => some .undefined
  | .num _ => some .undefined

/-- The heap after the assignment `v.k1...kn = x`: the object that the path
leads to is overwritten in place.  `none` is a TypeError. -/
def hAssign (h : Heap) (v : HValue) : List Key → HValue → Option Heap
  | [], _ => some h
  | [k], x =>
    match v with
    | .undefined => none
    | .null => none
    | .ref a => (h[a]?).map fun o => h.set a (o.setKey k x)
    | _ => some h
  | k :: k2 :: ks, x => (hGet h v k).bind fun c => hAssign h c (k2 :: ks) x

/-- A mutation of the live state: the assignment `state.k1...kn = value`,
where the value is a primitive or is built by a literal or a call (an array
literal, a match result). -/
structure Mutation where
  path : List Key
  value : JSValue

/-- The globals, with the heap they point into. -/
structure HApp where
  heap : Heap
  state : HValue
  undoStack : List HValue
  redoStack : List HValue

/-- The guarded truncation of a stack of references. -/
def hTruncate (stack : List HValue) : List HValue :=
  if stack.length ≥ maxSavedStates then stack.take (maxSavedStates - 1) else stack

/-- The source's `pushState()` on the heap; `none` is an exception. -/
def hPushState (a : HApp) : Option HApp :=
  (hGet a.heap a.state "debug").bind fun _ =>
    (hCloneStruct a.heap a.state).map fun r =>
      { a with heap := r.2, undoStack := hTruncate a.undoStack ++ [r.1] }

/-- The source's `pushRedoState()` on the heap; `none` is an exception. -/
def hPushRedoState (a : HApp) : Option HApp :=
  (hGet a.heap a.state "debug").bind fun _ =>
    (hCloneStruct a.heap a.state).map fun r =>
      { a with heap := r.2, redoStack := hTruncate a.redoStack ++ [r.1] }

/-- The source's `popState()` on the heap: the value returned and the
globals; `none` is an exception. -/
def hPopState (a : HApp) : Option (HValue × HApp) :=
  (hGet a.heap a.state "debug").map fun _ =>
    (a.undoStack.getLast?.getD .undefined, { a with undoStack := a.undoStack.dropLast })

/-- The source's `popRedoState()` on the heap; `none` is an exception. -/
def hPopRedoState (a : HApp) : Option (HValue × HApp) :=
  (hGet a.heap a.state "debug").map fun _ =>
    (a.redoStack.getLast?.getD .undefined, { a with redoStack := a.redoStack.dropLast })

/-- The start of the source's `setState(newState)`, up to the assignment
`state = cloneStruct(newState)`; what `setState` does after it are mutations
of the live state.  `none` is an exception. -/
def hSetState (x : HValue) (a : HApp) : Option HApp :=
  (hGet a.heap a.state "debug").bind fun _ =>
    (hCloneStruct a.heap x).map fun r => { a with heap := r.2, state := r.1 }

/-- The globals after a mutation of the live state; a TypeError leaves the
objects as they were. -/
def hMutate (a : HApp) (m : Mutation) : HApp :=
  match hAssign (allocValue m.value a.heap).2 a.state m.path (allocValue m.value a.heap).1 with
  | some h => { a with heap := h }
  | none => { a with heap := (allocValue m.value a.heap).2 }

/-- Every reference held by the object satisfies `P`. -/
def RefsIn (P : Nat → Prop) (o : HObject) : Prop :=
  ∀ v ∈ o.values, ∀ b, v = HValue.ref b → P b

/-- The value is a primitive or a reference to an object of the heap. -/
def InHeap (h : Heap) (v : HValue) : Prop := ∀ b, v = HValue.ref b → b < h.length

/-- No object of the heap holds a dangling reference. -/
def WellFormed (h : Heap) : Prop :=
  ∀ (a : Nat) (o : HObject), h[a]? = some o → RefsIn (fun b => b < h.length) o

/-- The heap `h'` is `h` with objects appended, and the appended objects hold
references to appended objects only. -/
def Extends (h h' : Heap) : Prop :=
  (∃ new : List HObject, h' = h ++ new) ∧
  ∀ (a : Nat) (o : HObject), h.length ≤ a → h'[a]? = some o →
    RefsIn (fun b => h.length ≤ b ∧ b < h'.length) o

/-- The value is a primitive or a reference to an object appended to `h` in
`h'`. -/
def FreshIn (h h' : Heap) (v : HValue) : Prop :=
  ∀ b, v = HValue.ref b → h.length ≤ b ∧ b < h'.length

/-- The heap `h2` has the objects that `h'` has at the addresses appended to
`h`. -/
def AgreeOn (h h' h2 : Heap) : Prop :=
  ∀ a : Nat, h.length ≤ a → a < h'.length → h2[a]? = h'[a]?

/-- The objects at the addresses in `R` are out of reach of the live state
`root`: no object outside `R` refers into `R`, and `root` is outside `R`. -/
structure LiveSep (R : Nat → Prop) (h : Heap) (root : HValue) : Prop where
  within : ∀ b, R b → b < h.length
  wf : WellFormed h
  rootIn : InHeap h root
  rootOut : ∀ b, root = HValue.ref b → ¬ R b
  inv : ∀ (b : Nat) (o : HObject), ¬ R b → h[b]? = some o → RefsIn (fun c => ¬ R c) o

/-- An example heap: the state object at address 0 refers to the model object
at address 1. -/
def demoHeap : Heap :=
  [.obj [("title", .str "Gut".toList), ("model", .ref 1)],
   .obj [("color", .str "ffffff".toList)]]

/-- An example of globals over `demoHeap`, with empty stacks. -/
def demoHApp : HApp := ⟨demoHeap, .ref 0, [], []⟩

/-! ## The blocks of `updateStateFromParam` -/

/-- The `debug` block of `updateStateFromParam()`. -/
def debugStage (prm : Params) (st : JSValue) : Except (Thrown JSValue) JSValue :=
  match paramGiven prm.debug with
  | some d => assign st ["debug"] (matchLeadingT d)
  | none => pure st

/-- The block `if(!err && prm['model'])` of `updateStateFromParam()`, entered
with the state and the value of `err` in `r`. -/
def modelStage (prm : Params) (r : JSValue × Option ParamError) :
    Except (Thrown JSValue) (JSValue × Option ParamError) :=
  match r.2, paramGiven prm.model with
  | none, some v => decodeModel v r.1
  | _, _ => pure r

/-- The block `if(!err && prm['domains'])` of `updateStateFromParam()`. -/
def domainsStage (prm : Params) (r : JSValue × Option ParamError) :
    Except (Thrown JSValue) (JSValue × Option ParamError) :=
  match r.2, paramGiven prm.domains with
  | none, some v => decodeDomains v r.1
  | _, _ => pure r

/-- The block `if(!err && prm['home'])` of `updateStateFromParam()`. -/
def homeStage (prm : Params) (r : JSValue × Option ParamError) :
    Except (Thrown JSValue) (JSValue × Option ParamError) :=
  match r.2, paramGiven prm.home with
  | none, some v => decodeHome v r.1
  | _, _ => pure r

/-- The block `if(!err)` of `updateStateFromParam()` that sets
`state['sectioning']`. -/
def sectioningStage (prm : Params) (r : JSValue × Option ParamError) :
    Except (Thrown JSValue) (JSValue × Option ParamError) :=
  match r.2 with
  | none =>
    match decodeSectioning prm.sectioning r.1 with
    | .ok st => .ok (st, none)
    | .error e => .error e
  | some _ => pure r

/-- The block `if(!err && prm['section'])` of `updateStateFromParam()`. -/
def sectionStage (prm : Params) (r : JSValue × Option ParamError) :
    Except (Thrown JSValue) (JSValue × Option ParamError) :=
  match r.2, paramGiven prm.section_ with
  | none, some v => decodeSection v r.1
  | _, _ => pure r

/-! ## Vocabulary of the claims about the decoder -/

/-- The state is an object whose `model` is an object. -/
def ObjModel (st : JSValue) : Prop :=
  ∃ ps ms, st = .obj ps ∧ lookup "model" ps = some (.obj ms)

/-- The state `st'` is `st` up to the top-level keys in `top` and the keys of
`model` in `mod`: it is still an object whose `model` is an object, and every
other key of `model` and every other top-level key holds what it held. -/
def Frame (top mod : List String) (st st' : JSValue) : Prop :=
  ObjModel st' ∧
  (∀ k : String, k ∉ mod → getPath st' ["model", .prop k] = getPath st ["model", .prop k]) ∧
  (∀ k : String, k ≠ "model" → k ∉ top → getPath st' [.prop k] = getPath st [.prop k])

/-- The decoder rejects the triplet: its index does not parse as an integer
or its sanitised colour is not 6 characters long. -/
def Triplet.offending (t : Triplet) : Bool :=
  (parseInt t.idx).isNone || decide ((sanitizeColor t.color).length ≠ 6)

/-- The triplet with its colour sanitised, as the decoder stores it. -/
def Triplet.sanitized (t : Triplet) : Triplet := { t with color := sanitizeColor t.color }

/-- The state has a `camera_home` object whose `cen`, `pos` and `up` are
arrays. -/
def HasCameraHome (st : JSValue) : Prop :=
  ∃ ps ms cs cen cp pos pp up uq, st = .obj ps ∧ lookup "model" ps = some (.obj ms) ∧
    lookup "camera_home" ms = some (.obj cs) ∧ lookup "cen" cs = some (.arr cen cp) ∧
    lookup "pos" cs = some (.arr pos pp) ∧ lookup "up" cs = some (.arr up uq)

/-- The eleven values of `camera_home`, in the order of the `home` parameter:
`cen[0..2]`, `near`, `far`, `pos[0..2]`, `up[0..2]`. -/
def cameraHomeFields (st : JSValue) : List (Option JSValue) :=
  [getPath st ["model", "camera_home", "cen", .idx 0],
   getPath st ["model", "camera_home", "cen", .idx 1],
   getPath st ["model", "camera_home", "cen", .idx 2],
   getPath st ["model", "camera_home", "near"],
   getPath st ["model", "camera_home", "far"],
   getPath st ["model", "camera_home", "pos", .idx 0],
   getPath st ["model", "camera_home", "pos", .idx 1],
   getPath st ["model", "camera_home", "pos", .idx 2],
   getPath st ["model", "camera_home", "up", .idx 0],
   getPath st ["model", "camera_home", "up", .idx 1],
   getPath st ["model", "camera_home", "up", .idx 2]]

/-- An example state whose camera home differs in every field from the values
of the `home` parameter of the examples. -/
def sharedHome : JSValue :=
  .obj [("title", .str "Gut".toList),
    ("model", .obj [("name", .str "gut".toList), ("color", .str "ffffff".toList),
      ("camera_home", .obj [
        ("cen", .arr [JSValue.ofNat 5, JSValue.ofNat 6, JSValue.ofNat 7] []),
        ("near", JSValue.ofNat 2), ("far", JSValue.ofNat 500),
        ("pos", .arr [JSValue.ofNat 8, JSValue.ofNat 9, JSValue.ofNat 3] []),
        ("up", .arr [JSValue.ofNat 1, JSValue.ofNat 0, JSValue.ofNat 1] [])]),
      ("domains", .arr [] [])])]

/-- The state has a section object whose `dst`, `pit` and `yaw` are defined
and whose `fxp` is an array. -/
def HasSection (st : JSValue) : Prop :=
  ∃ ps ms ss dst pit yaw fx fp, st = .obj ps ∧ lookup "model" ps = some (.obj ms) ∧
    lookup "section" ms = some (.obj ss) ∧
    lookup "dst" ss = some dst ∧ dst.isUndefined = false ∧
    lookup "pit" ss = some pit ∧ pit.isUndefined = false ∧
    lookup "yaw" ss = some yaw ∧ yaw.isUndefined = false ∧
    lookup "fxp" ss = some (.arr fx fp)

/-- The read `state.k1...kn` returns a value other than `undefined`. -/
def DefinedAt (st : JSValue) (p : List Key) : Prop :=
  ∃ x, getPath st p = some x ∧ x.isUndefined = false

/-- The test of the `section` block: `state.sectioning` is truthy, and the
section and its `dst`, `pit`, `yaw` and `fxp` are all defined. -/
def SectionReady (st : JSValue) : Prop :=
  (∃ b, getPath st ["sectioning"] = some b ∧ truthy b = true) ∧
  DefinedAt st ["model", "section"] ∧ DefinedAt st ["model", "section", "dst"] ∧
  DefinedAt st ["model", "section", "pit"] ∧ DefinedAt st ["model", "section", "yaw"] ∧
  DefinedAt st ["model", "section", "fxp"]

/-- The six values of the section that the `section` parameter holds, in its
order: `dst`, `pit`, `yaw`, `fxp[0..2]`. -/
def sectionFields (st : JSValue) : List (Option JSValue) :=
  [getPath st ["model", "section", "dst"],
   getPath st ["model", "section", "pit"],
   getPath st ["model", "section", "yaw"],
   getPath st ["model", "section", "fxp", .idx 0],
   getPath st ["model", "section", "fxp", .idx 1],
   getPath st ["model", "section", "fxp", .idx 2]]

/-- An example state with sectioning on and a section. -/
def demoSectioned : JSValue :=
  .obj [("title", .str "Gut".toList), ("sectioning", .bool true),
    ("model", .obj [("name", .str "gut".toList), ("color", .str "ffffff".toList),
      ("section", .obj [("dst", JSValue.ofNat 0), ("pit", JSValue.ofNat 0),
        ("yaw", JSValue.ofNat 0),
        ("fxp", .arr [JSValue.ofNat 0, JSValue.ofNat 0, JSValue.ofNat 0] [])]),
      ("domains", .arr [] [])])]

/-- An example of the camera values read from the renderer. -/
def demoView : RenView :=
  { centerX := JSValue.ofNat 0, centerY := JSValue.ofNat 0, centerZ := JSValue.ofNat 0,
    nearPlane := JSValue.ofNat 1, farPlane := JSValue.ofNat 1000,
    positionX := JSValue.ofNat 0, positionY := JSValue.ofNat 0, positionZ := JSValue.ofNat 10,
    upX := JSValue.ofNat 0, upY := JSValue.ofNat 1, upZ := JSValue.ofNat 0 }

/-! ## Comparison of values and the labelled sliders -/

/-- The order `<` of two strings: by code unit, a proper prefix first. -/
def strLt : JSString → JSString → Bool
  | _, [] => false
  | [], _ :: _ => true
  | c :: cs, d :: ds =>
    if c.toNat < d.toNat then true else if c = d then strLt cs ds else false

/-- Is `u` an unsigned decimal literal: digits with an optional fraction, or
a fraction alone, then an optional exponent with at least one digit? -/
def isDecimalLiteral (u : JSString) : Bool :=
  let ip := takeDigits 10 u
  let fp := if ip.2.head? = some '.' then takeDigits 10 ip.2.tail else ([], ip.2)
  (!ip.1.isEmpty || !fp.1.isEmpty) &&
    match fp.2 with
    | [] => true
    | c :: r =>
      let r2 := if r.head? = some '-' ∨ r.head? = some '+' then r.tail else r
      decide (c = 'e' ∨ c = 'E') && !(takeDigits 10 r2).1.isEmpty && (takeDigits 10 r2).2.isEmpty

/-- The conversion of a string to a number (`Number(s)`, also applied by `<`
to a string compared with a number): white space is trimmed, the empty string
is 0, and a string that is not a numeric literal as a whole is `NaN`. -/
def stringToNumber (s : JSString) : JSNum :=
  let t := ((s.dropWhile isStrWhiteSpace).reverse.dropWhile isStrWhiteSpace).reverse
  let radix : Option Nat :=
    if t.take 2 = ['0', 'x'] ∨ t.take 2 = ['0', 'X'] then some 16
    else if t.take 2 = ['0', 'o'] ∨ t.take 2 = ['0', 'O'] then some 8
    else if t.take 2 = ['0', 'b'] ∨ t.take 2 = ['0', 'B'] then some 2
    else none
  if t = [] then .fin 0
  else
    match radix with
    | some r =>
      let ds := takeDigits r (t.drop 2)
      if ds.1 = [] ∨ ds.2 ≠ [] then .nan else .fin (digitsValue r ds.1)
    | none =>
      let u := if t.head? = some '-' ∨ t.head? = some '+' then t.tail else t
      if u = "Infinity".toList ∨ isDecimalLiteral u = true then parseFloat t else .nan

/-- The conversion of a value to a primitive that `<` applies first: an array
or an object becomes its string. -/
def toPrimitive (numStr : JSNum → JSString) : JSValue → JSValue
  | .arr es ps => .str (toStr numStr (.arr es ps))
  | .obj ps => .str (toStr numStr (.obj ps))
  | v => v

/-- The conversion of a primitive value to a number. -/
def toNumber : JSValue → JSNum
  | .undefined => .nan
  | .null => .fin 0
  | .bool true => .fin 1
  | .bool false => .fin 0
  | .num n => n
  | .str s => stringToNumber s
  | .arr _ _ => .nan
  | .obj _ => .nan

/-- The order `<` of two numbers; `NaN` is not below or above anything. -/
def numLt : JSNum → JSNum → Bool
  | .nan, _ => false
  | _, .nan => false
  | .negInf, .negInf => false
  | .negInf, _ => true
  | _, .negInf => false
  | .posInf, _ => false
  | _, .posInf => true
  | .fin a, .fin b => decide (a < b)
  | .fin a, .negZero => decide (a < 0)
  | .negZero, .fin b => decide (0 < b)
  | .negZero, .negZero => false

/-- The comparison `a < b`: two strings are compared as strings, any other
pair as numbers.  The source's `a > b` is `lessThan b a`. -/
def lessThan (numStr : JSNum → JSString) (a b : JSValue) : Bool :=
  match toPrimitive numStr a, toPrimitive numStr b with
  | .str x, .str y => strLt x y
  | pa, pb => numLt (toNumber pa) (toNumber pb)

/-- The source's `SliderType`. -/
inductive SliderType where
  | INT
  | FLOAT
  | LOG
  deriving DecidableEq, Repr

/-- The `slider` property that `createLabelSliderValue` gives a range input. -/
structure SliderSpec where
  st : SliderType
  min : JSValue := .undefined
  max : JSValue := .undefined
  pcn : JSValue := .undefined

/-- Which of the two inputs of a labelled slider fired the event. -/
inductive Widget where
  | number
  | range
  deriving DecidableEq, Repr

/-- The input element `ip` handed to `setLabelSliderValueAction`: its `value`,
always a string, and its `slider` property. -/
structure InputElem where
  widget : Widget
  value : JSString
  slider : Option SliderSpec := none

/-- The source's `getSliderValue(s)`.  A slider of type `INT` returns
`s.value`, a string; `conv` stands for the floating-point expressions of the
types `FLOAT` and `LOG`. -/
def getSliderValue (conv : SliderSpec → JSString → JSValue) (s : InputElem) : JSValue :=
  match s.slider with
  | none => .str s.value
  | some ss =>
    match ss.st with
    | .INT => .str s.value
    | .FLOAT => conv ss s.value
    | .LOG => conv ss s.value

/-- The source's `setLabelSliderValueAction(prefix, st, ip, prm)` on the
state, for the event of the input `ip` of the slider `pfx + prm`.  The calls
that set the values of the two inputs do not touch the state. -/
def setLabelSliderValueAction (numStr : JSNum → JSString)
    (conv : SliderSpec → JSString → JSValue) (pfx prm : JSString) (ip : InputElem)
    (st : JSValue) : Except (Thrown JSValue) JSValue :=
  let val : JSValue :=
    match ip.widget with
    | .number => .str ip.value
    | .range => getSliderValue conv ip
  if pfx = "sec_".toList then do
    let sectioning ← readPath st ["sectioning"]
    if truthy sectioning then
      let _ ← readPath st ["model", "section"]
      let st ←
        if prm = "dst".toList then assign st ["model", "section", "dst"] val
        else if prm = "pit".toList then assign st ["model", "section", "pit"] val
        else if prm = "yaw".toList then assign st ["model", "section", "yaw"] val
        else if prm = "vmin".toList then do
          let vmax ← readPath st ["model", "section", "map_vmax"]
          assign st ["model", "section", "map_vmin"] (if lessThan numStr vmax val then vmax else val)
        else if prm = "vmax".toList then do
          let vmin ← readPath st ["model", "section", "map_vmin"]
          assign st ["model", "section", "map_vmax"] (if lessThan numStr val vmin then vmin else val)
        else if prm = "vgamma".toList then assign st ["model", "section", "map_vgamma"] val
        else pure st
      updateSection st
    else pure st
  else if pfx = "model_".toList then do
    let _ ← readPath st ["model"]
    pure st
  else pure st

/-- An example state with sectioning on and a section whose grey value range
is 0 to 255, as numbers read from the configuration. -/
def demoMapped : JSValue :=
  .obj [("title", .str "Gut".toList), ("sectioning", .bool true),
    ("model", .obj [("name", .str "gut".toList), ("color", .str "ffffff".toList),
      ("section", .obj [("dst", JSValue.ofNat 0), ("pit", JSValue.ofNat 0),
        ("yaw", JSValue.ofNat 0), ("visible", .bool false),
        ("fxp", .arr [JSValue.ofNat 0, JSValue.ofNat 0, JSValue.ofNat 0] []),
        ("map_vmin", JSValue.ofNat 0), ("map_vmax", JSValue.ofNat 255)]),
      ("domains", .arr [] [])])]

/-- An example state with sectioning on and no section. -/
def demoNoSection : JSValue :=
  .obj [("title", .str "Gut".toList), ("sectioning", .bool true),
    ("model", .obj [("name", .str "gut".toList), ("color", .str "ffffff".toList),
      ("domains", .arr [] [])])]

/-- An example state with sectioning on and a section that holds a focus
point only. -/
def demoFocusOnly : JSValue :=
  .obj [("title", .str "Gut".toList), ("sectioning", .bool true),
    ("model", .obj [("name", .str "gut".toList), ("color", .str "ffffff".toList),
      ("section", .obj [("fxp", .arr [JSValue.ofNat 1, JSValue.ofNat 2, JSValue.ofNat 3] [])]),
      ("domains", .arr [] [])])]

/-! ## The colour swatch -/

/-- The source's `n.toString(16)` for an integer `n`. -/
def toString16 (n : Int) : JSString :=
  if n < 0 then '-' :: Nat.toDigits 16 n.natAbs else Nat.toDigits 16 n.toNat

/-- One round of the loop of `tripleHexColor`, for `v[idx] = x`. -/
def tripleHexStep (c : JSString) (x : Int) : JSString :=
  (if x < 16 then c ++ ['0'] else c) ++ toString16 x

/-- The loop `for(idx = i; idx < i + count; ++idx)` of `tripleHexColor`;
`none` is the TypeError of `v[idx].toString` for a missing `v[idx]`. -/
def tripleHexLoop (v : List Int) : Nat → Nat → JSString → Option JSString
  | 0, _, c => some c
  | count + 1, idx, c =>
    match v[idx]? with
    | none => none
    | some x => tripleHexLoop v count (idx + 1) (tripleHexStep c x)

/-- The source's `tripleHexColor(v)` for `v` holding integers, as the `data`
of an `ImageData` does (integers from 0 to 255: red, green, blue, alpha). -/
def tripleHexColor (v : List Int) : Option JSString := tripleHexLoop v 3 0 []

/-- Two hexadecimal digits of a number below 256, zero-padded. -/
def hexPair (n : Nat) : JSString := [Nat.digitChar (n / 16), Nat.digitChar (n % 16)]

/-- The source's `s.replace(/\d+.*$/, '')` for a string without a line
terminator, as the `id` of an element is: the part before the first digit. -/
def stripFromDigit (s : JSString) : JSString := s.takeWhile fun c => !c.isDigit

/-- The source's `s.match(/\d+/g)`: the runs of digits of `s`, in order (the
empty list stands for `null`). -/
def digitRuns : JSString → List JSString
  | [] => []
  | c :: cs =>
    if c.isDigit then
      match cs.head?.map Char.isDigit, digitRuns cs with
      | some true, run :: runs => (c :: run) :: runs
      | _, runs => [c] :: runs
    else digitRuns cs

/-- The assignment and the update of `swatchDoneAction` for the colour
`color` and the target `what`, with the runs of digits `mat` of the `id`.
Without a second run of digits the index is `NaN` and the assignment throws,
unless `domains` has a property of that name, which leaves the model. -/
def storeSwatchColor (what : JSString) (mat : List JSString) (color : JSString)
    (st : JSValue) : Except (Thrown JSValue) JSValue :=
  if what = "model_color".toList then
    match assign st ["model", "color"] (.str color) with
    | .error e => .error e
    | .ok st1 => updateModel st1
  else if what = "domainbutton".toList then
    match mat with
    | [] => .error ⟨.typeError, st⟩
    | _ :: rest =>
      match (rest.head?.bind parseInt).map Int.toNat with
      | some i =>
        match assign st ["model", "domains", .idx i, "color"] (.str color) with
        | .error e => .error e
        | .ok st1 => updateDomain i st1
      | none =>
        match assign st ["model", "domains", "NaN", "color"] (.str color) with
        | .error e => .error e
        | .ok st1 => .error ⟨.unsupported, st1⟩
  else .ok st

/-- The source's `swatchDoneAction(img, ev)` on the globals, for the global
`swatch_target` (`none`: `undefined`), the `id` of `img` and the `data` `v` of
the pixel under the event.  The two `debug` calls after `pushState()` read the
same `state.debug`. -/
def swatchDoneAction (swatchTarget : Option JSString) (imgId : JSString) (v : List Int)
    (a : App) : Except (Thrown App) App :=
  match debug a with
  | .error e => .error e
  | .ok a =>
    match paramGiven swatchTarget with
    | none => .ok a
    | some target =>
      if imgId = "swatch".toList then
        match pushState a with
        | .error e => .error e
        | .ok a1 =>
          match debug a1 with
          | .error e => .error e
          | .ok a2 =>
            match tripleHexColor v with
            | none => .error ⟨.typeError, a2⟩
            | some color =>
              liftState a2
                (storeSwatchColor (stripFromDigit target) (digitRuns target) color a2.state)
      else .ok a

/-! # Theorems -/

/-! ## The stacks stay bounded -/

theorem always_bind {σ α β : Type} {P : σ → Prop} {Q : α → Prop} {R : β → Prop}
    {x : Except (Thrown σ) α} {f : α → Except (Thrown σ) β}
    (hx : Always P Q x) (hf : ∀ v, Q v → Always P R (f v)) : Always P R (x >>= f) := by
  cases x with
  | error t => exact hx
  | ok v => exact hf v hx

theorem always_finalOf {σ : Type} {P : σ → Prop} {r : Except (Thrown σ) σ}
    (h : Always P P r) : P (finalOf r) := by
  cases r <;> exact h

theorem debug_always {P : App → Prop} {a : App} (h : P a) : Always P (fun b => b = a) (debug a) := by
  unfold debug
  split
  · rfl
  · exact h

theorem truncateStack_length (u : List JSValue) : (truncateStack u).length < maxSavedStates := by
  unfold truncateStack maxSavedStates
  split
  · simp only [List.length_take]; omega
  · omega

theorem pushState_bounded {a : App} (h : Bounded a) : Always Bounded Bounded (pushState a) := by
  unfold pushState
  refine always_bind (debug_always h) ?_
  rintro b rfl
  have := truncateStack_length b.undoStack
  cases hc : cloneStruct b.state <;> simp only [hc]
  · exact ⟨Nat.le_of_lt this, h.2⟩
  · refine ⟨?_, h.2⟩
    simp only [List.length_append, List.length_singleton]; omega

theorem pushRedoState_bounded {a : App} (h : Bounded a) : Always Bounded Bounded (pushRedoState a) := by
  unfold pushRedoState
  refine always_bind (debug_always h) ?_
  rintro b rfl
  have := truncateStack_length b.redoStack
  cases hc : cloneStruct b.state <;> simp only [hc]
  · exact ⟨h.1, Nat.le_of_lt this⟩
  · refine ⟨h.1, ?_⟩
    simp only [List.length_append, List.length_singleton]; omega

theorem popState_bounded {a : App} (h : Bounded a) :
    Always Bounded (fun r => Bounded r.2) (popState a) := by
  unfold popState
  refine always_bind (debug_always h) ?_
  rintro b rfl
  refine ⟨?_, h.2⟩
  have := h.1
  simp only [List.length_dropLast]; omega

theorem popRedoState_bounded {a : App} (h : Bounded a) :
    Always Bounded (fun r => Bounded r.2) (popRedoState a) := by
  unfold popRedoState
  refine always_bind (debug_always h) ?_
  rintro b rfl
  refine ⟨h.1, ?_⟩
  have := h.2
  simp only [List.length_dropLast]; omega

theorem liftState_stacks {P : App → Prop} (a : App)
    (hP : ∀ s, P { a with state := s }) (r : Except (Thrown JSValue) JSValue) :
    Always P P (liftState a r) := by
  cases r <;> exact hP _

theorem setState_bounded (s : JSValue) {a : App} (h : Bounded a) :
    Always Bounded Bounded (setState s a) := by
  unfold setState
  refine always_bind (debug_always h) ?_
  rintro b rfl
  cases hc : cloneStruct s <;> simp only [hc]
  · exact h
  · exact liftState_stacks b (fun _ => h) _

theorem setStateIf_bounded (s : JSValue) {a : App} (h : Bounded a) :
    Always Bounded Bounded (setStateIf s a) := by
  unfold setStateIf
  split
  · exact setState_bounded s h
  · exact h

theorem debug_last {P : App → Prop} {a : App} (h : P a) : Always P P (debug a) := by
  unfold debug
  split <;> exact h

theorem redoAction_bounded {a : App} (h : Bounded a) : Always Bounded Bounded (redoAction a) := by
  unfold redoAction
  refine always_bind (debug_always h) ?_
  rintro b rfl
  refine always_bind (pushState_bounded h) ?_
  intro c hc
  refine always_bind (setStateIf_bounded _ ?_) (fun d hd => debug_last hd)
  refine ⟨hc.1, ?_⟩
  have := hc.2
  simp only [List.length_dropLast]; omega

theorem undoAction_bounded {a : App} (h : Bounded a) : Always Bounded Bounded (undoAction a) := by
  unfold undoAction
  refine always_bind (debug_always h) ?_
  rintro b rfl
  refine always_bind (pushRedoState_bounded h) ?_
  intro c hc
  refine always_bind (popState_bounded hc) ?_
  intro r hr
  exact always_bind (setStateIf_bounded _ hr) (fun d hd => debug_last hd)

theorem run_bounded (op : StackOp) {a : App} (h : Bounded a) : Bounded (op.run a) := by
  cases op with
  | pushState => exact always_finalOf (pushState_bounded h)
  | pushRedoState => exact always_finalOf (pushRedoState_bounded h)
  | popState =>
    have := popState_bounded h
    simp only [StackOp.run]
    cases hp : popState a <;> rw [hp] at this <;> exact this
  | popRedoState =>
    have := popRedoState_bounded h
    simp only [StackOp.run]
    cases hp : popRedoState a <;> rw [hp] at this <;> exact this
  | undoAction => exact always_finalOf (undoAction_bounded h)
  | redoAction => exact always_finalOf (redoAction_bounded h)
  | edit s => exact h

theorem runOps_bounded (ops : List StackOp) {a : App} (h : Bounded a) : Bounded (runOps ops a) := by
  induction ops generalizing a with
  | nil => exact h
  | cons op ops ih => exact ih (run_bounded op h)

/-- C4: starting from empty stacks, after any sequence of calls of pushState,
pushRedoState, popState, popRedoState, undoAction and redoAction, with any
change of the live state in between, each stack holds at most 100 entries. -/
theorem stacks_bounded (ops : List StackOp) (s : JSValue) :
    (runOps ops ⟨s, [], []⟩).undoStack.length ≤ 100 ∧
      (runOps ops ⟨s, [], []⟩).redoStack.length ≤ 100 :=
  runOps_bounded ops (a := ⟨s, [], []⟩) ⟨Nat.zero_le _, Nat.zero_le _⟩

/-! ## Overflow and empty stacks -/

theorem debug_ok {a : App} (h : a.state.isNullish = false) : debug a = .ok a := by
  unfold debug
  cases hs : a.state <;> simp_all [getKey, JSValue.isNullish]

theorem stringify_isSome {s : JSValue} (h : s.isNullish = false) :
    ∃ j, stringify s = some j := by
  cases s with
  | undefined => simp [JSValue.isNullish] at h
  | num n => cases n <;> exact ⟨_, rfl⟩
  | _ => exact ⟨_, rfl⟩

theorem cloneStruct_isSome {s : JSValue} (h : s.isNullish = false) :
    ∃ c, cloneStruct s = some c := by
  obtain ⟨j, hj⟩ := stringify_isSome h
  exact ⟨parse j, by simp [cloneStruct, hj]⟩

theorem pushState_ok {s c : JSValue} (u r : List JSValue) (hs : s.isNullish = false)
    (hc : cloneStruct s = some c) :
    pushState ⟨s, u, r⟩ = .ok ⟨s, truncateStack u ++ [c], r⟩ := by
  simp only [pushState, debug_ok (a := ⟨s, u, r⟩) hs, bind, Except.bind, hc, pure, Except.pure]

theorem pushRedoState_ok {s c : JSValue} (u r : List JSValue) (hs : s.isNullish = false)
    (hc : cloneStruct s = some c) :
    pushRedoState ⟨s, u, r⟩ = .ok ⟨s, u, truncateStack r ++ [c]⟩ := by
  simp only [pushRedoState, debug_ok (a := ⟨s, u, r⟩) hs, bind, Except.bind, hc, pure,
    Except.pure]

theorem truncateStack_of_le {u : List JSValue} (h : maxSavedStates ≤ u.length) :
    truncateStack u = u.take 99 := by
  unfold truncateStack
  rw [if_pos h]
  rfl

theorem pushAll_length (ss : List JSValue) (a : App) (hss : ∀ x ∈ ss, x.isNullish = false)
    (ha : a.undoStack.length ≤ maxSavedStates) :
    (pushAll ss a).undoStack.length = min (a.undoStack.length + ss.length) maxSavedStates := by
  induction ss generalizing a with
  | nil => simp [pushAll, Nat.min_eq_left ha]
  | cons x xs ih =>
    have hx : x.isNullish = false := hss x (List.mem_cons_self _ _)
    obtain ⟨c, hc⟩ := cloneStruct_isSome hx
    have hstep : finalOf (pushState { a with state := x }) =
        ⟨x, truncateStack a.undoStack ++ [c], a.redoStack⟩ := by
      rw [pushState_ok a.undoStack a.redoStack hx hc]; rfl
    have hlen : (truncateStack a.undoStack ++ [c]).length =
        min (a.undoStack.length + 1) maxSavedStates := by
      unfold truncateStack maxSavedStates at *
      split
      · simp only [List.length_append, List.length_take, List.length_singleton]; omega
      · simp only [List.length_append, List.length_singleton]; omega
    have hb : (truncateStack a.undoStack ++ [c]).length ≤ maxSavedStates := by
      rw [hlen]; exact Nat.min_le_right _ _
    have := ih ⟨x, truncateStack a.undoStack ++ [c], a.redoStack⟩
      (fun y hy => hss y (List.mem_cons_of_mem _ hy)) hb
    simp only [pushAll, List.foldl_cons, hstep] at this ⊢
    rw [this, hlen]
    simp only [List.length_cons]
    unfold maxSavedStates
    omega

/-- C5: on an undo stack `u` of 100 entries or more, pushState leaves exactly
100 entries, the first 99 entries of `u` in their order followed by a
snapshot of the state, so the oldest entry is kept and the entries from index
99 on are dropped; and 101 successive pushes onto an empty stack leave
exactly 100 entries. -/
theorem pushState_overflow (s : JSValue) (u r : List JSValue)
    (hs : s.isNullish = false) (hu : maxSavedStates ≤ u.length) :
    (∃ c, cloneStruct s = some c ∧
      pushState ⟨s, u, r⟩ = .ok ⟨s, u.take 99 ++ [c], r⟩ ∧
      (u.take 99 ++ [c]).length = 100 ∧
      (∀ i, i < 99 → (u.take 99 ++ [c])[i]? = u[i]?) ∧
      (u.take 99 ++ [c])[99]? = some c) ∧
    ∀ ss : List JSValue, ss.length = 101 → (∀ x ∈ ss, x.isNullish = false) →
      (pushAll ss ⟨s, [], r⟩).undoStack.length = 100 := by
  have hu' : 100 ≤ u.length := hu
  have hlen : (u.take 99).length = 99 := by
    simp only [List.length_take]; omega
  refine ⟨?_, ?_⟩
  · obtain ⟨c, hc⟩ := cloneStruct_isSome hs
    refine ⟨c, hc, ?_, ?_, ?_, ?_⟩
    · rw [pushState_ok u r hs hc, truncateStack_of_le hu]
    · simp only [List.length_append, hlen, List.length_singleton]
    · intro i hi
      rw [List.getElem?_append_left (by omega), List.getElem?_take_of_lt hi]
    · rw [List.getElem?_append_right (by omega), hlen]
      rfl
  · intro ss hl hss
    rw [pushAll_length ss _ hss (Nat.zero_le _)]
    simp [hl, maxSavedStates]

/-- Witness for C5: a stack of 100 entries and the state `true`. -/
theorem pushState_overflow_witness :
    (∃ c, cloneStruct (.bool true) = some c ∧
      pushState ⟨.bool true, List.replicate 100 .null, []⟩ =
        .ok ⟨.bool true, (List.replicate 100 JSValue.null).take 99 ++ [c], []⟩ ∧
      ((List.replicate 100 JSValue.null).take 99 ++ [c]).length = 100 ∧
      (∀ i, i < 99 → ((List.replicate 100 JSValue.null).take 99 ++ [c])[i]? =
        (List.replicate 100 JSValue.null)[i]?) ∧
      ((List.replicate 100 JSValue.null).take 99 ++ [c])[99]? = some c) ∧
    ∀ ss : List JSValue, ss.length = 101 → (∀ x ∈ ss, x.isNullish = false) →
      (pushAll ss ⟨.bool true, [], []⟩).undoStack.length = 100 :=
  pushState_overflow (.bool true) (List.replicate 100 .null) [] rfl
    (by simp [maxSavedStates])

theorem popState_ok {s : JSValue} (u r : List JSValue) (hs : s.isNullish = false) :
    popState ⟨s, u, r⟩ = .ok (u.getLast?.getD .undefined, ⟨s, u.dropLast, r⟩) := by
  simp only [popState, debug_ok (a := ⟨s, u, r⟩) hs, bind, Except.bind, pure, Except.pure]

theorem popRedoState_ok {s : JSValue} (u r : List JSValue) (hs : s.isNullish = false) :
    popRedoState ⟨s, u, r⟩ = .ok (r.getLast?.getD .undefined, ⟨s, u, r.dropLast⟩) := by
  simp only [popRedoState, debug_ok (a := ⟨s, u, r⟩) hs, bind, Except.bind, pure, Except.pure]

/-- C6: on an empty stack popState and popRedoState return `undefined` and
change nothing, and undoAction with an empty undo stack, like redoAction with
an empty redo stack, returns normally and leaves the application state as it
was. -/
theorem empty_stack_pop_noop (s : JSValue) (u r : List JSValue) (hs : s.isNullish = false) :
    popState ⟨s, [], r⟩ = .ok (.undefined, ⟨s, [], r⟩) ∧
    popRedoState ⟨s, u, []⟩ = .ok (.undefined, ⟨s, u, []⟩) ∧
    (∃ a, undoAction ⟨s, [], r⟩ = .ok a ∧ a.state = s) ∧
    (∃ a, redoAction ⟨s, u, []⟩ = .ok a ∧ a.state = s) := by
  obtain ⟨c, hc⟩ := cloneStruct_isSome hs
  refine ⟨popState_ok [] r hs, popRedoState_ok u [] hs,
    ⟨⟨s, [], truncateStack r ++ [c]⟩, ?_, rfl⟩, ⟨⟨s, truncateStack u ++ [c], []⟩, ?_, rfl⟩⟩
  · simp only [undoAction, debug_ok (a := ⟨s, [], r⟩) hs, bind, Except.bind,
      pushRedoState_ok [] r hs hc, popState_ok [] _ hs, setStateIf, truthy,
      List.getLast?_nil, Option.getD_none, List.dropLast_nil, Bool.false_eq_true, if_false]
    exact debug_ok hs
  · simp only [redoAction, debug_ok (a := ⟨s, u, []⟩) hs, bind, Except.bind,
      pushState_ok u [] hs hc, setStateIf, truthy,
      List.getLast?_nil, Option.getD_none, List.dropLast_nil, Bool.false_eq_true, if_false]
    exact debug_ok hs

/-- Witness for C6: the state is an empty object. -/
theorem empty_stack_pop_noop_witness :
    popState ⟨.obj [], [], []⟩ = .ok (.undefined, ⟨.obj [], [], []⟩) ∧
    popRedoState ⟨.obj [], [], []⟩ = .ok (.undefined, ⟨.obj [], [], []⟩) ∧
    (∃ a, undoAction ⟨.obj [], [], []⟩ = .ok a ∧ a.state = .obj []) ∧
    (∃ a, redoAction ⟨.obj [], [], []⟩ = .ok a ∧ a.state = .obj []) :=
  empty_stack_pop_noop (.obj []) [] [] rfl

/-! ## Reads and assignments in a state with domains -/

theorem lookup_assocSet_same (k : String) (x : JSValue) (ps : Props) :
    lookup k (assocSet k x ps) = some x := by
  induction ps with
  | nil => simp [assocSet, lookup]
  | cons p ps ih =>
    obtain ⟨k', v⟩ := p
    by_cases h : k' = k <;> simp [assocSet, lookup, h, ih]

theorem lookup_assocSet_ne {k k' : String} (h : k' ≠ k) (x : JSValue) (ps : Props) :
    lookup k (assocSet k' x ps) = lookup k ps := by
  induction ps with
  | nil => simp [assocSet, lookup, h]
  | cons p ps ih =>
    obtain ⟨k2, v⟩ := p
    by_cases h2 : k2 = k'
    · subst h2; simp [assocSet, lookup, h]
    · by_cases h3 : k2 = k
      · subst h3; simp [assocSet, lookup, h2]
      · simp [assocSet, lookup, h2, h3, ih]

theorem setElem_eq_set (es : List JSValue) (i : Nat) (x : JSValue) (h : i < es.length) :
    setElem es i x = es.set i x := by
  induction es generalizing i with
  | nil => simp at h
  | cons e es ih =>
    cases i with
    | zero => rfl
    | succ i =>
      simp only [setElem, List.set_cons_succ]
      rw [ih i (by simpa using h)]

theorem hasDomains_getPath {st : JSValue} {ds : List JSValue} (h : HasDomains st ds) :
    ∃ dp, getPath st ["model", "domains"] = some (.arr ds dp) := by
  obtain ⟨ps, ms, dp, rfl, hm, hd⟩ := h
  exact ⟨dp, by simp [getPath, getKey, Key.name, hm, hd]⟩

theorem hasDomains_loopBound {st : JSValue} {ds : List JSValue} (h : HasDomains st ds) :
    loopBound st ["model", "domains"] = .ok ds.length := by
  obtain ⟨dp, hp⟩ := hasDomains_getPath h
  simp [loopBound, readPath, hp, orThrow, lengthIn, lengthBound]

theorem hasDomains_getDomain {st : JSValue} {ds : List JSValue} (h : HasDomains st ds)
    (j : Nat) : getPath st ["model", "domains", .idx j] = some (ds.getD j .undefined) := by
  obtain ⟨ps, ms, dp, rfl, hm, hd⟩ := h
  simp [getPath, getKey, Key.name, hm, hd]

theorem hasDomains_assign {st : JSValue} {ds : List JSValue} (h : HasDomains st ds)
    {j : Nat} {dprops : Props} (hd : ds[j]? = some (.obj dprops))
    (k : String) (x : JSValue) :
    ∃ st', assign st ["model", "domains", .idx j, .prop k] x = .ok st' ∧
      HasDomains st' (ds.set j (.obj (assocSet k x dprops))) := by
  obtain ⟨ps, ms, dp, rfl, hm, hdm⟩ := h
  have hj : j < ds.length := by
    rcases Nat.lt_or_ge j ds.length with h | h
    · exact h
    · rw [List.getElem?_eq_none h] at hd; cases hd
  refine ⟨.obj (assocSet "model" (.obj (assocSet "domains"
    (.arr (ds.set j (.obj (assocSet k x dprops))) dp) ms)) ps), ?_, ?_⟩
  · simp [assign, setPath, getKey, setKey, Key.name, hm, hdm, hd, orThrow,
      setElem_eq_set _ _ _ hj]
  · exact ⟨_, _, dp, rfl, lookup_assocSet_same _ _ _, lookup_assocSet_same _ _ _⟩

theorem isLowerHex_lowerChar_of_isHexDigit :
    ∀ c ∈ "0123456789abcdefABCDEF".toList, isLowerHex (lowerChar c) = true := by
  decide

theorem sanitizeColor_of_isHex6 {s : JSString} (h : IsHex6 s) :
    sanitizeColor s = toLowerCase s ∧ (sanitizeColor s).length = 6 := by
  have hf : sanitizeColor s = toLowerCase s := by
    unfold sanitizeColor
    rw [List.filter_eq_self]
    intro c hc
    obtain ⟨d, hd, rfl⟩ := List.mem_map.1 hc
    have := h.2 d hd
    simp only [isHexDigit, decide_eq_true_eq] at this
    exact isLowerHex_lowerChar_of_isHexDigit d this
  exact ⟨hf, by rw [hf]; simpa [toLowerCase] using h.1⟩

theorem decodeTriplets_step (st : JSValue) (t : Triplet) (rest : List JSString)
    {ds : List JSValue} (hst : HasDomains st ds) (hobj : ∀ d ∈ ds, d.isObj = true)
    {i : Int} (hi : parseInt t.idx = some i) (hc : IsHex6 t.color) :
    ∃ st1, decodeTriplets st (t.idx :: t.color :: t.visible :: rest) = decodeTriplets st1 rest ∧
      HasDomains st1 (stepDomains ds t) ∧ ∀ d ∈ stepDomains ds t, d.isObj = true := by
  obtain ⟨hs1, hs2⟩ := sanitizeColor_of_isHex6 hc
  by_cases hr : 0 < i ∧ i < (ds.length : Int)
  · obtain ⟨h0, hlt⟩ := hr
    have hj : i.toNat < ds.length := by omega
    have hcast : (i.toNat : Int) = i := Int.toNat_of_nonneg (le_of_lt h0)
    obtain ⟨dp, hdp⟩ : ∃ dp, ds[i.toNat]? = some (.obj dp) := by
      have hm := hobj _ (List.getElem_mem hj)
      rw [List.getElem?_eq_getElem hj]
      cases hd : ds[i.toNat] <;> simp_all [JSValue.isObj]
    obtain ⟨st1, ha1, hd1⟩ := hasDomains_assign hst hdp "color" (.str (sanitizeColor t.color))
    have hdp1 : (ds.set i.toNat (.obj (assocSet "color" (.str (sanitizeColor t.color)) dp)))[i.toNat]?
        = some (.obj (assocSet "color" (.str (sanitizeColor t.color)) dp)) := by
      rw [List.getElem?_set_self hj]
    obtain ⟨st2, ha2, hd2⟩ := hasDomains_assign hd1 hdp1 "visible" (matchLeadingT t.visible)
    have hstep : stepDomains ds t = ds.set i.toNat
        (.obj (assocSet "visible" (matchLeadingT t.visible)
          (assocSet "color" (.str (sanitizeColor t.color)) dp))) := by
      have hg : ds.getD i.toNat .undefined = .obj dp := by
        rw [List.getD_eq_getElem?_getD, hdp]; rfl
      simp only [stepDomains, hi, h0, hlt, and_self, if_true, applyTriplet, hg, withColorVisible,
        hs1]
    refine ⟨st2, ?_, ?_, ?_⟩
    · rw [decodeTriplets]
      simp only [hi, hs2, ne_eq, not_true_eq_false, if_false, h0, if_true,
        hasDomains_loopBound hst, hlt, ha1, ha2]
    · rw [hstep]
      simpa [List.set_set] using hd2
    · rw [hstep]
      intro d hd
      rcases List.mem_or_eq_of_mem_set hd with h | h
      · exact hobj d h
      · rw [h]; rfl
  · have hstep : stepDomains ds t = ds := by
      simp only [stepDomains, hi, hr, if_false]
    refine ⟨st, ?_, by rw [hstep]; exact hst, by rw [hstep]; exact hobj⟩
    rw [decodeTriplets]
    simp only [hi, hs2, ne_eq, not_true_eq_false, if_false]
    by_cases h0 : 0 < i
    · have hlt : ¬ i < (ds.length : Int) := fun h => hr ⟨h0, h⟩
      simp only [h0, if_true, hasDomains_loopBound hst, hlt, if_false]
    · simp only [h0, if_false]

theorem decodeTriplets_valid (ts : List Triplet) :
    ∀ (st : JSValue) (ds : List JSValue), HasDomains st ds → (∀ d ∈ ds, d.isObj = true) →
      (∀ t ∈ ts, ∃ i : Int, parseInt t.idx = some i ∧ IsHex6 t.color) →
      ∃ st', decodeTriplets st (fieldsOf ts) = .ok (st', none) ∧
        HasDomains st' (ts.foldl stepDomains ds) ∧
        ∀ d ∈ ts.foldl stepDomains ds, d.isObj = true := by
  induction ts with
  | nil =>
    intro st ds hst hobj _
    exact ⟨st, by simp [fieldsOf, decodeTriplets], hst, hobj⟩
  | cons t ts ih =>
    intro st ds hst hobj hts
    obtain ⟨i, hi, hc⟩ := hts t (List.mem_cons_self _ _)
    obtain ⟨st1, hstep, hd1, ho1⟩ := decodeTriplets_step st t (fieldsOf ts) hst hobj hi hc
    obtain ⟨st', hrest, hd', ho'⟩ := ih st1 _ hd1 ho1
      (fun t' ht' => hts t' (List.mem_cons_of_mem _ ht'))
    exact ⟨st', by rw [fieldsOf, hstep, hrest], hd', ho'⟩

theorem updateStateFromParam_domains_only (val : JSString) (st : JSValue) (hval : val ≠ []) :
    updateStateFromParam { domains := some val } st =
      match decodeDomains val st with
      | .error e => .error e
      | .ok (st1, some e) => .ok (st1, some e)
      | .ok (st1, none) =>
        match decodeSectioning none st1 with
        | .error e => .error e
        | .ok st2 => .ok (st2, none) := by
  cases val with
  | nil => exact absurd rfl hval
  | cons c cs =>
    simp only [updateStateFromParam, paramGiven, bind, Except.bind, pure, Except.pure]
    cases hd : decodeDomains (c :: cs) st with
    | error e => rfl
    | ok r =>
      obtain ⟨st1, err⟩ := r
      cases err with
      | some e => rfl
      | none =>
        simp only
        cases hs : decodeSectioning none st1 <;> rfl

theorem getPath_append (v : JSValue) (p q : List Key) :
    getPath v (p ++ q) = (getPath v p).bind fun c => getPath c q := by
  induction p generalizing v with
  | nil => rfl
  | cons k ks ih =>
    simp only [List.cons_append, getPath]
    cases getKey v k with
    | none => rfl
    | some c => exact ih c

theorem applyTriplet_length (ds : List JSValue) (t : Triplet) :
    (applyTriplet ds t).length = ds.length := by
  unfold applyTriplet
  split <;> simp

theorem stepDomains_length (ds : List JSValue) (t : Triplet) :
    (stepDomains ds t).length = ds.length := by
  unfold stepDomains
  split
  · split
    · exact applyTriplet_length ds t
    · rfl
  · rfl

theorem foldl_stepDomains_length (ts : List Triplet) (ds : List JSValue) :
    (ts.foldl stepDomains ds).length = ds.length := by
  induction ts generalizing ds with
  | nil => rfl
  | cons t ts ih => rw [List.foldl_cons, ih, stepDomains_length]

theorem stepDomains_eq_of_inRange {ds : List JSValue} {t : Triplet}
    (h : t.inRange ds.length = true) : stepDomains ds t = applyTriplet ds t := by
  unfold Triplet.inRange at h
  unfold stepDomains
  cases hp : parseInt t.idx with
  | none => rw [hp] at h; cases h
  | some i =>
    rw [hp] at h
    simp only [decide_eq_true_eq] at h
    simp only [h, and_self, if_true]

theorem stepDomains_eq_of_not_inRange {ds : List JSValue} {t : Triplet}
    (h : t.inRange ds.length = false) : stepDomains ds t = ds := by
  unfold Triplet.inRange at h
  unfold stepDomains
  cases hp : parseInt t.idx with
  | none => rfl
  | some i =>
    rw [hp] at h
    simp only [decide_eq_false_iff_not] at h
    simp only [h, if_false]

theorem foldl_stepDomains_filter (ts : List Triplet) (ds : List JSValue) :
    ts.foldl stepDomains ds = (ts.filter (Triplet.inRange ds.length)).foldl applyTriplet ds := by
  induction ts generalizing ds with
  | nil => rfl
  | cons t ts ih =>
    rw [List.foldl_cons, ih, stepDomains_length]
    cases h : t.inRange ds.length
    · rw [stepDomains_eq_of_not_inRange h, List.filter_cons_of_neg (by simp [h])]
    · rw [stepDomains_eq_of_inRange h, List.filter_cons_of_pos h, List.foldl_cons]

theorem stepDomains_getElem?_of_ne (ds : List JSValue) (t : Triplet) (j : Nat)
    (h : parseInt t.idx ≠ some (j : Int)) : (stepDomains ds t)[j]? = ds[j]? := by
  unfold stepDomains
  cases hp : parseInt t.idx with
  | none => rfl
  | some i =>
    simp only
    split
    · rename_i hr
      unfold applyTriplet
      simp only [hp]
      rw [List.getElem?_set_ne]
      intro hij
      apply h
      rw [hp, ← hij, Int.toNat_of_nonneg (le_of_lt hr.1)]
    · rfl

theorem foldl_stepDomains_getElem?_of_ne (ts : List Triplet) (ds : List JSValue) (j : Nat)
    (h : ∀ t ∈ ts, parseInt t.idx ≠ some (j : Int)) :
    (ts.foldl stepDomains ds)[j]? = ds[j]? := by
  induction ts generalizing ds with
  | nil => rfl
  | cons t ts ih =>
    rw [List.foldl_cons, ih _ (fun t' ht' => h t' (List.mem_cons_of_mem _ ht')),
      stepDomains_getElem?_of_ne ds t j (h t (List.mem_cons_self _ _))]

theorem stepDomains_getElem?_named (ds : List JSValue) (t : Triplet) (j : Nat) (dp : Props)
    (hi : parseInt t.idx = some (j : Int)) (h0 : 0 < j) (hd : ds[j]? = some (.obj dp)) :
    (stepDomains ds t)[j]? = some (.obj (assocSet "visible" (matchLeadingT t.visible)
      (assocSet "color" (.str (toLowerCase t.color)) dp))) := by
  have hj : j < ds.length := by
    rcases Nat.lt_or_ge j ds.length with h | h
    · exact h
    · rw [List.getElem?_eq_none h] at hd; cases hd
  have hg : ds.getD j .undefined = .obj dp := by
    rw [List.getD_eq_getElem?_getD, hd]; rfl
  have hr : (0 : Int) < (j : Int) ∧ (j : Int) < (ds.length : Int) := by omega
  simp only [stepDomains, hi, hr, and_self, if_true, applyTriplet, Int.toNat_ofNat, hg,
    withColorVisible]
  rw [List.getElem?_set_self hj]

theorem truthy_matchLeadingT (s : JSString) : truthy (matchLeadingT s) = startsWithT s := by
  cases s with
  | nil => rfl
  | cons c cs =>
    by_cases h : c = 't' ∨ c = 'T' <;> simp [matchLeadingT, startsWithT, h, truthy]

theorem hasDomains_sectioning {st : JSValue} {ds : List JSValue} (h : HasDomains st ds) :
    ∃ st2, decodeSectioning none st = .ok st2 ∧ HasDomains st2 ds := by
  obtain ⟨ps, ms, dp, rfl, hm, hdm⟩ := h
  refine ⟨.obj (assocSet "sectioning"
    (.bool (truthy ((lookup "sectioning" ps).getD .undefined))) ps), ?_, ?_⟩
  · simp [decodeSectioning, paramGiven, readPath, assign, getPath, setPath, getKey, setKey,
      Key.name, orThrow, bind, Except.bind]
  · refine ⟨_, ms, dp, rfl, ?_, hdm⟩
    rw [lookup_assocSet_ne (by decide)]
    exact hm

theorem fieldsOf_length (ts : List Triplet) : (fieldsOf ts).length = 3 * ts.length := by
  induction ts with
  | nil => rfl
  | cons t ts ih => simp only [fieldsOf, List.length_cons, ih]; omega

theorem value_ne_nil_of_fields {val : JSString} {ts : List Triplet}
    (h : split ',' val = fieldsOf ts) : val ≠ [] := by
  rintro rfl
  have := congrArg List.length h
  rw [fieldsOf_length] at this
  simp [split] at this
  omega

theorem decode_domains_valid (st : JSValue) (ds : List JSValue) (val : JSString)
    (ts : List Triplet) (hst : HasDomains st ds) (hobj : ∀ d ∈ ds, d.isObj = true)
    (hval : split ',' val = fieldsOf ts)
    (hts : ∀ t ∈ ts, ∃ i : Int, parseInt t.idx = some i ∧ IsHex6 t.color) :
    ∃ st', updateStateFromParam { domains := some val } st = .ok (st', none) ∧
      HasDomains st' (ts.foldl stepDomains ds) ∧
      ∀ d ∈ ts.foldl stepDomains ds, d.isObj = true := by
  obtain ⟨st1, h1, hd1, ho1⟩ := decodeTriplets_valid ts st ds hst hobj hts
  obtain ⟨st2, h2, hd2⟩ := hasDomains_sectioning hd1
  obtain ⟨dp, hp⟩ := hasDomains_getPath hst
  refine ⟨st2, ?_, hd2, ho1⟩
  rw [updateStateFromParam_domains_only val st (value_ne_nil_of_fields hval)]
  have : decodeDomains val st = .ok (st1, none) := by
    simp only [decodeDomains, readPath, hp, orThrow, bind, Except.bind, hval, h1]
  rw [this]
  simp only [h2]

/-! ## Decoding the `domains` parameter -/

theorem stepDomains_isObj {ds : List JSValue} (t : Triplet) (hobj : ∀ d ∈ ds, d.isObj = true) :
    ∀ d ∈ stepDomains ds t, d.isObj = true := by
  unfold stepDomains
  cases hp : parseInt t.idx with
  | none => exact hobj
  | some i =>
    simp only
    split
    · rename_i hr
      have hj : i.toNat < ds.length := by omega
      unfold applyTriplet
      simp only [hp]
      intro d hd
      rcases List.mem_or_eq_of_mem_set hd with h | h
      · exact hobj d h
      · have hm := hobj _ (List.getElem_mem hj)
        have hg : ds.getD i.toNat .undefined = ds[i.toNat] := by
          rw [List.getD_eq_getElem?_getD, List.getElem?_eq_getElem hj]; rfl
        rw [h, hg]
        cases hd : ds[i.toNat] <;> simp_all [JSValue.isObj, withColorVisible]
    · exact hobj

theorem foldl_stepDomains_isObj (ts : List Triplet) {ds : List JSValue}
    (hobj : ∀ d ∈ ds, d.isObj = true) : ∀ d ∈ ts.foldl stepDomains ds, d.isObj = true := by
  induction ts generalizing ds with
  | nil => exact hobj
  | cons t ts ih => exact ih (stepDomains_isObj t hobj)

theorem isObj_getElem? {ds : List JSValue} (hobj : ∀ d ∈ ds, d.isObj = true) {j : Nat}
    (hj : j < ds.length) : ∃ dp, ds[j]? = some (.obj dp) := by
  have hm := hobj _ (List.getElem_mem hj)
  rw [List.getElem?_eq_getElem hj]
  cases hd : ds[j] <;> simp_all [JSValue.isObj]

theorem hasDomains_getField {st : JSValue} {ds : List JSValue} (h : HasDomains st ds)
    {j : Nat} {dp : Props} (hd : ds[j]? = some (.obj dp)) (k : String) :
    getPath st ["model", "domains", .idx j, .prop k] = some ((lookup k dp).getD .undefined) := by
  have := getPath_append st ["model", "domains", .idx j] [.prop k]
  simp only [List.cons_append, List.nil_append] at this
  rw [this, hasDomains_getDomain h j, List.getD_eq_getElem?_getD, hd]
  rfl

/-- C9: a `domains` value made only of triplets with an integer index above 0
and below the number of domains and a colour of six hex digits is decoded
without an error; the domains become the result of applying the triplets in
order, so a domain named by a triplet gets the lower-cased colour and the
match of `/^[tT]/` on the visibility field (truthy exactly when that field
starts with `t` or `T`) of the last triplet that names it, and a domain that
no triplet names is as it was. -/
theorem decode_domains_in_range (st : JSValue) (ds : List JSValue) (val : JSString)
    (ts : List Triplet) (hst : HasDomains st ds) (hobj : ∀ d ∈ ds, d.isObj = true)
    (hval : split ',' val = fieldsOf ts)
    (hts : ∀ t ∈ ts, ∃ i : Int, parseInt t.idx = some i ∧ 0 < i ∧ i < (ds.length : Int) ∧
      IsHex6 t.color) :
    ∃ st', updateStateFromParam { domains := some val } st = .ok (st', none) ∧
      HasDomains st' (ts.foldl applyTriplet ds) ∧
      (∀ (ts1 ts2 : List Triplet) (t : Triplet) (j : Nat), ts = ts1 ++ t :: ts2 →
        parseInt t.idx = some (j : Int) → (∀ t' ∈ ts2, parseInt t'.idx ≠ some (j : Int)) →
        getPath st' ["model", "domains", .idx j, "color"] = some (.str (toLowerCase t.color)) ∧
        getPath st' ["model", "domains", .idx j, "visible"] = some (matchLeadingT t.visible) ∧
        truthy (matchLeadingT t.visible) = startsWithT t.visible) ∧
      (∀ j : Nat, (∀ t ∈ ts, parseInt t.idx ≠ some (j : Int)) →
        getPath st' ["model", "domains", .idx j] = getPath st ["model", "domains", .idx j]) := by
  obtain ⟨st', hrun, hd', _⟩ := decode_domains_valid st ds val ts hst hobj hval
    (fun t ht => by obtain ⟨i, hi, _, _, hc⟩ := hts t ht; exact ⟨i, hi, hc⟩)
  have hall : ts.filter (Triplet.inRange ds.length) = ts := by
    rw [List.filter_eq_self]
    intro t ht
    obtain ⟨i, hi, h0, hlt, _⟩ := hts t ht
    simp [Triplet.inRange, hi, h0, hlt]
  refine ⟨st', hrun, ?_, ?_, ?_⟩
  · have := foldl_stepDomains_filter ts ds
    rw [hall] at this
    rw [← this]; exact hd'
  · intro ts1 ts2 t j hsplit hj hlast
    obtain ⟨i, hi, h0, hlt, _⟩ := hts t (by rw [hsplit]; simp)
    have hij : i = (j : Int) := by rw [hi] at hj; exact Option.some.inj hj
    subst hij
    have hjlt : j < (ts1.foldl stepDomains ds).length := by
      rw [foldl_stepDomains_length]; omega
    obtain ⟨dp, hdp⟩ := isObj_getElem? (foldl_stepDomains_isObj ts1 hobj) hjlt
    have hfin : (ts.foldl stepDomains ds)[j]? = some (.obj (assocSet "visible"
        (matchLeadingT t.visible) (assocSet "color" (.str (toLowerCase t.color)) dp))) := by
      rw [hsplit, List.foldl_append, List.foldl_cons,
        foldl_stepDomains_getElem?_of_ne ts2 _ j hlast]
      exact stepDomains_getElem?_named _ t j dp hi (by omega) hdp
    refine ⟨?_, ?_, truthy_matchLeadingT _⟩
    · rw [hasDomains_getField hd' hfin, lookup_assocSet_ne (by decide), lookup_assocSet_same]
      rfl
    · rw [hasDomains_getField hd' hfin, lookup_assocSet_same]
      rfl
  · intro j hj
    rw [hasDomains_getDomain hd' j, hasDomains_getDomain hst j, List.getD_eq_getElem?_getD,
      List.getD_eq_getElem?_getD, foldl_stepDomains_getElem?_of_ne ts ds j hj]

theorem demoState_hasDomains : HasDomains demoState demoDomains :=
  ⟨_, _, _, rfl, rfl, rfl⟩

/-- Witness for C9: `domains=1,ff00aa,t,2,00ff00,f` on a state with three
domains sets domain 1 to `ff00aa`, visible, and domain 2 to `00ff00`, not
visible. -/
theorem decode_domains_in_range_witness :
    (∃ st', updateStateFromParam { domains := some "1,ff00aa,t,2,00ff00,f".toList } demoState
        = .ok (st', none) ∧
      getPath st' ["model", "domains", .idx 1, "color"] = some (.str "ff00aa".toList) ∧
      (getPath st' ["model", "domains", .idx 1, "visible"]).map truthy = some true ∧
      getPath st' ["model", "domains", .idx 2, "color"] = some (.str "00ff00".toList) ∧
      (getPath st' ["model", "domains", .idx 2, "visible"]).map truthy = some false ∧
      getPath st' ["model", "domains", .idx 0] = getPath demoState ["model", "domains", .idx 0])
    := by
  obtain ⟨st', hrun, _, hnamed, hothers⟩ := decode_domains_in_range demoState demoDomains
    "1,ff00aa,t,2,00ff00,f".toList
    [⟨"1".toList, "ff00aa".toList, "t".toList⟩, ⟨"2".toList, "00ff00".toList, "f".toList⟩]
    demoState_hasDomains (by decide) (by decide)
    (by
      intro t ht
      simp only [List.mem_cons, List.mem_singleton, List.not_mem_nil, or_false] at ht
      rcases ht with rfl | rfl
      · exact ⟨1, by decide, by decide, by decide, by decide, by decide⟩
      · exact ⟨2, by decide, by decide, by decide, by decide, by decide⟩)
  have h1 := hnamed [] [⟨"2".toList, "00ff00".toList, "f".toList⟩]
    ⟨"1".toList, "ff00aa".toList, "t".toList⟩ 1 rfl (by decide) (by decide)
  have h2 := hnamed [⟨"1".toList, "ff00aa".toList, "t".toList⟩] []
    ⟨"2".toList, "00ff00".toList, "f".toList⟩ 2 rfl (by decide) (by decide)
  have h0 := hothers 0 (by decide)
  refine ⟨st', hrun, ?_, ?_, ?_, ?_, h0⟩
  · rw [h1.1]; rfl
  · rw [h1.2.1]; rfl
  · rw [h2.1]; rfl
  · rw [h2.2.1]; rfl

theorem decodeTriplets_out_of_range (ts : List Triplet) (st : JSValue) (ds : List JSValue)
    (hst : HasDomains st ds)
    (hts : ∀ t ∈ ts, ∃ i : Int, parseInt t.idx = some i ∧ (i ≤ 0 ∨ (ds.length : Int) ≤ i) ∧
      IsHex6 t.color) :
    decodeTriplets st (fieldsOf ts) = .ok (st, none) := by
  induction ts with
  | nil => simp [fieldsOf, decodeTriplets]
  | cons t ts ih =>
    obtain ⟨i, hi, hr, hc⟩ := hts t (List.mem_cons_self _ _)
    obtain ⟨_, hs2⟩ := sanitizeColor_of_isHex6 hc
    rw [fieldsOf, decodeTriplets]
    simp only [hi, hs2, ne_eq, not_true_eq_false, if_false]
    by_cases h0 : 0 < i
    · have hlt : ¬ i < (ds.length : Int) := by omega
      simp only [h0, if_true, hasDomains_loopBound hst, hlt, if_false]
      exact ih (fun t' ht' => hts t' (List.mem_cons_of_mem _ ht'))
    · simp only [h0, if_false]
      exact ih (fun t' ht' => hts t' (List.mem_cons_of_mem _ ht'))

theorem assign_domain_any {st : JSValue} {ds : List JSValue} (hst : HasDomains st ds)
    {j : Nat} (hj : j < ds.length) (k : String) (x : JSValue) :
    (assign st ["model", "domains", .idx j, .prop k] x = .error ⟨.typeError, st⟩) ∨
    ∃ st' e, assign st ["model", "domains", .idx j, .prop k] x = .ok st' ∧
      HasDomains st' (ds.set j e) := by
  obtain ⟨ps, ms, dp, rfl, hm, hdm⟩ := hst
  cases he : setKey (ds.getD j .undefined) (.prop k) x with
  | none =>
    left
    rw [List.getD_eq_getElem?_getD] at he
    simp [assign, setPath, getKey, Key.name, hm, hdm, he, orThrow]
  | some e =>
    right
    refine ⟨.obj (assocSet "model" (.obj (assocSet "domains" (.arr (ds.set j e) dp) ms)) ps),
      e, ?_, ⟨_, _, dp, rfl, lookup_assocSet_same _ _ _, lookup_assocSet_same _ _ _⟩⟩
    rw [List.getD_eq_getElem?_getD] at he
    simp [assign, setPath, getKey, Key.name, hm, hdm, he, orThrow]
    simp [setKey, Key.name, setElem_eq_set _ _ _ hj]

theorem domainZero_assign {d0 : Option JSValue} {st : JSValue} (h : DomainZero d0 st)
    {j : Nat} (h0 : 0 < j) (hj : ∀ ds, HasDomains st ds → j < ds.length) (k : String)
    (x : JSValue) :
    match assign st ["model", "domains", .idx j, .prop k] x with
    | .ok st' => DomainZero d0 st' ∧ ∀ ds, HasDomains st' ds → j < ds.length
    | .error e => e.now = st := by
  obtain ⟨ds, hst, hd0⟩ := h
  rcases assign_domain_any hst (hj ds hst) k x with he | ⟨st', e, hok, hd'⟩
  · rw [he]
  · rw [hok]
    refine ⟨⟨_, hd', by rw [List.getElem?_set_ne (by omega)]; exact hd0⟩, ?_⟩
    intro ds2 h2
    obtain ⟨ps, ms, dp, rfl, hm, hdm⟩ := hd'
    obtain ⟨ps2, ms2, dp2, h2e, hm2, hdm2⟩ := h2
    cases h2e
    rw [hm] at hm2; cases hm2
    rw [hdm] at hdm2; cases hdm2
    simpa using hj ds hst

theorem decodeTriplets_domainZero (d0 : Option JSValue) (n : Nat) :
    ∀ (ga : List JSString), ga.length ≤ n → ∀ st, DomainZero d0 st →
      DecodeAlways (DomainZero d0) (decodeTriplets st ga) := by
  induction n with
  | zero =>
    intro ga hga st hst
    have : ga = [] := List.length_eq_zero.1 (Nat.le_zero.1 hga)
    subst this
    exact hst
  | succ n ih =>
    intro ga hga st hst
    match ga, hga with
    | [], _ => exact hst
    | [_], _ => exact hst
    | [_, _], _ => exact hst
    | ai :: ac :: av :: rest, hga =>
      have hrest : rest.length ≤ n := by simp only [List.length_cons] at hga; omega
      rw [decodeTriplets]
      cases hp : parseInt ai with
      | none => exact hst
      | some i =>
        simp only
        split
        · exact hst
        · split
          · rename_i h0
            obtain ⟨ds, hds, hd0⟩ := hst
            rw [hasDomains_loopBound hds]
            simp only
            split
            · rename_i hlt
              have hj0 : 0 < i.toNat := by omega
              have hlen : ∀ ds2, HasDomains st ds2 → i.toNat < ds2.length := by
                intro ds2 h2
                obtain ⟨ps, ms, dp, rfl, hm, hdm⟩ := hds
                obtain ⟨ps2, ms2, dp2, h2e, hm2, hdm2⟩ := h2
                cases h2e
                rw [hm] at hm2; cases hm2
                rw [hdm] at hdm2; cases hdm2
                omega
              have h1 := domainZero_assign (show DomainZero d0 st from ⟨ds, hds, hd0⟩) hj0 hlen "color"
                (.str (sanitizeColor ac))
              cases ha1 : assign st ["model", "domains", .idx i.toNat, "color"]
                  (.str (sanitizeColor ac)) with
              | error e =>
                rw [ha1] at h1
                simp only [DecodeAlways]
                rw [h1]; exact ⟨ds, hds, hd0⟩
              | ok st1 =>
                rw [ha1] at h1
                simp only
                have h2 := domainZero_assign h1.1 hj0 h1.2 "visible"
                  (matchLeadingT av)
                cases ha2 : assign st1 ["model", "domains", .idx i.toNat, "visible"]
                    (matchLeadingT av) with
                | error e =>
                  rw [ha2] at h2
                  simp only [DecodeAlways]
                  rw [h2]; exact h1.1
                | ok st2 =>
                  rw [ha2] at h2
                  exact ih rest hrest st2 h2.1
            · exact ih rest hrest st ⟨ds, hds, hd0⟩
          · exact ih rest hrest st hst

theorem domainZero_getPath {d0 : Option JSValue} {st : JSValue} (h : DomainZero d0 st) :
    getPath st ["model", "domains", .idx 0] = some (d0.getD .undefined) := by
  obtain ⟨ds, hds, hd0⟩ := h
  rw [hasDomains_getDomain hds 0, List.getD_eq_getElem?_getD, hd0]

theorem domainZero_sectioning {d0 : Option JSValue} {st : JSValue} (h : DomainZero d0 st) :
    ∃ st2, decodeSectioning none st = .ok st2 ∧ DomainZero d0 st2 := by
  obtain ⟨ds, hds, hd0⟩ := h
  obtain ⟨st2, h2, hd2⟩ := hasDomains_sectioning hds
  exact ⟨st2, h2, ds, hd2, hd0⟩

theorem updateStateFromParam_domainZero (d0 : Option JSValue) (val : JSString) (st : JSValue)
    (h : DomainZero d0 st) :
    DecodeAlways (DomainZero d0) (updateStateFromParam { domains := some val } st) := by
  cases val with
  | nil =>
    obtain ⟨st2, h2, hd2⟩ := domainZero_sectioning h
    simp only [updateStateFromParam, paramGiven, bind, Except.bind, pure, Except.pure, h2]
    exact hd2
  | cons c cs =>
    rw [updateStateFromParam_domains_only (c :: cs) st (by simp)]
    obtain ⟨ds, hds, hd0⟩ := h
    obtain ⟨dp, hp⟩ := hasDomains_getPath hds
    have hdec : decodeDomains (c :: cs) st = decodeTriplets st (split ',' (c :: cs)) := by
      simp only [decodeDomains, readPath, hp, orThrow, bind, Except.bind]
    have := decodeTriplets_domainZero d0 _ (split ',' (c :: cs)) (Nat.le_refl _) st
      ⟨ds, hds, hd0⟩
    rw [hdec]
    cases hr : decodeTriplets st (split ',' (c :: cs)) with
    | error e => rw [hr] at this; exact this
    | ok r =>
      rw [hr] at this
      obtain ⟨st1, err⟩ := r
      cases err with
      | some e => exact this
      | none =>
        obtain ⟨st2, h2, hd2⟩ := domainZero_sectioning (show DomainZero d0 st1 from this)
        simp only [h2]
        exact hd2

/-- C10: a `domains` value made only of triplets with a colour of six hex
digits and an integer index that is at most 0 or at least the number of
domains is decoded without an error and changes no domain (the `domains`
block leaves the state as it was); and whatever the `domains` value is, and
however the decoding ends, domain 0 is as it was. -/
theorem decode_domains_out_of_range (st : JSValue) (ds : List JSValue) (val : JSString)
    (ts : List Triplet) (hst : HasDomains st ds) (hval : split ',' val = fieldsOf ts)
    (hts : ∀ t ∈ ts, ∃ i : Int, parseInt t.idx = some i ∧ (i ≤ 0 ∨ (ds.length : Int) ≤ i) ∧
      IsHex6 t.color) :
    (∃ st', updateStateFromParam { domains := some val } st = .ok (st', none) ∧
      decodeDomains val st = .ok (st, none) ∧ HasDomains st' ds) ∧
    ∀ val2 : JSString,
      DecodeAlways (fun st' => getPath st' ["model", "domains", .idx 0] =
          getPath st ["model", "domains", .idx 0])
        (updateStateFromParam { domains := some val2 } st) := by
  refine ⟨?_, ?_⟩
  · obtain ⟨dp, hp⟩ := hasDomains_getPath hst
    have hdec : decodeDomains val st = .ok (st, none) := by
      simp only [decodeDomains, readPath, hp, orThrow, bind, Except.bind, hval,
        decodeTriplets_out_of_range ts st ds hst hts]
    obtain ⟨st2, h2, hd2⟩ := hasDomains_sectioning hst
    refine ⟨st2, ?_, hdec, hd2⟩
    rw [updateStateFromParam_domains_only val st (value_ne_nil_of_fields hval), hdec]
    simp only [h2]
  · intro val2
    have h0 : DomainZero ds[0]? st := ⟨ds, hst, rfl⟩
    have := updateStateFromParam_domainZero ds[0]? val2 st h0
    cases hr : updateStateFromParam { domains := some val2 } st with
    | error e =>
      rw [hr] at this
      simp only [DecodeAlways] at this ⊢
      rw [domainZero_getPath this, domainZero_getPath h0]
    | ok r =>
      rw [hr] at this
      simp only [DecodeAlways] at this ⊢
      rw [domainZero_getPath this, domainZero_getPath h0]

/-- Witness for C10: `domains=0,ff00aa,t,3,00ff00,f` on a state with three
domains. -/
theorem decode_domains_out_of_range_witness :
    (∃ st', updateStateFromParam { domains := some "0,ff00aa,t,3,00ff00,f".toList } demoState
        = .ok (st', none) ∧
      decodeDomains "0,ff00aa,t,3,00ff00,f".toList demoState = .ok (demoState, none) ∧
      HasDomains st' demoDomains) ∧
    ∀ val2 : JSString,
      DecodeAlways (fun st' => getPath st' ["model", "domains", .idx 0] =
          getPath demoState ["model", "domains", .idx 0])
        (updateStateFromParam { domains := some val2 } demoState) :=
  decode_domains_out_of_range demoState demoDomains "0,ff00aa,t,3,00ff00,f".toList
    [⟨"0".toList, "ff00aa".toList, "t".toList⟩, ⟨"3".toList, "00ff00".toList, "f".toList⟩]
    demoState_hasDomains (by decide)
    (by
      intro t ht
      simp only [List.mem_cons, List.mem_singleton, List.not_mem_nil, or_false] at ht
      rcases ht with rfl | rfl
      · exact ⟨0, by decide, by decide, by decide, by decide⟩
      · exact ⟨3, by decide, by decide, by decide, by decide⟩)

/-! ## The share URL decoded again -/

/-- C1, at a failing input: the view of a state whose model is not visible
is shared as `model=12ab9f,f`; decoded into a state whose model is visible,
the colour is restored, but `state.model_visible`, the flag that was encoded,
stays `true`: the decoder stores the flag in `state.model.visible`. -/
theorem share_model_visible_not_restored (numStr : JSNum → JSString) :
    shareModelValue numStr sharedState = .ok "12ab9f,f".toList ∧
    getPath sharedState ["model_visible"] = some (.bool false) ∧
    ∃ st', updateStateFromParam { model := some "12ab9f,f".toList } demoState = .ok (st', none) ∧
      getPath st' ["model", "color"] = some (.str "12ab9f".toList) ∧
      getPath st' ["model_visible"] = some (.bool true) ∧
      getPath st' ["model", "visible"] = some .null :=
  ⟨rfl, rfl, _, rfl, rfl, rfl, rfl⟩

/-- C2, at a failing input: the domains of a state are shared as
`domains=0,a1b2c3,false,1,0d0e0f,true,2,445566,false`; decoded into a state
with three domains, domains 1 and 2 get the shared colour and visibility,
domain 0 keeps its own colour `ff0000` and stays visible. -/
theorem share_domain_zero_not_restored (numStr : JSNum → JSString) :
    shareDomainsValue numStr sharedState =
      .ok (some "0,a1b2c3,false,1,0d0e0f,true,2,445566,false".toList) ∧
    getPath sharedState ["model", "domains", .idx 0, "color"] = some (.str "a1b2c3".toList) ∧
    getPath sharedState ["model", "domains", .idx 0, "visible"] = some (.bool false) ∧
    ∃ st', updateStateFromParam
        { domains := some "0,a1b2c3,false,1,0d0e0f,true,2,445566,false".toList } demoState
        = .ok (st', none) ∧
      getPath st' ["model", "domains", .idx 0, "color"] = some (.str "ff0000".toList) ∧
      getPath st' ["model", "domains", .idx 0, "visible"] = some (.bool true) ∧
      getPath st' ["model", "domains", .idx 1, "color"] = some (.str "0d0e0f".toList) ∧
      (getPath st' ["model", "domains", .idx 1, "visible"]).map truthy = some true ∧
      getPath st' ["model", "domains", .idx 2, "color"] = some (.str "445566".toList) ∧
      (getPath st' ["model", "domains", .idx 2, "visible"]).map truthy = some false :=
  ⟨rfl, rfl, rfl, _, rfl, rfl, rfl, rfl, rfl, rfl, rfl⟩

/-! ## The state is never `undefined` or `null` inside `setState` -/

theorem setKey_nonNull {v v' : JSValue} {k : Key} {x : JSValue} (h : setKey v k x = some v') :
    NonNull v' := by
  cases v <;> cases k <;> simp [setKey] at h <;> subst h <;> rfl

theorem setPath_nonNull {v v' : JSValue} {p : List Key} {x : JSValue} (hp : p ≠ [])
    (h : setPath v p x = some v') : NonNull v' := by
  match p, hp with
  | [k], _ => exact setKey_nonNull h
  | k :: k2 :: ks, _ =>
    simp only [setPath] at h
    cases h1 : getKey v k with
    | none => rw [h1] at h; cases h
    | some c =>
      rw [h1] at h
      simp only [Option.bind] at h
      cases h2 : setPath c (k2 :: ks) x with
      | none => rw [h2] at h; cases h
      | some c' =>
        rw [h2] at h
        exact setKey_nonNull h

theorem readPath_always {P : JSValue → Prop} {st : JSValue} (h : P st) (p : List Key) :
    Always P (fun _ => True) (readPath st p) := by
  unfold readPath orThrow
  split
  · trivial
  · exact h

theorem assign_always {st : JSValue} (h : NonNull st) {p : List Key} (hp : p ≠ [])
    (x : JSValue) : Always NonNull NonNull (assign st p x) := by
  unfold assign orThrow
  split
  · rename_i a heq
    exact setPath_nonNull hp heq
  · exact h

theorem defaultAt_always {st : JSValue} (h : NonNull st) {p : List Key} (hp : p ≠ [])
    (x : JSValue) : Always NonNull NonNull (defaultAt st p x) := by
  unfold defaultAt
  have := readPath_always (P := NonNull) h p
  cases hr : readPath st p with
  | error e => rw [hr] at this; exact this
  | ok v =>
    simp only
    split
    · exact assign_always h hp x
    · exact h

theorem lengthIn_always {P : JSValue → Prop} {st : JSValue} (h : P st) (v : JSValue) :
    Always P (fun _ => True) (lengthIn st v) := by
  unfold lengthIn
  split
  · trivial
  · exact h

theorem loopBound_always {P : JSValue → Prop} {st : JSValue} (h : P st) (p : List Key) :
    Always P (fun _ => True) (loopBound st p) := by
  unfold loopBound
  have := readPath_always (P := P) h p
  cases hr : readPath st p with
  | error e => rw [hr] at this; exact this
  | ok v => exact lengthIn_always h v

theorem forFrom_always {P : JSValue → Prop}
    {body : Nat → JSValue → Except (Thrown JSValue) JSValue}
    (hb : ∀ i st, P st → Always P P (body i st)) :
    ∀ (count i : Nat) (st : JSValue), P st → Always P P (forFrom body count i st) := by
  intro count
  induction count with
  | zero => intro i st h; exact h
  | succ n ih =>
    intro i st h
    unfold forFrom
    have := hb i st h
    cases hr : body i st with
    | error e => rw [hr] at this; exact this
    | ok st' => rw [hr] at this; exact ih (i + 1) st' this

theorem baseURL_always {st : JSValue} (h : NonNull st) :
    Always NonNull (fun _ => True) (baseURL st) := by
  unfold baseURL
  refine always_bind (readPath_always h _) fun srv _ => ?_
  refine always_bind (readPath_always h _) fun wlz _ => ?_
  split
  · exact always_bind (readPath_always h _) fun _ _ => trivial
  · trivial

theorem setSectionTexture_always {st : JSValue} (h : NonNull st) :
    Always NonNull NonNull (setSectionTexture st) := by
  unfold setSectionTexture
  refine always_bind (baseURL_always h) fun _ _ => ?_
  refine always_bind (readPath_always h _) fun _ _ => ?_
  refine always_bind (readPath_always h _) fun vis _ => ?_
  split
  · refine always_bind (loopBound_always h _) fun n _ => ?_
    refine forFrom_always (fun i s hs => ?_) n 0 st h
    exact always_bind (readPath_always hs _) fun _ _ => hs
  · exact h

theorem updateSection_always {st : JSValue} (h : NonNull st) :
    Always NonNull NonNull (updateSection st) := by
  unfold updateSection
  refine always_bind (readPath_always h _) fun sectioning _ => ?_
  split
  · refine always_bind (readPath_always h _) fun vis _ => ?_
    split
    · refine always_bind (baseURL_always h) fun _ _ => ?_
      refine always_bind (readPath_always h _) fun _ _ => ?_
      exact setSectionTexture_always h
    · exact h
  · exact h

theorem updateModel_always {st : JSValue} (h : NonNull st) :
    Always NonNull NonNull (updateModel st) := by
  unfold updateModel
  exact always_bind (readPath_always h _) fun _ _ => updateSection_always h

theorem updateDomain_always (i : Nat) {st : JSValue} (h : NonNull st) :
    Always NonNull NonNull (updateDomain i st) := by
  unfold updateDomain
  refine always_bind (readPath_always h _) fun _ _ => ?_
  exact always_bind (loopBound_always h _) fun _ _ => updateSection_always h

theorem setDomain_always (i : Nat) {st : JSValue} (h : NonNull st) :
    Always NonNull NonNull (setDomain i st) := by
  unfold setDomain
  exact always_bind (readPath_always h _) fun _ _ => updateDomain_always i h

theorem checkModelSection_always {st : JSValue} (h : NonNull st) :
    Always NonNull NonNull (checkModelSection st) := by
  unfold checkModelSection
  refine always_bind (readPath_always h _) fun sectioning _ => ?_
  split
  · refine always_bind (defaultAt_always h (by simp) _) fun st1 h1 => ?_
    refine always_bind (defaultAt_always h1 (by simp) _) fun st2 h2 => ?_
    refine always_bind (defaultAt_always h2 (by simp) _) fun st3 h3 => ?_
    refine always_bind (defaultAt_always h3 (by simp) _) fun st4 h4 => ?_
    refine always_bind (defaultAt_always h4 (by simp) _) fun st5 h5 => ?_
    refine always_bind (defaultAt_always h5 (by simp) _) fun st6 h6 => ?_
    refine always_bind (defaultAt_always h6 (by simp) _) fun st7 h7 => ?_
    refine always_bind (defaultAt_always h7 (by simp) _) fun st8 h8 => ?_
    refine always_bind (defaultAt_always h8 (by simp) _) fun st9 h9 => ?_
    exact defaultAt_always h9 (by simp) _
  · exact h

theorem initSectioning_always {st : JSValue} (h : NonNull st) :
    Always NonNull NonNull (initSectioning st) := by
  unfold initSectioning
  refine always_bind (readPath_always h _) fun sectioning _ => ?_
  split
  · exact h
  · exact h
  · refine always_bind (baseURL_always h) fun _ _ => ?_
    refine always_bind (readPath_always h _) fun _ _ => ?_
    exact setSectionTexture_always h

theorem initDomainSelectBody_always (nSel c : Nat) {st : JSValue} (h : NonNull st) :
    Always NonNull NonNull (initDomainSelectBody nSel c st) := by
  unfold initDomainSelectBody
  refine always_bind (readPath_always h _) fun _ _ => ?_
  refine always_bind (forFrom_always (fun i s hs => defaultAt_always hs (by simp) _) nSel 0 st h)
    fun st1 h1 => ?_
  refine always_bind (loopBound_always h1 _) fun nDom _ => ?_
  refine always_bind (forFrom_always (fun i s hs => defaultAt_always hs (by simp) _) nDom 0 st1 h1)
    fun st2 h2 => ?_
  refine always_bind (loopBound_always h2 _) fun nDom2 _ => ?_
  refine forFrom_always (fun i s hs => ?_) nDom2 0 st2 h2
  refine always_bind (defaultAt_always hs (by simp) _) fun s1 hs1 => ?_
  refine always_bind (readPath_always hs1 _) fun cat _ => ?_
  split
  · exact hs1
  · exact hs1
  · exact hs1

theorem initDomainSelect_always {st : JSValue} (h : NonNull st) :
    Always NonNull NonNull (initDomainSelect st) := by
  unfold initDomainSelect
  refine always_bind (readPath_always h _) fun _ _ => ?_
  refine always_bind (loopBound_always h _) fun nSel _ => ?_
  refine always_bind (forFrom_always (fun i s hs => initDomainSelectBody_always nSel i hs)
    nSel 0 st h) fun st1 h1 => ?_
  refine always_bind (loopBound_always h1 _) fun nDom _ => ?_
  exact forFrom_always (fun i s hs => setDomain_always i hs) nDom 0 st1 h1

theorem initModel_always {st : JSValue} (h : NonNull st) :
    Always NonNull NonNull (initModel st) := by
  unfold initModel
  exact always_bind (readPath_always h _) fun _ _ => h

theorem setModel_always {st : JSValue} (h : NonNull st) :
    Always NonNull NonNull (setModel st) := by
  unfold setModel
  refine always_bind (readPath_always h _) fun _ _ => ?_
  refine always_bind (loopBound_always h _) fun nSel _ => ?_
  refine always_bind (forFrom_always (fun i s hs => ?_) nSel 0 st h) fun st1 h1 => ?_
  · refine always_bind (readPath_always hs _) fun v _ => ?_
    split
    · exact assign_always hs (by simp) _
    · exact hs
  refine always_bind (assign_always h1 (by simp) _) fun st2 h2 => ?_
  refine always_bind (checkModelSection_always h2) fun st3 h3 => ?_
  refine always_bind (readPath_always h3 _) fun _ _ => ?_
  refine always_bind (readPath_always h3 _) fun _ _ => ?_
  refine always_bind (readPath_always h3 _) fun _ _ => ?_
  refine always_bind (initSectioning_always h3) fun st4 h4 => ?_
  refine always_bind (updateModel_always h4) fun st5 h5 => ?_
  exact initDomainSelect_always h5

theorem setStateBody_always {st : JSValue} (h : NonNull st) :
    Always NonNull NonNull (setStateBody st) := by
  unfold setStateBody
  refine always_bind (readPath_always h _) fun _ _ => ?_
  refine always_bind (defaultAt_always h (by simp) _) fun st1 h1 => ?_
  refine always_bind (initModel_always h1) fun st2 h2 => ?_
  refine always_bind (setModel_always h2) fun st3 h3 => ?_
  refine always_bind (loopBound_always h3 _) fun nSel _ => ?_
  exact forFrom_always (fun i s hs => setDomain_always i hs) nSel 0 st3 h3

/-! ## Snapshots: `cloneStruct`, undo and redo, saved files -/

mutual
theorem stringify_parse : ∀ j : Json, stringify (parse j) = some j
  | .null => rfl
  | .bool _ => rfl
  | .num _ => rfl
  | .str _ => rfl
  | .arr es => by
    simp only [parse, stringify, stringifyElems_parseElems es]
  | .obj ms => by
    simp only [parse, stringify, stringifyProps_parseMembers ms]
theorem stringifyElems_parseElems : ∀ js : List Json, stringifyElems (parseElems js) = js
  | [] => rfl
  | j :: js => by
    simp only [parseElems, stringifyElems, stringify_parse j, stringifyElems_parseElems js,
      Option.getD_some]
theorem stringifyProps_parseMembers :
    ∀ ms : List (String × Json), stringifyProps (parseMembers ms) = ms
  | [] => rfl
  | (k, j) :: ms => by
    simp only [parseMembers, stringifyProps, stringify_parse j, stringifyProps_parseMembers ms]
end

theorem cloneStruct_parse (j : Json) : cloneStruct (parse j) = some (parse j) := by
  simp only [cloneStruct, stringify_parse, Option.map_some']

theorem cloneStruct_eq_some {s c : JSValue} (h : cloneStruct s = some c) :
    ∃ j, stringify s = some j ∧ parse j = c := by
  unfold cloneStruct at h
  cases hs : stringify s with
  | none => rw [hs] at h; cases h
  | some j => rw [hs] at h; exact ⟨j, rfl, Option.some.inj h⟩

theorem cloneStruct_idem {s c : JSValue} (h : cloneStruct s = some c) :
    cloneStruct c = some c := by
  obtain ⟨j, _, rfl⟩ := cloneStruct_eq_some h
  exact cloneStruct_parse j

theorem setStateBody_ok_structured {c s : JSValue} (h : setStateBody c = .ok s) :
    truthy c = true ∧ NonNull c := by
  cases c with
  | obj ps => exact ⟨rfl, rfl⟩
  | arr es ps => exact ⟨rfl, rfl⟩
  | undefined =>
    simp [setStateBody, readPath, getPath, getKey, orThrow, bind, Except.bind] at h
  | null =>
    simp [setStateBody, readPath, getPath, getKey, orThrow, bind, Except.bind] at h
  | bool b =>
    simp [setStateBody, readPath, defaultAt, assign, getPath, setPath, getKey, setKey,
      initModel, orThrow, bind, Except.bind, JSValue.isUndefined] at h
  | num n =>
    simp [setStateBody, readPath, defaultAt, assign, getPath, setPath, getKey, setKey,
      initModel, orThrow, bind, Except.bind, JSValue.isUndefined] at h
  | str t =>
    simp [setStateBody, readPath, defaultAt, assign, getPath, setPath, getKey, setKey,
      initModel, orThrow, bind, Except.bind, JSValue.isUndefined] at h

theorem reproduced_facts {s : JSValue} (h : Reproduced s) :
    NonNull s ∧ ∃ c, cloneStruct s = some c ∧ cloneStruct c = some c ∧ truthy c = true ∧
      setStateBody c = .ok s := by
  obtain ⟨c, hc, hb⟩ := h
  obtain ⟨ht, hn⟩ := setStateBody_ok_structured hb
  have := setStateBody_always hn
  rw [hb] at this
  exact ⟨this, c, hc, cloneStruct_idem hc, ht, hb⟩

theorem setState_reproduced {s c : JSValue} (a : App) (ha : NonNull a.state)
    (hc : cloneStruct c = some c) (hb : setStateBody c = .ok s) :
    setState c a = .ok { a with state := s } := by
  simp only [setState, debug_ok ha, bind, Except.bind, hc, hb, liftState]

/-- However `if(Boolean(t)) { setState(t); }` ends, the stacks are as they
were and the state is neither `undefined` nor `null`, when `t` is falsy or an
object. -/
theorem setStateIf_stacks (t : JSValue) (a : App) (ha : NonNull a.state)
    (ht : truthy t = true → t.isObj = true) :
    Always (fun b : App => b.undoStack = a.undoStack ∧ b.redoStack = a.redoStack ∧
        NonNull b.state)
      (fun b : App => b.undoStack = a.undoStack ∧ b.redoStack = a.redoStack ∧
        NonNull b.state) (setStateIf t a) := by
  unfold setStateIf
  split
  · rename_i htr
    have hobj := ht htr
    unfold setState
    rw [debug_ok ha]
    simp only [bind, Except.bind]
    cases t with
    | obj ps =>
      have hcl : cloneStruct (.obj ps) = some (.obj (parseMembers (stringifyProps ps))) := rfl
      rw [hcl]
      simp only
      have := setStateBody_always
        (show NonNull (.obj (parseMembers (stringifyProps ps))) from rfl)
      cases hr : setStateBody (.obj (parseMembers (stringifyProps ps))) with
      | error e => rw [hr] at this; exact ⟨rfl, rfl, this⟩
      | ok s' => rw [hr] at this; exact ⟨rfl, rfl, this⟩
    | _ => simp [JSValue.isObj] at hobj
  · exact ⟨rfl, rfl, ha⟩

theorem getLast?_getD_isObj {u : List JSValue} (hu : ∀ t ∈ u, t.isObj = true) :
    truthy (u.getLast?.getD .undefined) = true → (u.getLast?.getD .undefined).isObj = true := by
  intro ht
  cases hl : u.getLast? with
  | none => rw [hl] at ht; simp [truthy] at ht
  | some t =>
    simp only [Option.getD_some]
    exact hu t (List.mem_of_getLast?_eq_some hl)

theorem undoAction_final (s c : JSValue) (u r : List JSValue) (hs : NonNull s)
    (hc : cloneStruct s = some c) (hu : ∀ t ∈ u, t.isObj = true) :
    (finalOf (undoAction ⟨s, u, r⟩)).redoStack = truncateStack r ++ [c] ∧
      NonNull (finalOf (undoAction ⟨s, u, r⟩)).state := by
  have hrun : undoAction ⟨s, u, r⟩ =
      (setStateIf (u.getLast?.getD .undefined) ⟨s, u.dropLast, truncateStack r ++ [c]⟩ >>=
        fun a => debug a) := by
    simp only [undoAction, debug_ok (a := ⟨s, u, r⟩) hs, bind, Except.bind,
      pushRedoState_ok u r hs hc, popState_ok u _ hs]
  rw [hrun]
  have h1 := setStateIf_stacks (u.getLast?.getD .undefined)
    ⟨s, u.dropLast, truncateStack r ++ [c]⟩ hs (getLast?_getD_isObj hu)
  have h2 := always_bind h1 (fun d hd => debug_last hd)
  have h3 := always_finalOf h2
  exact ⟨h3.2.1, h3.2.2⟩

/-- C3, amended: when `setState` reproduces the state `s` and the entries of
the undo stack are objects, undoAction followed by redoAction returns and
leaves the application state equal to `s`. -/
theorem undo_redo_restores (s : JSValue) (u r : List JSValue) (hs : Reproduced s)
    (hu : ∀ t ∈ u, t.isObj = true) :
    ∃ a, redoAction (finalOf (undoAction ⟨s, u, r⟩)) = .ok a ∧ a.state = s := by
  obtain ⟨hn, c, hc, hcc, htc, hb⟩ := reproduced_facts hs
  obtain ⟨hred, hnn⟩ := undoAction_final s c u r hn hc hu
  generalize finalOf (undoAction ⟨s, u, r⟩) = a1 at hred hnn
  obtain ⟨s1, u1, r1⟩ := a1
  simp only at hred hnn
  subst hred
  obtain ⟨c1, hc1⟩ := cloneStruct_isSome hnn
  refine ⟨⟨s, truncateStack u1 ++ [c1], truncateStack r⟩, ?_, rfl⟩
  simp only [redoAction, debug_ok (a := ⟨s1, u1, truncateStack r ++ [c]⟩) hnn, bind,
    Except.bind, pushState_ok u1 _ hnn hc1, List.getLast?_concat,
    Option.getD_some, List.dropLast_concat, setStateIf, htc, if_true]
  rw [setState_reproduced ⟨s1, truncateStack u1 ++ [c1], truncateStack r⟩ hnn hcc hb]
  exact debug_ok (a := ⟨s, truncateStack u1 ++ [c1], truncateStack r⟩) hn

theorem demoStable_reproduced : Reproduced demoStable := ⟨demoStable, rfl, rfl⟩

/-- Witness for C3, amended: the state `demoStable`, one snapshot on the undo
stack. -/
theorem undo_redo_restores_witness :
    ∃ a, redoAction (finalOf (undoAction ⟨demoStable, [demoState], []⟩)) = .ok a ∧
      a.state = demoStable :=
  undo_redo_restores demoStable [demoState] [] demoStable_reproduced (by decide)

/-- The example state `demoLive` is the state of the running application when
the configuration is `demoState` and the URL has `model=zz`: decoding stops
with the error `model` and changes nothing, then `main()` runs `initModel()`
and `setModel()`. -/
theorem demoLive_reached :
    updateStateFromParam { model := some "zz".toList } demoState =
      .ok (demoState, some .model) ∧
    (initModel demoState >>= setModel) = .ok demoLive :=
  ⟨rfl, rfl⟩

/-- C3 as stated fails: from the state `demoLive`, which has no `sectioning`
key, undoAction and then redoAction both return, and the state they leave has
`sectioning` equal to `false`, so it is not `demoLive`. -/
theorem undo_redo_changes_state :
    ∃ a1 a2, undoAction ⟨demoLive, [], []⟩ = .ok a1 ∧ redoAction a1 = .ok a2 ∧
      a2.state = demoStable ∧ a2.state ≠ demoLive := by
  refine ⟨_, _, rfl, rfl, rfl, ?_⟩
  intro h
  have h1 : getPath demoStable ["sectioning"] = some (.bool false) := rfl
  have h2 : getPath demoLive ["sectioning"] = some .undefined := rfl
  have h3 : (finalOf (redoAction (finalOf (undoAction ⟨demoLive, [], []⟩)))).state
      = demoStable := rfl
  have h4 : demoStable = demoLive := h3.symm.trans h
  rw [h4, h2] at h1
  cases h1

/-- C8, amended: when `setState` reproduces the state `s`, the document that
saveStateToFileAction writes for `s`, loaded by loadStateFromFileAction into
a running application, leaves the application state equal to `s`. -/
theorem save_load_restores (s : JSValue) (u r : List JSValue) (a : App) (hs : Reproduced s)
    (ha : NonNull a.state) :
    ∃ jsn b, saveStateToFileAction ⟨s, u, r⟩ = .ok jsn ∧
      loadStateFromFileAction jsn a = .ok b ∧ b.state = s := by
  obtain ⟨hn, c, hc, hcc, _, hb⟩ := reproduced_facts hs
  obtain ⟨j, hj, hp⟩ := cloneStruct_eq_some hc
  obtain ⟨c0, hc0⟩ := cloneStruct_isSome ha
  obtain ⟨s0, u0, r0⟩ := a
  refine ⟨some j, ⟨s, truncateStack u0 ++ [c0], r0⟩, ?_, ?_, rfl⟩
  · simp only [saveStateToFileAction, debug_ok (a := ⟨s, u, r⟩) hn, bind, Except.bind, pure,
      Except.pure, hj]
  · simp only [loadStateFromFileAction, debug_ok (a := ⟨s0, u0, r0⟩) ha, bind, Except.bind,
      pushState_ok u0 r0 ha hc0, hp]
    exact setState_reproduced ⟨s0, truncateStack u0 ++ [c0], r0⟩ ha hcc hb

/-- Witness for C8, amended: the state `demoStable`, loaded while the state
is `demoLive`. -/
theorem save_load_restores_witness :
    ∃ jsn b, saveStateToFileAction ⟨demoStable, [], []⟩ = .ok jsn ∧
      loadStateFromFileAction jsn ⟨demoLive, [], []⟩ = .ok b ∧ b.state = demoStable :=
  save_load_restores demoStable [] [] ⟨demoLive, [], []⟩ demoStable_reproduced rfl

/-- C8 as stated fails: the state `demoLive` of the running application has
no `sectioning` key; saved and loaded again, the state has `sectioning` equal
to `false`, so it is not `demoLive`. -/
theorem save_load_changes_state :
    ∃ jsn b, saveStateToFileAction ⟨demoLive, [], []⟩ = .ok jsn ∧
      loadStateFromFileAction jsn ⟨demoLive, [], []⟩ = .ok b ∧
      b.state = demoStable ∧ b.state ≠ demoLive := by
  refine ⟨_, _, rfl, rfl, rfl, ?_⟩
  intro h
  have h1 : getPath demoStable ["sectioning"] = some (.bool false) := rfl
  have h2 : getPath demoLive ["sectioning"] = some .undefined := rfl
  have h3 : (finalOf (loadStateFromFileAction (stringify demoLive) ⟨demoLive, [], []⟩)).state
      = demoStable := rfl
  have h4 : demoStable = demoLive := h3.symm.trans h
  rw [h4, h2] at h1
  cases h1

/-! ## Snapshot isolation in the heap -/

theorem mapOpt_congr {α β : Type} {g g' : α → Option β} :
    ∀ (l : List α), (∀ x ∈ l, g x = g' x) → mapOpt g l = mapOpt g' l
  | [], _ => rfl
  | x :: xs, h => by
    simp only [mapOpt, h x (List.mem_cons_self _ _),
      mapOpt_congr xs (fun y hy => h y (List.mem_cons_of_mem _ hy))]

theorem reify_congr (R : Nat → Prop) (h h2 : Heap)
    (hcl : ∀ (a : Nat) (o : HObject), R a → h[a]? = some o → RefsIn R o)
    (hag : ∀ a : Nat, R a → h2[a]? = h[a]?) :
    ∀ (f : Nat) (v : HValue), (∀ b, v = .ref b → R b) → reify h2 f v = reify h f v := by
  intro f
  induction f with
  | zero => intro v _; cases v <;> rfl
  | succ f ih =>
    intro v hv
    cases v with
    | ref a =>
      have hRa : R a := hv a rfl
      simp only [reify, hag a hRa]
      cases ho : h[a]? with
      | none => rfl
      | some o =>
        have hrefs := hcl a o hRa ho
        cases o with
        | arr es ps =>
          have he : mapOpt (reify h2 f) es = mapOpt (reify h f) es :=
            mapOpt_congr es fun x hx => ih x fun b hb =>
              hrefs x (by simp [HObject.values, hx]) b hb
          have hp : mapOpt (fun kv : String × HValue =>
                (reify h2 f kv.2).map fun v => (kv.1, v)) ps
              = mapOpt (fun kv => (reify h f kv.2).map fun v => (kv.1, v)) ps :=
            mapOpt_congr ps fun kv hkv => by
              rw [ih kv.2 fun b hb => hrefs kv.2
                (by simp only [HObject.values, List.mem_append, List.mem_map]
                    exact Or.inr ⟨kv, hkv, rfl⟩) b hb]
          simp only [he, hp]
        | obj ps =>
          have hp : mapOpt (fun kv : String × HValue =>
                (reify h2 f kv.2).map fun v => (kv.1, v)) ps
              = mapOpt (fun kv => (reify h f kv.2).map fun v => (kv.1, v)) ps :=
            mapOpt_congr ps fun kv hkv => by
              rw [ih kv.2 fun b hb => hrefs kv.2
                (by simp only [HObject.values, List.mem_map]
                    exact ⟨kv, hkv, rfl⟩) b hb]
          simp only [hp]
    | _ => rfl

theorem hLookup_mem {k : String} {ps : List (String × HValue)} {v : HValue}
    (h : hLookup k ps = some v) : v ∈ ps.map Prod.snd := by
  induction ps with
  | nil => cases h
  | cons p ps ih =>
    obtain ⟨k', w⟩ := p
    simp only [hLookup] at h
    split at h
    · cases h; simp
    · simp only [List.map_cons, List.mem_cons]; exact Or.inr (ih h)

theorem getKey_ref_mem {o : HObject} {k : Key} {b : Nat} (h : o.getKey k = .ref b) :
    HValue.ref b ∈ o.values := by
  cases o with
  | obj ps =>
    simp only [HObject.getKey] at h
    cases hl : hLookup k.name ps with
    | none => rw [hl] at h; cases h
    | some v =>
      rw [hl] at h
      simp only [Option.getD_some] at h
      subst h
      exact hLookup_mem hl
  | arr es ps =>
    cases k with
    | idx i =>
      simp only [HObject.getKey, List.getD_eq_getElem?_getD] at h
      cases hl : es[i]? with
      | none => rw [hl] at h; cases h
      | some v =>
        rw [hl] at h
        simp only [Option.getD_some] at h
        subst h
        simp only [HObject.values, List.mem_append]
        exact Or.inl (List.getElem?_mem hl)
    | prop p =>
      simp only [HObject.getKey] at h
      split at h
      · cases h
      · cases hl : hLookup p ps with
        | none => rw [hl] at h; cases h
        | some v =>
          rw [hl] at h
          simp only [Option.getD_some] at h
          subst h
          simp only [HObject.values, List.mem_append]
          exact Or.inr (hLookup_mem hl)

theorem hAssocSet_mem {k : String} {x v : HValue} {ps : List (String × HValue)}
    (h : v ∈ (hAssocSet k x ps).map Prod.snd) : v ∈ ps.map Prod.snd ∨ v = x := by
  induction ps with
  | nil => simp [hAssocSet] at h; exact Or.inr h
  | cons p ps ih =>
    obtain ⟨k', w⟩ := p
    simp only [hAssocSet] at h
    split at h
    · simp only [List.map_cons, List.mem_cons] at h ⊢
      rcases h with h | h
      · exact Or.inr h
      · exact Or.inl (Or.inr h)
    · simp only [List.map_cons, List.mem_cons] at h ⊢
      rcases h with h | h
      · exact Or.inl (Or.inl h)
      · rcases ih h with h | h
        · exact Or.inl (Or.inr h)
        · exact Or.inr h

theorem hSetElem_mem {x v : HValue} :
    ∀ (es : List HValue) (i : Nat), v ∈ hSetElem es i x → v ∈ es ∨ v = x ∨ v = .undefined
  | [], 0, h => by simp [hSetElem] at h; exact Or.inr (Or.inl h)
  | [], i + 1, h => by
    simp only [hSetElem, List.mem_cons] at h
    rcases h with h | h
    · exact Or.inr (Or.inr h)
    · rcases hSetElem_mem [] i h with h | h
      · exact Or.inl h
      · exact Or.inr h
  | e :: es, 0, h => by
    simp only [hSetElem, List.mem_cons] at h ⊢
    rcases h with h | h
    · exact Or.inr (Or.inl h)
    · exact Or.inl (Or.inr h)
  | e :: es, i + 1, h => by
    simp only [hSetElem, List.mem_cons] at h ⊢
    rcases h with h | h
    · exact Or.inl (Or.inl h)
    · rcases hSetElem_mem es i h with h | h
      · exact Or.inl (Or.inr h)
      · exact Or.inr h

theorem setKey_values {o : HObject} {k : Key} {x v : HValue}
    (h : v ∈ (o.setKey k x).values) : v ∈ o.values ∨ v = x ∨ v = .undefined := by
  cases o with
  | obj ps =>
    simp only [HObject.setKey, HObject.values] at h ⊢
    rcases hAssocSet_mem h with h | h
    · exact Or.inl h
    · exact Or.inr (Or.inl h)
  | arr es ps =>
    cases k with
    | idx i =>
      simp only [HObject.setKey, HObject.values, List.mem_append] at h ⊢
      rcases h with h | h
      · rcases hSetElem_mem es i h with h | h
        · exact Or.inl (Or.inl h)
        · exact Or.inr h
      · exact Or.inl (Or.inr h)
    | prop p =>
      simp only [HObject.setKey, HObject.values, List.mem_append] at h ⊢
      rcases h with h | h
      · exact Or.inl (Or.inl h)
      · rcases hAssocSet_mem h with h | h
        · exact Or.inl (Or.inr h)
        · exact Or.inr (Or.inl h)

theorem extends_refl (h : Heap) : Extends h h := by
  refine ⟨⟨[], by simp⟩, ?_⟩
  intro a o ha ho
  have : a < h.length := by
    rcases Nat.lt_or_ge a h.length with h1 | h1
    · exact h1
    · rw [List.getElem?_eq_none h1] at ho; cases ho
  omega

theorem extends_length {h h' : Heap} (e : Extends h h') : h.length ≤ h'.length := by
  obtain ⟨⟨new, rfl⟩, _⟩ := e
  simp

theorem extends_old {h h' : Heap} (e : Extends h h') {a : Nat} (ha : a < h.length) :
    h'[a]? = h[a]? := by
  obtain ⟨⟨new, rfl⟩, _⟩ := e
  exact List.getElem?_append_left ha

theorem refsIn_mono {P Q : Nat → Prop} {o : HObject} (h : RefsIn P o) (hpq : ∀ b, P b → Q b) :
    RefsIn Q o := fun v hv b hb => hpq b (h v hv b hb)

theorem extends_trans {h h1 h2 : Heap} (e1 : Extends h h1) (e2 : Extends h1 h2) :
    Extends h h2 := by
  have l1 := extends_length e1
  have l2 := extends_length e2
  refine ⟨?_, ?_⟩
  · obtain ⟨⟨n1, rfl⟩, _⟩ := e1
    obtain ⟨⟨n2, rfl⟩, _⟩ := e2
    exact ⟨n1 ++ n2, by simp⟩
  · intro a o ha ho
    rcases Nat.lt_or_ge a h1.length with hlt | hge
    · rw [extends_old e2 hlt] at ho
      exact refsIn_mono (e1.2 a o ha ho) fun b hb => ⟨hb.1, by omega⟩
    · exact refsIn_mono (e2.2 a o hge ho) fun b hb => ⟨by omega, hb.2⟩

theorem extends_snoc {h h1 : Heap} (e : Extends h h1) (o : HObject)
    (ho : RefsIn (fun b => h.length ≤ b ∧ b < h1.length) o) : Extends h (h1 ++ [o]) := by
  have l1 := extends_length e
  refine ⟨?_, ?_⟩
  · obtain ⟨⟨n1, rfl⟩, _⟩ := e
    exact ⟨n1 ++ [o], by simp⟩
  · intro a o' ha ho'
    rcases Nat.lt_or_ge a h1.length with hlt | hge
    · rw [List.getElem?_append_left hlt] at ho'
      exact refsIn_mono (e.2 a o' ha ho') fun b hb =>
        ⟨hb.1, by simp only [List.length_append, List.length_singleton]; omega⟩
    · rw [List.getElem?_append_right hge] at ho'
      have h0 : a - h1.length = 0 := by
        rcases Nat.eq_zero_or_pos (a - h1.length) with h0 | h0
        · exact h0
        · rw [List.getElem?_eq_none (by simp only [List.length_singleton]; omega)] at ho'
          cases ho'
      rw [h0] at ho'
      simp only [List.getElem?_cons_zero, Option.some.injEq] at ho'
      subst ho'
      exact refsIn_mono ho fun b hb =>
        ⟨hb.1, by simp only [List.length_append, List.length_singleton]; omega⟩

theorem agreeOn_left {h h1 h' h2 : Heap} (hp : ∃ new : List HObject, h' = h1 ++ new)
    (hag : AgreeOn h h' h2) : AgreeOn h h1 h2 := by
  obtain ⟨new, rfl⟩ := hp
  intro a ha hlt
  rw [hag a ha (by simp only [List.length_append]; omega), List.getElem?_append_left hlt]

theorem agreeOn_right {h h1 h' h2 : Heap} (hl : h.length ≤ h1.length)
    (hag : AgreeOn h h' h2) : AgreeOn h1 h' h2 := by
  intro a ha hlt
  exact hag a (Nat.le_trans hl ha) hlt

mutual
theorem allocValue_spec : ∀ (t : JSValue) (h : Heap),
    Extends h (allocValue t h).2 ∧ FreshIn h (allocValue t h).2 (allocValue t h).1 ∧
    ∀ h2 : Heap, AgreeOn h (allocValue t h).2 h2 → ∀ f, depth t ≤ f →
      reify h2 f (allocValue t h).1 = some t
  | .undefined, h => by
    refine ⟨extends_refl h, ?_, ?_⟩
    · intro b hb
      cases hb
    · intro h2 _ f _
      cases f <;> rfl
  | .null, h => by
    refine ⟨extends_refl h, ?_, ?_⟩
    · intro b hb
      cases hb
    · intro h2 _ f _
      cases f <;> rfl
  | .bool _, h => by
    refine ⟨extends_refl h, ?_, ?_⟩
    · intro b hb
      cases hb
    · intro h2 _ f _
      cases f <;> rfl
  | .num _, h => by
    refine ⟨extends_refl h, ?_, ?_⟩
    · intro b hb
      cases hb
    · intro h2 _ f _
      cases f <;> rfl
  | .str _, h => by
    refine ⟨extends_refl h, ?_, ?_⟩
    · intro b hb
      cases hb
    · intro h2 _ f _
      cases f <;> rfl
  | .arr es ps, h => by
    obtain ⟨e1, f1, r1⟩ := allocElems_spec es h
    obtain ⟨e2, f2, r2⟩ := allocProps_spec ps (allocElems es h).2
    have e12 := extends_trans e1 e2
    have l1 := extends_length e1
    have l2 := extends_length e2
    have hobj : RefsIn (fun b => h.length ≤ b ∧ b < (allocProps ps (allocElems es h).2).2.length)
        (.arr (allocElems es h).1 (allocProps ps (allocElems es h).2).1) := by
      intro v hv b hb
      simp only [HObject.values, List.mem_append, List.mem_map] at hv
      rcases hv with hv | ⟨kv, hkv, rfl⟩
      · have := f1 v hv b hb
        exact ⟨this.1, by omega⟩
      · have := f2 kv hkv b hb
        exact ⟨by omega, this.2⟩
    have e3 := extends_snoc e12 _ hobj
    refine ⟨by simpa only [allocValue] using e3, ?_, ?_⟩
    · intro b hb
      simp only [allocValue, HValue.ref.injEq] at hb
      subst hb
      simp only [allocValue, List.length_append, List.length_singleton]
      omega
    · intro h2 hag f hf
      simp only [depth] at hf
      obtain ⟨f', rfl⟩ : ∃ f', f = f' + 1 := ⟨f - 1, by omega⟩
      simp only [allocValue] at hag ⊢
      have hcell : h2[(allocProps ps (allocElems es h).2).2.length]? =
          some (.arr (allocElems es h).1 (allocProps ps (allocElems es h).2).1) := by
        rw [hag _ (by omega) (by simp)]
        simp
      have hagA : AgreeOn h (allocProps ps (allocElems es h).2).2 h2 :=
        agreeOn_left ⟨_, rfl⟩ hag
      have hag1 : AgreeOn h (allocElems es h).2 h2 := agreeOn_left e2.1 hagA
      have hag2 : AgreeOn (allocElems es h).2 (allocProps ps (allocElems es h).2).2 h2 :=
        agreeOn_right l1 hagA
      simp only [reify, hcell, r1 h2 hag1 f' (by omega), r2 h2 hag2 f' (by omega)]
  | .obj ps, h => by
    obtain ⟨e2, f2, r2⟩ := allocProps_spec ps h
    have l2 := extends_length e2
    have hobj : RefsIn (fun b => h.length ≤ b ∧ b < (allocProps ps h).2.length)
        (.obj (allocProps ps h).1) := by
      intro v hv b hb
      simp only [HObject.values, List.mem_map] at hv
      obtain ⟨kv, hkv, rfl⟩ := hv
      exact f2 kv hkv b hb
    have e3 := extends_snoc e2 _ hobj
    refine ⟨by simpa only [allocValue] using e3, ?_, ?_⟩
    · intro b hb
      simp only [allocValue, HValue.ref.injEq] at hb
      subst hb
      simp only [allocValue, List.length_append, List.length_singleton]
      omega
    · intro h2 hag f hf
      simp only [depth] at hf
      obtain ⟨f', rfl⟩ : ∃ f', f = f' + 1 := ⟨f - 1, by omega⟩
      simp only [allocValue] at hag ⊢
      have hcell : h2[(allocProps ps h).2.length]? = some (.obj (allocProps ps h).1) := by
        rw [hag _ (by omega) (by simp)]
        simp
      have hagA : AgreeOn h (allocProps ps h).2 h2 := agreeOn_left ⟨_, rfl⟩ hag
      simp only [reify, hcell, r2 h2 hagA f' (by omega)]
theorem allocElems_spec : ∀ (ts : List JSValue) (h : Heap),
    Extends h (allocElems ts h).2 ∧ (∀ v ∈ (allocElems ts h).1, FreshIn h (allocElems ts h).2 v) ∧
    ∀ h2 : Heap, AgreeOn h (allocElems ts h).2 h2 → ∀ f, depthElems ts ≤ f →
      mapOpt (reify h2 f) (allocElems ts h).1 = some ts
  | [], h => ⟨extends_refl h, fun v hv => by simp [allocElems] at hv, fun _ _ _ _ => rfl⟩
  | t :: ts, h => by
    obtain ⟨e1, f1, r1⟩ := allocValue_spec t h
    obtain ⟨e2, f2, r2⟩ := allocElems_spec ts (allocValue t h).2
    have l1 := extends_length e1
    have l2 := extends_length e2
    refine ⟨by simpa only [allocElems] using extends_trans e1 e2, ?_, ?_⟩
    · intro v hv b hb
      simp only [allocElems, List.mem_cons] at hv ⊢
      rcases hv with rfl | hv
      · have := f1 b hb
        exact ⟨this.1, by omega⟩
      · have := f2 v hv b hb
        exact ⟨by omega, this.2⟩
    · intro h2 hag f hf
      simp only [depthElems] at hf
      simp only [allocElems] at hag ⊢
      have hag1 : AgreeOn h (allocValue t h).2 h2 := agreeOn_left e2.1 hag
      have hag2 : AgreeOn (allocValue t h).2 (allocElems ts (allocValue t h).2).2 h2 :=
        agreeOn_right l1 hag
      simp only [mapOpt, r1 h2 hag1 f (by omega), r2 h2 hag2 f (by omega)]
theorem allocProps_spec : ∀ (ps : List (String × JSValue)) (h : Heap),
    Extends h (allocProps ps h).2 ∧
    (∀ kv ∈ (allocProps ps h).1, FreshIn h (allocProps ps h).2 kv.2) ∧
    ∀ h2 : Heap, AgreeOn h (allocProps ps h).2 h2 → ∀ f, depthProps ps ≤ f →
      mapOpt (fun kv : String × HValue => (reify h2 f kv.2).map fun v => (kv.1, v))
        (allocProps ps h).1 = some ps
  | [], h => ⟨extends_refl h, fun v hv => by simp [allocProps] at hv, fun _ _ _ _ => rfl⟩
  | (k, t) :: ps, h => by
    obtain ⟨e1, f1, r1⟩ := allocValue_spec t h
    obtain ⟨e2, f2, r2⟩ := allocProps_spec ps (allocValue t h).2
    have l1 := extends_length e1
    have l2 := extends_length e2
    refine ⟨by simpa only [allocProps] using extends_trans e1 e2, ?_, ?_⟩
    · intro kv hkv b hb
      simp only [allocProps, List.mem_cons] at hkv ⊢
      rcases hkv with rfl | hkv
      · have := f1 b hb
        exact ⟨this.1, by omega⟩
      · have := f2 kv hkv b hb
        exact ⟨by omega, this.2⟩
    · intro h2 hag f hf
      simp only [depthProps] at hf
      simp only [allocProps] at hag ⊢
      have hag1 : AgreeOn h (allocValue t h).2 h2 := agreeOn_left e2.1 hag
      have hag2 : AgreeOn (allocValue t h).2 (allocProps ps (allocValue t h).2).2 h2 :=
        agreeOn_right l1 hag
      simp only [mapOpt, r1 h2 hag1 f (by omega), r2 h2 hag2 f (by omega), Option.map_some']
end

theorem hGet_sep {R : Nat → Prop} {h : Heap} {v c : HValue} {k : Key}
    (hwf : WellFormed h)
    (hinv : ∀ (b : Nat) (o : HObject), ¬ R b → h[b]? = some o → RefsIn (fun c => ¬ R c) o)
    (hvo : ∀ b, v = .ref b → ¬ R b) (hg : hGet h v k = some c) :
    InHeap h c ∧ ∀ b, c = .ref b → ¬ R b := by
  cases v with
  | ref a =>
    simp only [hGet] at hg
    cases ho : h[a]? with
    | none => rw [ho] at hg; cases hg
    | some o =>
      rw [ho] at hg
      simp only [Option.map_some', Option.some.injEq] at hg
      subst hg
      refine ⟨?_, ?_⟩
      · intro b hb
        exact hwf a o ho _ (getKey_ref_mem hb) b rfl
      · intro b hb
        exact hinv a o (hvo a rfl) ho _ (getKey_ref_mem hb) b rfl
  | undefined => cases hg
  | null => cases hg
  | bool _ =>
    simp only [hGet, Option.some.injEq] at hg
    subst hg
    exact ⟨fun b hb => (by cases hb), fun b hb => (by cases hb)⟩
  | num _ =>
    simp only [hGet, Option.some.injEq] at hg
    subst hg
    exact ⟨fun b hb => (by cases hb), fun b hb => (by cases hb)⟩
  | str s =>
    cases k with
    | idx i =>
      simp only [hGet, Option.some.injEq] at hg
      subst hg
      refine ⟨fun b hb => ?_, fun b hb => ?_⟩ <;> (split at hb <;> cases hb)
    | prop p =>
      simp only [hGet] at hg
      split at hg <;>
        (simp only [Option.some.injEq] at hg; subst hg;
         exact ⟨fun b hb => (by cases hb), fun b hb => (by cases hb)⟩)

theorem hAssign_frame {R : Nat → Prop} {h : Heap} {x : HValue}
    (hwf : WellFormed h)
    (hinv : ∀ (b : Nat) (o : HObject), ¬ R b → h[b]? = some o → RefsIn (fun c => ¬ R c) o)
    (hxi : InHeap h x) (hxo : ∀ b, x = .ref b → ¬ R b) :
    ∀ (path : List Key) (v : HValue) (h' : Heap), (∀ b, v = .ref b → ¬ R b) →
      hAssign h v path x = some h' →
      (∀ b : Nat, R b → h'[b]? = h[b]?) ∧ h'.length = h.length ∧ WellFormed h' ∧
        ∀ (b : Nat) (o : HObject), ¬ R b → h'[b]? = some o → RefsIn (fun c => ¬ R c) o
  | [], v, h', _, ha => by
    simp only [hAssign, Option.some.injEq] at ha
    subst ha
    exact ⟨fun _ _ => rfl, rfl, hwf, hinv⟩
  | [k], v, h', hvo, ha => by
    have hsame : h' = h → (∀ b : Nat, R b → h'[b]? = h[b]?) ∧ h'.length = h.length ∧
        WellFormed h' ∧
        ∀ (b : Nat) (o : HObject), ¬ R b → h'[b]? = some o → RefsIn (fun c => ¬ R c) o := by
      rintro rfl
      exact ⟨fun _ _ => rfl, rfl, hwf, hinv⟩
    cases v with
    | ref a =>
      simp only [hAssign] at ha
      cases ho : h[a]? with
      | none => rw [ho] at ha; cases ha
      | some o =>
        rw [ho] at ha
        simp only [Option.map_some', Option.some.injEq] at ha
        subst ha
        have hnR : ¬ R a := hvo a rfl
        have hlen : (h.set a (o.setKey k x)).length = h.length := List.length_set _ _ _
        have hcell : ∀ (b : Nat) (o' : HObject), (h.set a (o.setKey k x))[b]? = some o' →
            (b = a ∧ o' = o.setKey k x) ∨ (b ≠ a ∧ h[b]? = some o') := by
          intro b o' hb
          by_cases hba : b = a
          · subst hba
            have hlt : b < h.length := by
              rcases Nat.lt_or_ge b h.length with h1 | h1
              · exact h1
              · rw [List.getElem?_eq_none h1] at ho; cases ho
            rw [List.getElem?_set_self hlt] at hb
            exact Or.inl ⟨rfl, (Option.some.inj hb).symm⟩
          · rw [List.getElem?_set_ne (Ne.symm hba)] at hb
            exact Or.inr ⟨hba, hb⟩
        refine ⟨?_, hlen, ?_, ?_⟩
        · intro b hb
          have : a ≠ b := fun hab => hnR (hab ▸ hb)
          exact List.getElem?_set_ne this
        · intro b o' hb
          rw [hlen]
          rcases hcell b o' hb with ⟨rfl, rfl⟩ | ⟨_, hb'⟩
          · intro v hv c hc
            rcases setKey_values hv with h1 | h1 | h1
            · exact hwf b o ho v h1 c hc
            · exact hxi c (h1 ▸ hc)
            · rw [h1] at hc; cases hc
          · exact hwf b o' hb'
        · intro b o' hbR hb
          rcases hcell b o' hb with ⟨rfl, rfl⟩ | ⟨_, hb'⟩
          · intro v hv c hc
            rcases setKey_values hv with h1 | h1 | h1
            · exact hinv b o hbR ho v h1 c hc
            · exact hxo c (h1 ▸ hc)
            · rw [h1] at hc; cases hc
          · exact hinv b o' hbR hb'
    | undefined => cases ha
    | null => cases ha
    | bool _ => exact hsame (by simpa [hAssign] using ha.symm)
    | num _ => exact hsame (by simpa [hAssign] using ha.symm)
    | str _ => exact hsame (by simpa [hAssign] using ha.symm)
  | k :: k2 :: ks, v, h', hvo, ha => by
    simp only [hAssign] at ha
    cases hg : hGet h v k with
    | none => rw [hg] at ha; cases ha
    | some c =>
      rw [hg] at ha
      simp only [Option.bind] at ha
      exact hAssign_frame hwf hinv hxi hxo (k2 :: ks) c h' (hGet_sep hwf hinv hvo hg).2 ha

theorem hMutate_frame {R : Nat → Prop} (a : HApp) (m : Mutation)
    (hs : LiveSep R a.heap a.state) :
    LiveSep R (hMutate a m).heap (hMutate a m).state ∧
      (∀ b : Nat, R b → (hMutate a m).heap[b]? = a.heap[b]?) ∧
      (hMutate a m).state = a.state ∧ (hMutate a m).undoStack = a.undoStack ∧
      (hMutate a m).redoStack = a.redoStack := by
  obtain ⟨e, fr, _⟩ := allocValue_spec m.value a.heap
  have hl := extends_length e
  have hwf1 : WellFormed (allocValue m.value a.heap).2 := by
    intro b o hb
    rcases Nat.lt_or_ge b a.heap.length with hlt | hge
    · rw [extends_old e hlt] at hb
      exact refsIn_mono (hs.wf b o hb) fun c hc => Nat.lt_of_lt_of_le hc hl
    · exact refsIn_mono (e.2 b o hge hb) fun c hc => hc.2
  have hinv1 : ∀ (b : Nat) (o : HObject), ¬ R b → (allocValue m.value a.heap).2[b]? = some o →
      RefsIn (fun c => ¬ R c) o := by
    intro b o hbR hb
    rcases Nat.lt_or_ge b a.heap.length with hlt | hge
    · rw [extends_old e hlt] at hb
      exact hs.inv b o hbR hb
    · exact refsIn_mono (e.2 b o hge hb) fun c hc hRc => by
        have := hs.within c hRc
        omega
  have hold : ∀ b : Nat, R b → (allocValue m.value a.heap).2[b]? = a.heap[b]? :=
    fun b hb => extends_old e (hs.within b hb)
  have hxi : InHeap (allocValue m.value a.heap).2 (allocValue m.value a.heap).1 :=
    fun b hb => (fr b hb).2
  have hxo : ∀ b, (allocValue m.value a.heap).1 = .ref b → ¬ R b := fun b hb hRb => by
    have := hs.within b hRb
    have := (fr b hb).1
    omega
  unfold hMutate
  cases ha : hAssign (allocValue m.value a.heap).2 a.state m.path (allocValue m.value a.heap).1 with
  | none =>
    simp only
    exact ⟨⟨fun b hb => Nat.lt_of_lt_of_le (hs.within b hb) hl, hwf1,
      fun b hb => Nat.lt_of_lt_of_le (hs.rootIn b hb) hl, hs.rootOut, hinv1⟩, hold,
      trivial, trivial, trivial⟩
  | some h2 =>
    simp only
    obtain ⟨hsame, hlen, hwf2, hinv2⟩ :=
      hAssign_frame hwf1 hinv1 hxi hxo m.path a.state h2 hs.rootOut ha
    refine ⟨⟨fun b hb => ?_, hwf2, fun b hb => ?_, hs.rootOut, hinv2⟩, ?_,
      trivial, trivial, trivial⟩
    · rw [hlen]; exact Nat.lt_of_lt_of_le (hs.within b hb) hl
    · rw [hlen]; exact Nat.lt_of_lt_of_le (hs.rootIn b hb) hl
    · intro b hb
      rw [hsame b hb, hold b hb]

theorem hMutateAll_frame {R : Nat → Prop} (ms : List Mutation) :
    ∀ (a : HApp), LiveSep R a.heap a.state →
      LiveSep R (ms.foldl hMutate a).heap (ms.foldl hMutate a).state ∧
      (∀ b : Nat, R b → (ms.foldl hMutate a).heap[b]? = a.heap[b]?) ∧
      (ms.foldl hMutate a).state = a.state ∧
      (ms.foldl hMutate a).undoStack = a.undoStack ∧
      (ms.foldl hMutate a).redoStack = a.redoStack := by
  induction ms with
  | nil => intro a hs; exact ⟨hs, fun _ _ => rfl, rfl, rfl, rfl⟩
  | cons m ms ih =>
    intro a hs
    obtain ⟨hs1, hsame, hst, hu, hr⟩ := hMutate_frame a m hs
    obtain ⟨hs2, hsame2, hst2, hu2, hr2⟩ := ih (hMutate a m) hs1
    refine ⟨hs2, fun b hb => ?_, ?_, ?_, ?_⟩
    · rw [List.foldl_cons, hsame2 b hb, hsame b hb]
    · rw [List.foldl_cons, hst2, hst]
    · rw [List.foldl_cons, hu2, hu]
    · rw [List.foldl_cons, hr2, hr]

theorem wellFormed_alloc {h : Heap} (hwf : WellFormed h) (t : JSValue) :
    WellFormed (allocValue t h).2 := by
  obtain ⟨e, _, _⟩ := allocValue_spec t h
  have hl := extends_length e
  intro b o hb
  rcases Nat.lt_or_ge b h.length with hlt | hge
  · rw [extends_old e hlt] at hb
    exact refsIn_mono (hwf b o hb) fun c hc => Nat.lt_of_lt_of_le hc hl
  · exact refsIn_mono (e.2 b o hge hb) fun c hc => hc.2

theorem reify_nonNull {h : Heap} {f : Nat} {v : HValue} {s : JSValue}
    (hs : reify h f v = some s) (h1 : v ≠ .undefined) (h2 : v ≠ .null) :
    s.isNullish = false := by
  cases v with
  | undefined => exact absurd rfl h1
  | null => exact absurd rfl h2
  | bool b => cases f <;> (simp only [reify, Option.some.injEq] at hs; subst hs; rfl)
  | num n => cases f <;> (simp only [reify, Option.some.injEq] at hs; subst hs; rfl)
  | str t => cases f <;> (simp only [reify, Option.some.injEq] at hs; subst hs; rfl)
  | ref a =>
    cases f with
    | zero => simp only [reify] at hs; cases hs
    | succ f =>
      simp only [reify] at hs
      split at hs
      · cases hs
      · split at hs
        · simp only [Option.some.injEq] at hs; subst hs; rfl
        · cases hs
      · split at hs
        · simp only [Option.some.injEq] at hs; subst hs; rfl
        · cases hs

theorem hGet_debug {h : Heap} {v : HValue} (hin : InHeap h v) (h1 : v ≠ .undefined)
    (h2 : v ≠ .null) : ∃ d, hGet h v "debug" = some d := by
  cases v with
  | undefined => exact absurd rfl h1
  | null => exact absurd rfl h2
  | ref a =>
    have hlt := hin a rfl
    exact ⟨h[a].getKey "debug", by
      simp only [hGet, List.getElem?_eq_getElem hlt, Option.map_some']⟩
  | bool _ => exact ⟨_, rfl⟩
  | num _ => exact ⟨_, rfl⟩
  | str _ => exact ⟨.undefined, by simp [hGet]⟩

theorem hClone_eq {h : Heap} {v : HValue} {s : JSValue}
    (hs : reify h (h.length + 1) v = some s) (hn : s.isNullish = false) :
    ∃ j, stringify s = some j ∧ cloneStruct s = some (parse j) ∧
      hCloneStruct h v = some (allocValue (parse j) h) := by
  obtain ⟨j, hj⟩ := stringify_isSome hn
  exact ⟨j, hj, by simp [cloneStruct, hj], by simp [hCloneStruct, hs, hj]⟩

theorem liveSep_after_push {h : Heap} {root : HValue} (hwf : WellFormed h)
    (hin : InHeap h root) (t : JSValue) :
    LiveSep (fun b => h.length ≤ b ∧ b < (allocValue t h).2.length) (allocValue t h).2 root := by
  obtain ⟨e, _, _⟩ := allocValue_spec t h
  have hl := extends_length e
  refine ⟨fun b hb => hb.2, wellFormed_alloc hwf t, fun b hb => ?_, fun b hb hR => ?_, ?_⟩
  · exact Nat.lt_of_lt_of_le (hin b hb) hl
  · have := hin b hb
    omega
  · intro b o hbR hb
    have hlt : b < h.length := by
      rcases Nat.lt_or_ge b h.length with h1 | h1
      · exact h1
      · exfalso
        apply hbR
        refine ⟨h1, ?_⟩
        rcases Nat.lt_or_ge b (allocValue t h).2.length with h2 | h2
        · exact h2
        · rw [List.getElem?_eq_none h2] at hb; cases hb
    rw [extends_old e hlt] at hb
    exact refsIn_mono (hwf b o hb) fun c hc hR => by omega

theorem liveSep_after_setState {h : Heap} (hwf : WellFormed h) (t : JSValue) :
    LiveSep (fun b => b < h.length) (allocValue t h).2 (allocValue t h).1 := by
  obtain ⟨e, fr, _⟩ := allocValue_spec t h
  have hl := extends_length e
  refine ⟨fun b hb => Nat.lt_of_lt_of_le hb hl, wellFormed_alloc hwf t, fun b hb => (fr b hb).2,
    fun b hb hR => ?_, ?_⟩
  · have := (fr b hb).1
    omega
  · intro b o hbR hb
    exact refsIn_mono (e.2 b o (Nat.le_of_not_lt hbR) hb) fun c hc hR => by omega

theorem snapshot_after_push {h : Heap} {root : HValue} (hwf : WellFormed h)
    (hin : InHeap h root) (t : JSValue) (u r : List HValue) (ms : List Mutation) :
    ∀ f, depth t ≤ f →
      reify (ms.foldl hMutate ⟨(allocValue t h).2, root, u, r⟩).heap f (allocValue t h).1
        = some t := by
  obtain ⟨_, _, hre⟩ := allocValue_spec t h
  obtain ⟨_, hsame, _, _, _⟩ := hMutateAll_frame ms ⟨(allocValue t h).2, root, u, r⟩
    (liveSep_after_push hwf hin t)
  intro f hf
  exact hre _ (fun b h1 h2 => hsame b ⟨h1, h2⟩) f hf

theorem stacks_after_mutations (ms : List Mutation) (a : HApp) {R : Nat → Prop}
    (hs : LiveSep R a.heap a.state) (h1 : a.state ≠ .undefined) (h2 : a.state ≠ .null) :
    (∃ b, hPopState (ms.foldl hMutate a) = some (a.undoStack.getLast?.getD .undefined, b)) ∧
    (∃ b, hPopRedoState (ms.foldl hMutate a) =
      some (a.redoStack.getLast?.getD .undefined, b)) := by
  obtain ⟨hs2, _, hst, hu, hr⟩ := hMutateAll_frame ms a hs
  obtain ⟨d, hd⟩ := hGet_debug hs2.rootIn (by rw [hst]; exact h1) (by rw [hst]; exact h2)
  exact ⟨⟨_, by simp only [hPopState, hd, Option.map_some', hu]; rfl⟩,
    ⟨_, by simp only [hPopRedoState, hd, Option.map_some', hr]; rfl⟩⟩

/-- C7: in the heap, after pushState (or pushRedoState) no sequence of
assignments through the live state changes the captured entry: popState
(popRedoState) then returns an entry that still denotes the clone of the
state taken at the push; and after setState(x), which makes a fresh clone of
`x` the live state, no sequence of assignments through the live state
changes what any value that existed before, `x` and the stack entries among
them, denotes. -/
theorem snapshot_isolation (a : HApp) (ms : List Mutation) (s : JSValue)
    (hwf : WellFormed a.heap) (hin : InHeap a.heap a.state)
    (hstate : a.state ≠ .undefined ∧ a.state ≠ .null)
    (hs : reify a.heap (a.heap.length + 1) a.state = some s) :
    (∃ c a1 entry a2, cloneStruct s = some c ∧ hPushState a = some a1 ∧
      hPopState (ms.foldl hMutate a1) = some (entry, a2) ∧
      ∀ f, depth c ≤ f → reify (ms.foldl hMutate a1).heap f entry = some c) ∧
    (∃ c a1 entry a2, cloneStruct s = some c ∧ hPushRedoState a = some a1 ∧
      hPopRedoState (ms.foldl hMutate a1) = some (entry, a2) ∧
      ∀ f, depth c ≤ f → reify (ms.foldl hMutate a1).heap f entry = some c) ∧
    (∀ (x : HValue) (tx : JSValue), InHeap a.heap x → x ≠ .undefined → x ≠ .null →
      reify a.heap (a.heap.length + 1) x = some tx →
      ∃ a1, hSetState x a = some a1 ∧
        ∀ v, InHeap a.heap v → ∀ f,
          reify (ms.foldl hMutate a1).heap f v = reify a.heap f v) := by
  obtain ⟨d, hd⟩ := hGet_debug hin hstate.1 hstate.2
  obtain ⟨j, _, hc, hcl⟩ := hClone_eq hs (reify_nonNull hs hstate.1 hstate.2)
  refine ⟨?_, ?_, ?_⟩
  · obtain ⟨⟨a2, hp⟩, _⟩ := stacks_after_mutations ms ⟨(allocValue (parse j) a.heap).2,
      a.state, hTruncate a.undoStack ++ [(allocValue (parse j) a.heap).1], a.redoStack⟩
      (liveSep_after_push hwf hin (parse j)) hstate.1 hstate.2
    simp only [List.getLast?_concat, Option.getD_some] at hp
    refine ⟨parse j, _, _, a2, hc, ?_, hp, snapshot_after_push hwf hin (parse j) _ _ ms⟩
    simp only [hPushState, hd, hcl, Option.bind, Option.map_some']
  · obtain ⟨_, ⟨a2, hp⟩⟩ := stacks_after_mutations ms ⟨(allocValue (parse j) a.heap).2,
      a.state, a.undoStack, hTruncate a.redoStack ++ [(allocValue (parse j) a.heap).1]⟩
      (liveSep_after_push hwf hin (parse j)) hstate.1 hstate.2
    simp only [List.getLast?_concat, Option.getD_some] at hp
    refine ⟨parse j, _, _, a2, hc, ?_, hp, snapshot_after_push hwf hin (parse j) _ _ ms⟩
    simp only [hPushRedoState, hd, hcl, Option.bind, Option.map_some']
  · intro x tx hxin hx1 hx2 hxs
    obtain ⟨jx, _, _, hclx⟩ := hClone_eq hxs (reify_nonNull hxs hx1 hx2)
    refine ⟨⟨(allocValue (parse jx) a.heap).2, (allocValue (parse jx) a.heap).1, a.undoStack,
      a.redoStack⟩, ?_, ?_⟩
    · simp only [hSetState, hd, hclx, Option.bind, Option.map_some']
    · intro v hv f
      obtain ⟨e, _, _⟩ := allocValue_spec (parse jx) a.heap
      obtain ⟨_, hsame, _, _, _⟩ := hMutateAll_frame ms
        ⟨(allocValue (parse jx) a.heap).2, (allocValue (parse jx) a.heap).1, a.undoStack,
          a.redoStack⟩ (liveSep_after_setState hwf (parse jx))
      exact reify_congr (fun b => b < a.heap.length) a.heap _ (fun b o _ hb => hwf b o hb)
        (fun b hb => by rw [hsame b hb]; exact extends_old e hb) f v hv

theorem demoHeap_wellFormed : WellFormed demoHeap := by
  intro a o ha v hv b hb
  match a, ha with
  | 0, ha =>
    simp only [demoHeap, List.getElem?_cons_zero, Option.some.injEq] at ha
    subst ha
    simp only [HObject.values, List.map_cons, List.map_nil, List.mem_cons, List.mem_singleton,
      List.not_mem_nil, or_false] at hv
    rcases hv with rfl | rfl
    · cases hb
    · cases hb; decide
  | 1, ha =>
    simp only [demoHeap, List.getElem?_cons_succ, List.getElem?_cons_zero,
      Option.some.injEq] at ha
    subst ha
    simp only [HObject.values, List.map_cons, List.map_nil, List.mem_singleton] at hv
    subst hv
    cases hb
  | n + 2, ha => simp [demoHeap] at ha

/-- Witness for C7: the state of `demoHApp` is pushed, then the model colour
is assigned and a `section` array is created in the live state; the entry
that popState returns still denotes the state as it was at the push. -/
theorem snapshot_isolation_witness :
    (∃ c a1 entry a2, cloneStruct (.obj [("title", .str "Gut".toList),
        ("model", .obj [("color", .str "ffffff".toList)])]) = some c ∧
      hPushState demoHApp = some a1 ∧
      hPopState ([⟨["model", "color"], .str "000000".toList⟩,
        ⟨["model", "section"], .arr [] []⟩].foldl hMutate a1) = some (entry, a2) ∧
      ∀ f, depth c ≤ f →
        reify ([⟨["model", "color"], .str "000000".toList⟩,
          ⟨["model", "section"], .arr [] []⟩].foldl hMutate a1).heap f entry = some c) ∧
    reify ([⟨["model", "color"], .str "000000".toList⟩,
        ⟨["model", "section"], .arr [] []⟩].foldl hMutate demoHApp).heap 3 (.ref 0)
      = some (.obj [("title", .str "Gut".toList),
        ("model", .obj [("color", .str "000000".toList), ("section", .arr [] [])])]) :=
  ⟨(snapshot_isolation demoHApp [⟨["model", "color"], .str "000000".toList⟩,
      ⟨["model", "section"], .arr [] []⟩]
      (.obj [("title", .str "Gut".toList), ("model", .obj [("color", .str "ffffff".toList)])])
      demoHeap_wellFormed (fun b hb => by cases hb; decide) ⟨by decide, by decide⟩ rfl).1, rfl⟩

/-! ## The decoder block by block -/

theorem updateStateFromParam_stages (prm : Params) (st : JSValue) :
    updateStateFromParam prm st = (do
      let s ← debugStage prm st
      let r ← modelStage prm (s, none)
      let r ← domainsStage prm r
      let r ← homeStage prm r
      let r ← sectioningStage prm r
      sectionStage prm r) := by
  have h1 : ∀ (K : JSValue → Except (Thrown JSValue) (JSValue × Option ParamError)),
      (match paramGiven prm.debug with
        | some d => assign st ["debug"] (matchLeadingT d) >>= K
        | none => pure st >>= K) = debugStage prm st >>= K := by
    intro K; unfold debugStage; cases paramGiven prm.debug <;> rfl
  have h2 : ∀ (K : JSValue × Option ParamError → Except (Thrown JSValue) (JSValue × Option ParamError))
      (s : JSValue),
      (match paramGiven prm.model with
        | some v => decodeModel v s >>= K
        | none => pure (s, none) >>= K) = modelStage prm (s, none) >>= K := by
    intro K s; unfold modelStage; cases paramGiven prm.model <;> rfl
  have h3 : ∀ (K : JSValue × Option ParamError → Except (Thrown JSValue) (JSValue × Option ParamError))
      (s : JSValue) (e : Option ParamError),
      (match e, paramGiven prm.domains with
        | none, some v => decodeDomains v s >>= K
        | _, _ => pure (s, e) >>= K) = domainsStage prm (s, e) >>= K := by
    intro K s e; unfold domainsStage; cases e <;> cases paramGiven prm.domains <;> rfl
  have h4 : ∀ (K : JSValue × Option ParamError → Except (Thrown JSValue) (JSValue × Option ParamError))
      (s : JSValue) (e : Option ParamError),
      (match e, paramGiven prm.home with
        | none, some v => decodeHome v s >>= K
        | _, _ => pure (s, e) >>= K) = homeStage prm (s, e) >>= K := by
    intro K s e; unfold homeStage; cases e <;> cases paramGiven prm.home <;> rfl
  have h5 : ∀ (s : JSValue) (e : Option ParamError),
      (match e with
        | none => decodeSectioning prm.sectioning s >>= fun y =>
            match e, paramGiven prm.section_ with
            | none, some v => decodeSection v y
            | _, _ => pure (y, e)
        | some _ => pure s >>= fun y =>
            match e, paramGiven prm.section_ with
            | none, some v => decodeSection v y
            | _, _ => pure (y, e)) =
        sectioningStage prm (s, e) >>= sectionStage prm := by
    intro s e
    unfold sectioningStage sectionStage
    cases e with
    | some e => rfl
    | none =>
      simp only [bind, Except.bind]
      cases decodeSectioning prm.sectioning s <;> rfl
  unfold updateStateFromParam
  refine (h1 _).trans ?_
  congr 1
  funext s
  refine (h2 _ s).trans ?_
  congr 1
  funext r
  refine (h3 _ r.1 r.2).trans ?_
  congr 1
  funext r
  refine (h4 _ r.1 r.2).trans ?_
  congr 1
  funext r
  exact h5 r.1 r.2

theorem frame_refl {st : JSValue} (h : ObjModel st) (top mod : List String) :
    Frame top mod st st :=
  ⟨h, fun _ _ => rfl, fun _ _ _ => rfl⟩

theorem frame_trans {top mod : List String} {a b c : JSValue}
    (h1 : Frame top mod a b) (h2 : Frame top mod b c) : Frame top mod a c :=
  ⟨h2.1, fun k hk => (h2.2.1 k hk).trans (h1.2.1 k hk),
    fun k hk ht => (h2.2.2 k hk ht).trans (h1.2.2 k hk ht)⟩

theorem frame_mono {top mod top' mod' : List String} {a b : JSValue}
    (ht : ∀ k ∈ top, k ∈ top') (hm : ∀ k ∈ mod, k ∈ mod') (h : Frame top mod a b) :
    Frame top' mod' a b :=
  ⟨h.1, fun k hk => h.2.1 k (fun hin => hk (hm k hin)),
    fun k hk hn => h.2.2 k hk (fun hin => hn (ht k hin))⟩

theorem setPath_obj_shape {ms : Props} {k : String} {rest : List Key} {x v' : JSValue}
    (h : setPath (.obj ms) (.prop k :: rest) x = some v') :
    ∃ c, v' = .obj (assocSet k c ms) := by
  cases rest with
  | nil =>
    simp only [setPath, setKey, Key.name, Option.some.injEq] at h
    exact ⟨x, h.symm⟩
  | cons k2 ks =>
    simp only [setPath, getKey, Key.name, Option.bind] at h
    cases h2 : setPath ((lookup k ms).getD .undefined) (k2 :: ks) x with
    | none => rw [h2] at h; cases h
    | some c' =>
      rw [h2] at h
      simp only [setKey, Key.name, Option.some.injEq] at h
      exact ⟨c', h.symm⟩

theorem assign_model_frame {st : JSValue} (h : ObjModel st) (k : String) (rest : List Key)
    (x : JSValue) :
    Always (Frame [] [k] st) (Frame [] [k] st) (assign st ("model" :: .prop k :: rest) x) := by
  obtain ⟨ps, ms, rfl, hm⟩ := h
  unfold assign orThrow
  split
  · rename_i st' heq
    simp only [setPath, getKey, Key.name, hm, Option.getD, Option.bind] at heq
    cases h2 : setPath (.obj ms) (.prop k :: rest) x with
    | none => rw [h2] at heq; cases heq
    | some c' =>
      rw [h2] at heq
      obtain ⟨c, rfl⟩ := setPath_obj_shape h2
      simp only [setKey, Key.name, Option.some.injEq] at heq
      subst heq
      refine ⟨⟨_, _, rfl, lookup_assocSet_same _ _ _⟩, fun k' hk' => ?_, fun t ht _ => ?_⟩
      · have hne : k ≠ k' := fun e => hk' (by simp [e])
        simp [getPath, getKey, Key.name, lookup_assocSet_same, hm, lookup_assocSet_ne hne]
      · simp [getPath, getKey, Key.name, lookup_assocSet_ne (Ne.symm ht)]
  · exact frame_refl ⟨ps, ms, rfl, hm⟩ _ _

theorem assign_top_frame {st : JSValue} (h : ObjModel st) {k : String} (hk : k ≠ "model")
    (x : JSValue) :
    ∃ st', assign st [.prop k] x = .ok st' ∧ Frame [k] [] st st' ∧
      getPath st' [.prop k] = some x := by
  obtain ⟨ps, ms, rfl, hm⟩ := h
  refine ⟨.obj (assocSet k x ps), rfl, ⟨⟨_, ms, rfl, ?_⟩, fun k' _ => ?_, fun t _ ht => ?_⟩, ?_⟩
  · rw [lookup_assocSet_ne hk]; exact hm
  · simp [getPath, getKey, Key.name, lookup_assocSet_ne hk]
  · have hne : k ≠ t := fun e => ht (by simp [e])
    simp [getPath, getKey, Key.name, lookup_assocSet_ne hne]
  · simp [getPath, getKey, Key.name, lookup_assocSet_same]

theorem always_mono {σ α : Type} {P P' : σ → Prop} {Q Q' : α → Prop}
    {x : Except (Thrown σ) α} (hp : ∀ s, P s → P' s) (hq : ∀ a, Q a → Q' a)
    (h : Always P Q x) : Always P' Q' x := by
  cases x with
  | error t => exact hp _ h
  | ok v => exact hq _ h

theorem assign_model_frame_from {top mod : List String} {st0 st : JSValue}
    (h : Frame top mod st0 st) {k : String} (hk : k ∈ mod) (rest : List Key) (x : JSValue) :
    Always (Frame top mod st0) (Frame top mod st0)
      (assign st ("model" :: .prop k :: rest) x) := by
  have hm : ∀ s, Frame [] [k] st s → Frame top mod st0 s := fun s hs =>
    frame_trans h (frame_mono (fun _ hin => by cases hin)
      (fun k' hin => by simp only [List.mem_singleton] at hin; subst hin; exact hk) hs)
  exact always_mono hm hm (assign_model_frame h.1 k rest x)

theorem debugStage_frame (prm : Params) {st : JSValue} (h : ObjModel st) :
    ∃ st', debugStage prm st = .ok st' ∧ Frame ["debug"] [] st st' := by
  unfold debugStage
  cases paramGiven prm.debug with
  | none => exact ⟨st, rfl, frame_refl h _ _⟩
  | some d =>
    obtain ⟨st', h1, h2, _⟩ := assign_top_frame h (k := "debug") (by decide) (matchLeadingT d)
    exact ⟨st', h1, h2⟩

theorem decodeTriplets_frame : ∀ (fields : List JSString) (st0 st : JSValue),
    Frame [] ["domains"] st0 st →
    Always (Frame [] ["domains"] st0)
      (fun r => Frame [] ["domains"] st0 r.1 ∧ (r.2 = none ∨ r.2 = some .domains))
      (decodeTriplets st fields)
  | [], _, _, h => ⟨h, Or.inl rfl⟩
  | [_], _, _, h => h
  | [_, _], _, _, h => h
  | ai :: ac :: av :: rest, st0, st, h => by
    rw [decodeTriplets]
    cases parseInt ai with
    | none => exact ⟨h, Or.inr rfl⟩
    | some n =>
      simp only
      split
      · exact ⟨h, Or.inr rfl⟩
      · split
        · have hl := loopBound_always (P := Frame [] ["domains"] st0) h ["model", "domains"]
          cases hb : loopBound st ["model", "domains"] with
          | error e => rw [hb] at hl; exact hl
          | ok len =>
            simp only
            split
            · have h1 := assign_model_frame_from h (k := "domains") (by simp)
                [.idx n.toNat, "color"] (.str (sanitizeColor ac))
              cases ha : assign st ["model", "domains", .idx n.toNat, "color"]
                  (.str (sanitizeColor ac)) with
              | error e => rw [ha] at h1; exact h1
              | ok st1 =>
                rw [ha] at h1
                simp only
                have h2 := assign_model_frame_from h1 (k := "domains") (by simp)
                  [.idx n.toNat, "visible"] (matchLeadingT av)
                cases hv : assign st1 ["model", "domains", .idx n.toNat, "visible"]
                    (matchLeadingT av) with
                | error e => rw [hv] at h2; exact h2
                | ok st2 =>
                  rw [hv] at h2
                  exact decodeTriplets_frame rest st0 st2 h2
            · exact decodeTriplets_frame rest st0 st h
        · exact decodeTriplets_frame rest st0 st h

theorem decodeDomains_frame (v : JSString) {st : JSValue} (h : ObjModel st) :
    Always (Frame [] ["domains"] st)
      (fun r => Frame [] ["domains"] st r.1 ∧ (r.2 = none ∨ r.2 = some .domains))
      (decodeDomains v st) := by
  unfold decodeDomains
  exact always_bind (readPath_always (frame_refl h _ _) _) fun _ _ =>
    decodeTriplets_frame _ st st (frame_refl h _ _)

theorem decodeHome_frame (v : JSString) {st : JSValue} (h : ObjModel st) :
    Always (Frame [] ["camera_home"] st)
      (fun r => Frame [] ["camera_home"] st r.1 ∧ (r.2 = none ∨ r.2 = some .home))
      (decodeHome v st) := by
  have h0 := frame_refl h [] ["camera_home"]
  unfold decodeHome
  split
  · split
    · exact ⟨h0, Or.inr rfl⟩
    · refine always_bind (assign_model_frame_from h0 (by simp) _ _) fun s1 h1 => ?_
      refine always_bind (assign_model_frame_from h1 (by simp) _ _) fun s2 h2 => ?_
      refine always_bind (assign_model_frame_from h2 (by simp) _ _) fun s3 h3 => ?_
      refine always_bind (assign_model_frame_from h3 (by simp) _ _) fun s4 h4 => ?_
      refine always_bind (assign_model_frame_from h4 (by simp) _ _) fun s5 h5 => ?_
      refine always_bind (assign_model_frame_from h5 (by simp) _ _) fun s6 h6 => ?_
      refine always_bind (assign_model_frame_from h6 (by simp) _ _) fun s7 h7 => ?_
      refine always_bind (assign_model_frame_from h7 (by simp) _ _) fun s8 h8 => ?_
      refine always_bind (assign_model_frame_from h8 (by simp) _ _) fun s9 h9 => ?_
      refine always_bind (assign_model_frame_from h9 (by simp) _ _) fun s10 h10 => ?_
      refine always_bind (assign_model_frame_from h10 (by simp) _ _) fun s11 h11 => ?_
      exact ⟨h11, Or.inl rfl⟩
  · exact ⟨h0, Or.inr rfl⟩

theorem decodeSectioning_frame (p : Option JSString) {st : JSValue} (h : ObjModel st) :
    ∃ st', decodeSectioning p st = .ok st' ∧ Frame ["sectioning"] [] st st' := by
  obtain ⟨ps, ms, rfl, hm⟩ := h
  unfold decodeSectioning
  cases paramGiven p with
  | some v =>
    obtain ⟨st', h1, h2, _⟩ := assign_top_frame ⟨ps, ms, rfl, hm⟩ (k := "sectioning")
      (by decide) (.bool (decide (v = "true".toList)))
    exact ⟨st', h1, h2⟩
  | none =>
    obtain ⟨st', h1, h2, _⟩ := assign_top_frame ⟨ps, ms, rfl, hm⟩ (k := "sectioning")
      (by decide) (.bool (truthy ((lookup "sectioning" ps).getD .undefined)))
    exact ⟨st', h1, h2⟩

theorem decodeSection_frame (v : JSString) {st : JSValue} (h : ObjModel st) :
    Always (Frame [] ["section"] st)
      (fun r => Frame [] ["section"] st r.1 ∧ (r.2 = none ∨ r.2 = some .section_))
      (decodeSection v st) := by
  have h0 := frame_refl h [] ["section"]
  unfold decodeSection
  split
  · refine always_bind (readPath_always h0 _) fun sectioning _ => ?_
    split
    · refine always_bind (readPath_always h0 _) fun sec _ => ?_
      split
      · exact ⟨h0, Or.inl rfl⟩
      · refine always_bind (readPath_always h0 _) fun _ _ => ?_
        refine always_bind (readPath_always h0 _) fun _ _ => ?_
        refine always_bind (readPath_always h0 _) fun _ _ => ?_
        refine always_bind (readPath_always h0 _) fun _ _ => ?_
        split
        · exact ⟨h0, Or.inl rfl⟩
        · refine always_bind (assign_model_frame_from h0 (by simp) _ _) fun s1 h1 => ?_
          refine always_bind (assign_model_frame_from h1 (by simp) _ _) fun s2 h2 => ?_
          refine always_bind (assign_model_frame_from h2 (by simp) _ _) fun s3 h3 => ?_
          refine always_bind (assign_model_frame_from h3 (by simp) _ _) fun s4 h4 => ?_
          refine always_bind (assign_model_frame_from h4 (by simp) _ _) fun s5 h5 => ?_
          refine always_bind (assign_model_frame_from h5 (by simp) _ _) fun s6 h6 => ?_
          exact ⟨h6, Or.inl rfl⟩
    · exact ⟨h0, Or.inl rfl⟩
  · exact ⟨h0, Or.inr rfl⟩

theorem lowerChar_of_isLowerHex {c : Char} (h : isLowerHex c = true) : lowerChar c = c := by
  unfold isLowerHex at h
  unfold lowerChar
  simp only [Bool.or_eq_true, Bool.and_eq_true, decide_eq_true_eq] at h
  rw [if_neg]
  omega

theorem sanitizeColor_idem (s : JSString) : sanitizeColor (sanitizeColor s) = sanitizeColor s := by
  have hall : ∀ c ∈ sanitizeColor s, isLowerHex c = true := fun c hc =>
    (List.mem_filter.1 hc).2
  have hmap : toLowerCase (sanitizeColor s) = sanitizeColor s := by
    unfold toLowerCase
    conv_rhs => rw [← List.map_id (sanitizeColor s)]
    exact List.map_congr_left fun c hc => lowerChar_of_isLowerHex (hall c hc)
  show (toLowerCase (sanitizeColor s)).filter isLowerHex = sanitizeColor s
  rw [hmap, List.filter_eq_self]
  exact hall

theorem isHexDigit_of_isLowerHex {c : Char} (h : isLowerHex c = true) : isHexDigit c = true := by
  unfold isLowerHex at h
  simp only [Bool.or_eq_true, Bool.and_eq_true, decide_eq_true_eq] at h
  have hc : c = Char.ofNat c.toNat := (Char.ofNat_toNat c).symm
  generalize c.toNat = n at h hc
  subst hc
  rcases h with ⟨h1, h2⟩ | ⟨h1, h2⟩ <;> interval_cases n <;> decide

theorem isHex6_sanitizeColor {s : JSString} (h : (sanitizeColor s).length = 6) :
    IsHex6 (sanitizeColor s) :=
  ⟨h, fun _ hc => isHexDigit_of_isLowerHex (List.mem_filter.1 hc).2⟩

theorem decodeTriplets_sanitize (st : JSValue) (ai ac av : JSString) (rest : List JSString) :
    decodeTriplets st (ai :: ac :: av :: rest) =
      decodeTriplets st (ai :: sanitizeColor ac :: av :: rest) := by
  rw [decodeTriplets, decodeTriplets]
  simp only [sanitizeColor_idem]

theorem decodeTriplets_step_sanitized (st : JSValue) (t : Triplet) (rest : List JSString)
    {ds : List JSValue} (hst : HasDomains st ds) (hobj : ∀ d ∈ ds, d.isObj = true)
    (ht : t.offending = false) :
    ∃ st1, decodeTriplets st (t.idx :: t.color :: t.visible :: rest) = decodeTriplets st1 rest ∧
      HasDomains st1 (stepDomains ds t.sanitized) ∧
      ∀ d ∈ stepDomains ds t.sanitized, d.isObj = true := by
  unfold Triplet.offending at ht
  simp only [Bool.or_eq_false_iff, decide_eq_false_iff_not, ne_eq, not_not] at ht
  obtain ⟨hi, hc⟩ := ht
  cases hp : parseInt t.idx with
  | none => rw [hp] at hi; cases hi
  | some i =>
    rw [decodeTriplets_sanitize]
    exact decodeTriplets_step st t.sanitized rest hst hobj hp (isHex6_sanitizeColor hc)

theorem decodeTriplets_offending (bad : Triplet) (post : List Triplet)
    (hbad : bad.offending = true) (pre : List Triplet) :
    ∀ (st : JSValue) (ds : List JSValue), HasDomains st ds → (∀ d ∈ ds, d.isObj = true) →
      (∀ t ∈ pre, t.offending = false) →
      ∃ st', decodeTriplets st (fieldsOf (pre ++ bad :: post)) = .ok (st', some .domains) ∧
        HasDomains st' ((pre.map Triplet.sanitized).foldl stepDomains ds) := by
  induction pre with
  | nil =>
    intro st ds hst _ _
    refine ⟨st, ?_, hst⟩
    simp only [List.nil_append, fieldsOf]
    rw [decodeTriplets]
    unfold Triplet.offending at hbad
    simp only [Bool.or_eq_true, Option.isNone_iff_eq_none, decide_eq_true_eq] at hbad
    cases hp : parseInt bad.idx with
    | none => rfl
    | some i =>
      rw [hp] at hbad
      simp only [reduceCtorEq, false_or] at hbad
      simp only [hbad, ne_eq, not_false_eq_true, if_true]
  | cons t pre ih =>
    intro st ds hst hobj hpre
    obtain ⟨st1, hstep, hd1, ho1⟩ := decodeTriplets_step_sanitized st t
      (fieldsOf (pre ++ bad :: post)) hst hobj (hpre t (List.mem_cons_self _ _))
    obtain ⟨st', hrest, hd'⟩ := ih st1 _ hd1 ho1 (fun t' ht' => hpre t' (List.mem_cons_of_mem _ ht'))
    exact ⟨st', by rw [List.cons_append, fieldsOf, hstep, hrest], hd'⟩

/-! ## A rejected triplet in the `domains` parameter -/

theorem frame_sub {top mod top' mod' : List String} {a b : JSValue}
    (ht : top ⊆ top') (hm : mod ⊆ mod') (h : Frame top mod a b) : Frame top' mod' a b :=
  frame_mono (fun _ hk => ht hk) (fun _ hk => hm hk) h

theorem hasDomains_of_frame {top mod : List String} {st st' : JSValue} {ds : List JSValue}
    (h : HasDomains st ds) (hf : Frame top mod st st') (hk : "domains" ∉ mod) :
    HasDomains st' ds := by
  obtain ⟨dp, hp⟩ := hasDomains_getPath h
  obtain ⟨⟨ps', ms', rfl, hm'⟩, h2, _⟩ := hf
  have := h2 "domains" hk
  rw [hp] at this
  simp only [getPath, getKey, Key.name, hm', Option.getD, Option.bind, Option.some.injEq] at this
  refine ⟨ps', ms', dp, rfl, hm', ?_⟩
  cases hl : lookup "domains" ms' with
  | none => rw [hl] at this; cases this
  | some v => rw [hl] at this; simp only [Option.getD] at this; rw [this]

theorem hasDomains_objModel {st : JSValue} {ds : List JSValue} (h : HasDomains st ds) :
    ObjModel st := by
  obtain ⟨ps, ms, _, rfl, hm, _⟩ := h
  exact ⟨ps, ms, rfl, hm⟩

theorem decodeModel_two {st : JSValue} (h : ObjModel st) {v mc mv : JSString}
    (hs : split ',' v = [mc, mv]) :
    ∃ st', decodeModel v st = .ok (st', none) ∧ Frame [] ["color", "visible"] st st' ∧
      getPath st' ["model", "color"] = some (.str (sanitizeColor mc)) ∧
      getPath st' ["model", "visible"] = some (matchLeadingT mv) := by
  obtain ⟨ps, ms, rfl, hm⟩ := h
  unfold decodeModel
  rw [hs]
  refine ⟨.obj (assocSet "model" (.obj (assocSet "visible" (matchLeadingT mv)
    (assocSet "color" (.str (sanitizeColor mc)) ms))) (assocSet "model"
      (.obj (assocSet "color" (.str (sanitizeColor mc)) ms)) ps)), ?_, ?_, ?_, ?_⟩
  · simp [assign, setPath, getKey, setKey, Key.name, hm, orThrow, bind, Except.bind, pure,
      Except.pure, lookup_assocSet_same]
  · refine ⟨⟨_, _, rfl, lookup_assocSet_same _ _ _⟩, fun k hk => ?_, fun t ht _ => ?_⟩
    · simp only [List.mem_cons, List.mem_singleton, List.not_mem_nil, or_false, not_or] at hk
      simp [getPath, getKey, Key.name, lookup_assocSet_same, hm,
        lookup_assocSet_ne (Ne.symm hk.1), lookup_assocSet_ne (Ne.symm hk.2)]
    · simp [getPath, getKey, Key.name, lookup_assocSet_ne (Ne.symm ht)]
  · simp [getPath, getKey, Key.name, lookup_assocSet_same,
      lookup_assocSet_ne (show "visible" ≠ "color" by decide)]
  · simp [getPath, getKey, Key.name, lookup_assocSet_same]

theorem decodeModel_other (st : JSValue) {v : JSString} (hs : (split ',' v).length ≠ 2) :
    decodeModel v st = .ok (st, some .model) := by
  unfold decodeModel
  split
  · rename_i mc mv heq
    rw [heq] at hs
    exact absurd rfl hs
  · rfl

theorem modelStage_two (prm : Params) {st : JSValue} (h : ObjModel st)
    (hmodel : ∀ v, paramGiven prm.model = some v → (split ',' v).length = 2) :
    ∃ st', modelStage prm (st, none) = .ok (st', none) ∧
      Frame [] ["color", "visible"] st st' := by
  unfold modelStage
  cases hp : paramGiven prm.model with
  | none => exact ⟨st, rfl, frame_refl h _ _⟩
  | some v =>
    have hl := hmodel v hp
    obtain ⟨mc, mv, hs⟩ : ∃ mc mv, split ',' v = [mc, mv] := by
      match hsp : split ',' v, hl with
      | [a, b], _ => exact ⟨a, b, rfl⟩
    obtain ⟨st', h1, h2, _⟩ := decodeModel_two h hs
    exact ⟨st', h1, h2⟩

/-- C11: a `domains` value made of complete triplets, one of which the decoder
rejects (its index does not parse as an integer or its sanitised colour is not
6 characters long), decoded in a state whose domains are objects, after a
`model` parameter that is absent or has two fields: `updateStateFromParam`
returns with the error `domains`; the domains are those that the triplets
before the first rejected one give, and `camera_home`, `sectioning` and the
section are as they were, whatever the `home`, `sectioning` and `section`
parameters are. -/
theorem decode_domains_error (prm : Params) (st : JSValue) (ds : List JSValue)
    (val : JSString) (pre post : List Triplet) (bad : Triplet)
    (hst : HasDomains st ds) (hobj : ∀ d ∈ ds, d.isObj = true)
    (hprm : prm.domains = some val)
    (hmodel : ∀ v, paramGiven prm.model = some v → (split ',' v).length = 2)
    (hval : split ',' val = fieldsOf (pre ++ bad :: post))
    (hpre : ∀ t ∈ pre, t.offending = false) (hbad : bad.offending = true) :
    ∃ st', updateStateFromParam prm st = .ok (st', some .domains) ∧
      HasDomains st' ((pre.map Triplet.sanitized).foldl stepDomains ds) ∧
      getPath st' ["model", "camera_home"] = getPath st ["model", "camera_home"] ∧
      getPath st' ["sectioning"] = getPath st ["sectioning"] ∧
      getPath st' ["model", "section"] = getPath st ["model", "section"] := by
  obtain ⟨st1, hdbg, hf1⟩ := debugStage_frame prm (hasDomains_objModel hst)
  obtain ⟨st2, hmod, hf2⟩ := modelStage_two prm hf1.1 hmodel
  have hf12 : Frame ["debug"] ["color", "visible"] st st2 :=
    frame_trans (frame_sub (by simp) (by simp) hf1) (frame_sub (by simp) (by simp) hf2)
  have hd2 : HasDomains st2 ds := hasDomains_of_frame hst hf12 (by decide)
  obtain ⟨st3, htr, hd3⟩ := decodeTriplets_offending bad post hbad pre st2 ds hd2 hobj hpre
  have hf3 : Frame [] ["domains"] st2 st3 := by
    have := decodeTriplets_frame (fieldsOf (pre ++ bad :: post)) st2 st2 (frame_refl hf12.1 _ _)
    rw [htr] at this
    exact this.1
  have hval0 : val ≠ [] := by
    rintro rfl
    have := congrArg List.length hval
    rw [fieldsOf_length] at this
    simp [split] at this
    omega
  have hgiven : paramGiven prm.domains = some val := by
    rw [hprm]
    cases val with
    | nil => exact absurd rfl hval0
    | cons c cs => rfl
  obtain ⟨dp, hp⟩ := hasDomains_getPath hd2
  have hdom : domainsStage prm (st2, none) = .ok (st3, some .domains) := by
    simp only [domainsStage, hgiven, decodeDomains, readPath, hp, orThrow, bind, Except.bind,
      hval, htr]
  have hall : Frame ["debug"] ["color", "visible", "domains"] st st3 :=
    frame_trans (frame_sub (by simp) (by simp) hf12) (frame_sub (by simp) (by simp) hf3)
  refine ⟨st3, ?_, hd3, hall.2.1 "camera_home" (by decide), hall.2.2 "sectioning" (by decide)
    (by decide), hall.2.1 "section" (by decide)⟩
  rw [updateStateFromParam_stages]
  simp only [hdbg, hmod, hdom, bind, Except.bind]
  rfl

/-- Witness for C11: in `domains=1,ff00aa,t,x,00ff00,f,2,123456,t` the second
triplet has the index `x`; on the example state the error is `domains`, only
domain 1 is updated, and the `home`, `sectioning` and `section` parameters
that follow are not applied. -/
theorem decode_domains_error_witness :
    ∃ st', updateStateFromParam
        { domains := some "1,ff00aa,t,x,00ff00,f,2,123456,t".toList,
          home := some "1,1,1,2,2000,1,1,11,1,0,0".toList,
          sectioning := some "true".toList,
          section_ := some "1,2,3,4,5,6".toList } demoState = .ok (st', some .domains) ∧
      HasDomains st' (([⟨"1".toList, "ff00aa".toList, "t".toList⟩].map
        Triplet.sanitized).foldl stepDomains demoDomains) ∧
      getPath st' ["model", "camera_home"] = getPath demoState ["model", "camera_home"] ∧
      getPath st' ["sectioning"] = getPath demoState ["sectioning"] ∧
      getPath st' ["model", "section"] = getPath demoState ["model", "section"] :=
  decode_domains_error _ demoState demoDomains "1,ff00aa,t,x,00ff00,f,2,123456,t".toList
    [⟨"1".toList, "ff00aa".toList, "t".toList⟩] [⟨"2".toList, "123456".toList, "t".toList⟩]
    ⟨"x".toList, "00ff00".toList, "f".toList⟩ demoState_hasDomains (by decide) rfl
    (fun v hv => by cases hv) (by decide) (by decide) (by decide)

/-! ## The `model` parameter -/

theorem assign_top_getKey {st : JSValue} (h : NonNull st) (k : String) (x : JSValue) :
    ∃ st', assign st [.prop k] x = .ok st' ∧
      ∀ k' : String, k' ≠ k → getKey st' (.prop k') = getKey st (.prop k') := by
  cases st with
  | undefined => cases h
  | null => cases h
  | bool b => exact ⟨_, rfl, fun _ _ => rfl⟩
  | num n => exact ⟨_, rfl, fun _ _ => rfl⟩
  | str s => exact ⟨_, rfl, fun _ _ => rfl⟩
  | arr es ps =>
    refine ⟨.arr es (assocSet k x ps), rfl, fun k' hk => ?_⟩
    simp only [getKey, lookup_assocSet_ne (Ne.symm hk)]
  | obj ps =>
    refine ⟨.obj (assocSet k x ps), rfl, fun k' hk => ?_⟩
    simp only [getKey, Key.name, lookup_assocSet_ne (Ne.symm hk)]

theorem paramGiven_of_ne_nil {v : JSString} (h : v ≠ []) : paramGiven (some v) = some v := by
  cases v with
  | nil => exact absurd rfl h
  | cons c cs => rfl

/-- C12, as amended: for a `model` value that is not empty and does not have
exactly two comma-separated fields, in a state that is not `undefined` or
`null`, `updateStateFromParam` returns with the error `model`, whatever the
other parameters are; no key of the state other than `debug` has changed (so
the model with its colour, visibility, domains, `camera_home` and section, and
`sectioning`, are as they were), and without a `debug` parameter the state is
unchanged. -/
theorem model_fail_fast (prm : Params) (st : JSValue) (v : JSString)
    (hprm : prm.model = some v) (hne : v ≠ []) (hlen : (split ',' v).length ≠ 2)
    (hst : NonNull st) :
    ∃ st', updateStateFromParam prm st = .ok (st', some .model) ∧
      (∀ k : String, k ≠ "debug" → getKey st' (.prop k) = getKey st (.prop k)) ∧
      (paramGiven prm.debug = none → st' = st) := by
  have hgiven : paramGiven prm.model = some v := by rw [hprm]; exact paramGiven_of_ne_nil hne
  have hrest : ∀ s : JSValue, (modelStage prm (s, none) >>= fun r => domainsStage prm r >>=
      fun r => homeStage prm r >>= fun r => sectioningStage prm r >>= sectionStage prm)
      = .ok (s, some .model) := by
    intro s
    simp only [modelStage, hgiven, decodeModel_other s hlen, bind, Except.bind]
    rfl
  rw [updateStateFromParam_stages]
  cases hd : paramGiven prm.debug with
  | none =>
    refine ⟨st, ?_, fun _ _ => rfl, fun _ => rfl⟩
    have : debugStage prm st = .ok st := by simp only [debugStage, hd]; rfl
    rw [this]
    exact hrest st
  | some d =>
    obtain ⟨st', h1, h2⟩ := assign_top_getKey hst "debug" (matchLeadingT d)
    refine ⟨st', ?_, h2, fun h => by cases h⟩
    have : debugStage prm st = .ok st' := by simp only [debugStage, hd]; exact h1
    rw [this]
    exact hrest st'

/-- Witness for C12: `model=ff00aa` has one field; the error is `model` and the
`domains`, `home`, `sectioning` and `section` parameters are not applied. -/
theorem model_fail_fast_witness :
    ∃ st', updateStateFromParam
        { model := some "ff00aa".toList,
          domains := some "1,ff00aa,t".toList,
          home := some "1,1,1,2,2000,1,1,11,1,0,0".toList,
          sectioning := some "true".toList,
          section_ := some "1,2,3,4,5,6".toList } demoState = .ok (st', some .model) ∧
      (∀ k : String, k ≠ "debug" → getKey st' (.prop k) = getKey demoState (.prop k)) ∧
      (paramGiven (none : Option JSString) = none → st' = demoState) :=
  model_fail_fast _ demoState "ff00aa".toList rfl (by decide) (by decide) rfl

/-- C12 as stated fails for the empty `model` value (the URL holds `model=`):
it has one field, not two, yet the block is skipped; no error is signalled and
the `domains` parameter is applied. -/
theorem model_empty_not_rejected :
    (split ',' ([] : JSString)).length ≠ 2 ∧
    getPath demoState ["model", "domains", .idx 1, "color"] = some (.str "00ff00".toList) ∧
    ∃ st', updateStateFromParam
        { model := some [], domains := some "1,ff00aa,t".toList } demoState = .ok (st', none) ∧
      getPath st' ["model", "domains", .idx 1, "color"] = some (.str "ff00aa".toList) :=
  ⟨by decide, rfl, _, rfl, rfl⟩

theorem except_bind_ok {ε α β : Type} (a : α) (f : α → Except ε β) :
    (Except.ok a >>= f) = f a := rfl

theorem domainsStage_frame (prm : Params) {top mod : List String} {st0 : JSValue}
    (hk : "domains" ∈ mod) (r : JSValue × Option ParamError) (h : Frame top mod st0 r.1)
    (he : r.2 ≠ some .model) :
    Always (Frame top mod st0) (fun r' => Frame top mod st0 r'.1 ∧ r'.2 ≠ some .model)
      (domainsStage prm r) := by
  obtain ⟨s, e⟩ := r
  unfold domainsStage
  cases e with
  | some e => exact ⟨h, he⟩
  | none =>
    cases paramGiven prm.domains with
    | none => exact ⟨h, he⟩
    | some v =>
      have hm : ∀ s', Frame [] ["domains"] s s' → Frame top mod st0 s' := fun s' hs =>
        frame_trans h (frame_sub (by simp) (by simpa using hk) hs)
      refine always_mono hm (fun r' hr => ⟨hm _ hr.1, ?_⟩) (decodeDomains_frame v h.1)
      rcases hr.2 with h2 | h2 <;> rw [h2] <;> simp

theorem homeStage_frame (prm : Params) {top mod : List String} {st0 : JSValue}
    (hk : "camera_home" ∈ mod) (r : JSValue × Option ParamError) (h : Frame top mod st0 r.1)
    (he : r.2 ≠ some .model) :
    Always (Frame top mod st0) (fun r' => Frame top mod st0 r'.1 ∧ r'.2 ≠ some .model)
      (homeStage prm r) := by
  obtain ⟨s, e⟩ := r
  unfold homeStage
  cases e with
  | some e => exact ⟨h, he⟩
  | none =>
    cases paramGiven prm.home with
    | none => exact ⟨h, he⟩
    | some v =>
      have hm : ∀ s', Frame [] ["camera_home"] s s' → Frame top mod st0 s' := fun s' hs =>
        frame_trans h (frame_sub (by simp) (by simpa using hk) hs)
      refine always_mono hm (fun r' hr => ⟨hm _ hr.1, ?_⟩) (decodeHome_frame v h.1)
      rcases hr.2 with h2 | h2 <;> rw [h2] <;> simp

theorem sectioningStage_frame (prm : Params) {top mod : List String} {st0 : JSValue}
    (hk : "sectioning" ∈ top) (r : JSValue × Option ParamError) (h : Frame top mod st0 r.1)
    (he : r.2 ≠ some .model) :
    Always (Frame top mod st0) (fun r' => Frame top mod st0 r'.1 ∧ r'.2 ≠ some .model)
      (sectioningStage prm r) := by
  obtain ⟨s, e⟩ := r
  unfold sectioningStage
  cases e with
  | some e => exact ⟨h, he⟩
  | none =>
    obtain ⟨s', h1, h2⟩ := decodeSectioning_frame prm.sectioning h.1
    simp only [h1]
    exact ⟨frame_trans h (frame_sub (by simpa using hk) (by simp) h2), he⟩

theorem sectionStage_frame (prm : Params) {top mod : List String} {st0 : JSValue}
    (hk : "section" ∈ mod) (r : JSValue × Option ParamError) (h : Frame top mod st0 r.1)
    (he : r.2 ≠ some .model) :
    Always (Frame top mod st0) (fun r' => Frame top mod st0 r'.1 ∧ r'.2 ≠ some .model)
      (sectionStage prm r) := by
  obtain ⟨s, e⟩ := r
  unfold sectionStage
  cases e with
  | some e => exact ⟨h, he⟩
  | none =>
    cases paramGiven prm.section_ with
    | none => exact ⟨h, he⟩
    | some v =>
      have hm : ∀ s', Frame [] ["section"] s s' → Frame top mod st0 s' := fun s' hs =>
        frame_trans h (frame_sub (by simp) (by simpa using hk) hs)
      refine always_mono hm (fun r' hr => ⟨hm _ hr.1, ?_⟩) (decodeSection_frame v h.1)
      rcases hr.2 with h2 | h2 <;> rw [h2] <;> simp

/-- C13: for a `model` value with exactly two comma-separated fields, in a
state whose `model` is an object, the `model` block returns without an error
and leaves the model colour equal to the first field lower-cased with every
character outside `0-9a-f` removed; and however the whole of
`updateStateFromParam` ends, with whatever other parameters, the model colour
is that text and the error signalled, if any, is not `model`. -/
theorem model_colour_sanitised (prm : Params) (st : JSValue) (v mc mv : JSString)
    (hprm : prm.model = some v) (hs : split ',' v = [mc, mv]) (hst : ObjModel st) :
    (∃ st1 st2, debugStage prm st = .ok st1 ∧ modelStage prm (st1, none) = .ok (st2, none) ∧
      getPath st2 ["model", "color"] = some (.str (sanitizeColor mc))) ∧
    Always (fun s => getPath s ["model", "color"] = some (.str (sanitizeColor mc)))
      (fun r => getPath r.1 ["model", "color"] = some (.str (sanitizeColor mc)) ∧
        r.2 ≠ some .model)
      (updateStateFromParam prm st) := by
  have hne : v ≠ [] := by
    rintro rfl
    simp [split] at hs
  have hgiven : paramGiven prm.model = some v := by rw [hprm]; exact paramGiven_of_ne_nil hne
  obtain ⟨st1, hdbg, hf1⟩ := debugStage_frame prm hst
  obtain ⟨st2, hdec, hf2, hcol, _⟩ := decodeModel_two hf1.1 hs
  have hmod : modelStage prm (st1, none) = .ok (st2, none) := by
    simp only [modelStage, hgiven, hdec]
  refine ⟨⟨st1, st2, hdbg, hmod, hcol⟩, ?_⟩
  rw [updateStateFromParam_stages]
  simp only [hdbg, hmod, except_bind_ok]
  have h0 : Frame ["sectioning"] ["domains", "camera_home", "section"] st2 st2 :=
    frame_refl hf2.1 _ _
  have hfin : ∀ s, Frame ["sectioning"] ["domains", "camera_home", "section"] st2 s →
      getPath s ["model", "color"] = some (.str (sanitizeColor mc)) := fun s hs =>
    (hs.2.1 "color" (by decide)).trans hcol
  refine always_mono (P := Frame ["sectioning"] ["domains", "camera_home", "section"] st2)
    (Q := fun r => Frame ["sectioning"] ["domains", "camera_home", "section"] st2 r.1 ∧
      r.2 ≠ some .model) hfin (fun r hr => ⟨hfin _ hr.1, hr.2⟩) ?_
  refine always_bind (domainsStage_frame prm (by simp) (st2, none) h0 (by simp)) fun r1 h1 => ?_
  refine always_bind (homeStage_frame prm (by simp) r1 h1.1 h1.2) fun r2 h2 => ?_
  refine always_bind (sectioningStage_frame prm (by simp) r2 h2.1 h2.2) fun r3 h3 => ?_
  exact sectionStage_frame prm (by simp) r3 h3.1 h3.2

/-- Witness for C13: `model=ghijkl,t` leaves the empty colour string and
signals no `model` error. -/
theorem model_colour_sanitised_witness :
    (∃ st1 st2, debugStage { model := some "ghijkl,t".toList } demoState = .ok st1 ∧
      modelStage { model := some "ghijkl,t".toList } (st1, none) = .ok (st2, none) ∧
      getPath st2 ["model", "color"] = some (.str [])) ∧
    Always (fun s => getPath s ["model", "color"] = some (.str []))
      (fun r => getPath r.1 ["model", "color"] = some (.str []) ∧ r.2 ≠ some .model)
      (updateStateFromParam { model := some "ghijkl,t".toList } demoState) :=
  model_colour_sanitised { model := some "ghijkl,t".toList } demoState "ghijkl,t".toList
    "ghijkl".toList "t".toList rfl (by decide) ⟨_, _, rfl, rfl⟩

/-! ## The `home` parameter -/

theorem lookup_assocSet (k k' : String) (x : JSValue) (ps : Props) :
    lookup k (assocSet k' x ps) = if k' = k then some x else lookup k ps := by
  by_cases h : k' = k
  · subst h; rw [if_pos rfl, lookup_assocSet_same]
  · rw [if_neg h, lookup_assocSet_ne h]

theorem assocSet_assocSet (k : String) (x y : JSValue) (ps : Props) :
    assocSet k x (assocSet k y ps) = assocSet k x ps := by
  induction ps with
  | nil => simp [assocSet]
  | cons p ps ih =>
    obtain ⟨k', v⟩ := p
    by_cases h : k' = k <;> simp [assocSet, h, ih]

theorem getD_setElem (es : List JSValue) (i j : Nat) (x : JSValue) :
    (setElem es i x).getD j .undefined = if i = j then x else es.getD j .undefined := by
  induction es generalizing i j with
  | nil =>
    induction i generalizing j with
    | zero => cases j <;> simp [setElem]
    | succ i ih =>
      cases j with
      | zero => simp [setElem]
      | succ j => simpa [setElem] using ih j
  | cons e es ih =>
    cases i with
    | zero => cases j <;> simp [setElem]
    | succ i =>
      cases j with
      | zero => simp [setElem]
      | succ j => simpa [setElem] using ih i j

theorem decodeHome_valid {st : JSValue} (h : HasCameraHome st) {v : JSString}
    (hlen : (split ',' v).length = 11) (hnan : ∀ f ∈ split ',' v, parseFloat f ≠ .nan) :
    ∃ st', decodeHome v st = .ok (st', none) ∧
      cameraHomeFields st' = (split ',' v).map fun f => some (.num (parseFloat f)) := by
  obtain ⟨ps, ms, cs, cen, cp, pos, pp, up, uq, rfl, hm, hc, hcen, hpos, hup⟩ := h
  match hsp : split ',' v, hlen, hnan with
  | [a0, a1, a2, a3, a4, a5, a6, a7, a8, a9, a10], _, hnan =>
    have hany : ([parseFloat a0, parseFloat a1, parseFloat a2, parseFloat a3, parseFloat a4,
        parseFloat a5, parseFloat a6, parseFloat a7, parseFloat a8, parseFloat a9,
        parseFloat a10].any fun x => decide (x = JSNum.nan)) = false := by
      simp only [List.any_eq_false, decide_eq_true_eq]
      intro x hx
      simp only [List.mem_cons, List.mem_singleton, List.not_mem_nil, or_false] at hx
      rcases hx with rfl | rfl | rfl | rfl | rfl | rfl | rfl | rfl | rfl | rfl | rfl <;>
        exact hnan _ (by simp)
    unfold decodeHome
    rw [hsp]
    simp only [List.map, hany, Bool.false_eq_true, if_false]
    simp only [assign, setPath, getKey, setKey, Key.name, orThrow, bind, Except.bind, pure,
      Except.pure, lookup_assocSet, assocSet_assocSet, Option.getD, Option.bind, hm, hc, hcen,
      hpos, hup, if_true, if_false, reduceIte, String.reduceEq]
    refine ⟨_, rfl, ?_⟩
    simp only [cameraHomeFields, getPath, getKey, Key.name, lookup_assocSet, getD_setElem,
      String.reduceEq, Option.getD, Option.bind, if_true, if_false, reduceIte,
      OfNat.ofNat_ne_zero, OfNat.zero_ne_ofNat, Nat.reduceEqDiff, OfNat.ofNat_ne_one,
      OfNat.one_ne_ofNat, zero_ne_one, one_ne_zero]

theorem decodeHome_invalid (st : JSValue) {v : JSString}
    (h : ¬ ((split ',' v).length = 11 ∧ ∀ f ∈ split ',' v, parseFloat f ≠ .nan)) :
    decodeHome v st = .ok (st, some .home) := by
  unfold decodeHome
  split
  · rename_i c0 c1 c2 near far p0 p1 p2 u0 u1 u2 heq
    split
    · rfl
    · rename_i hany
      exfalso
      apply h
      have hl : (split ',' v).length = 11 := by
        have := congrArg List.length heq
        simpa using this
      refine ⟨hl, fun f hf hn => hany ?_⟩
      have hm : parseFloat f ∈ (split ',' v).map parseFloat := List.mem_map_of_mem _ hf
      rw [heq, hn] at hm
      simp only [List.any_eq_true, decide_eq_true_eq]
      exact ⟨_, hm, rfl⟩
  · rfl

/-- C14, as amended: for a `home` value that is not empty, decoded with no
earlier error.  If it has exactly 11 comma-separated fields that each parse as
a float, then in a state whose `camera_home` holds the arrays `cen`, `pos` and
`up` the block returns without an error and `cen[0..2]`, `near`, `far`,
`pos[0..2]`, `up[0..2]` hold the 11 parsed values in that order; otherwise the
block returns with the error `home` and the state is unchanged. -/
theorem home_all_or_nothing (prm : Params) (st : JSValue) (v : JSString)
    (hprm : prm.home = some v) (hne : v ≠ []) :
    ((split ',' v).length = 11 → (∀ f ∈ split ',' v, parseFloat f ≠ .nan) →
      HasCameraHome st →
      ∃ st', homeStage prm (st, none) = .ok (st', none) ∧
        cameraHomeFields st' = (split ',' v).map fun f => some (.num (parseFloat f))) ∧
    (¬ ((split ',' v).length = 11 ∧ ∀ f ∈ split ',' v, parseFloat f ≠ .nan) →
      homeStage prm (st, none) = .ok (st, some .home)) := by
  have hgiven : paramGiven prm.home = some v := by rw [hprm]; exact paramGiven_of_ne_nil hne
  refine ⟨fun hlen hnan hst => ?_, fun h => ?_⟩
  · obtain ⟨st', h1, h2⟩ := decodeHome_valid hst hlen hnan
    exact ⟨st', by simp only [homeStage, hgiven, h1], h2⟩
  · simp only [homeStage, hgiven, decodeHome_invalid st h]

/-- Witness for C14: `home=0,0,0,1,1000,0,0,10,0,1,0` sets the centre
(0,0,0), near 1, far 1000, the position (0,0,10) and up (0,1,0); and
`home=1,2,3` signals `home` and changes nothing. -/
theorem home_all_or_nothing_witness :
    (∃ st', homeStage { home := some "0,0,0,1,1000,0,0,10,0,1,0".toList } (sharedHome, none)
        = .ok (st', none) ∧
      cameraHomeFields st' = [some (JSValue.ofNat 0), some (JSValue.ofNat 0),
        some (JSValue.ofNat 0), some (JSValue.ofNat 1), some (JSValue.ofNat 1000),
        some (JSValue.ofNat 0), some (JSValue.ofNat 0), some (JSValue.ofNat 10),
        some (JSValue.ofNat 0), some (JSValue.ofNat 1), some (JSValue.ofNat 0)]) ∧
    homeStage { home := some "1,2,3".toList } (sharedHome, none) = .ok (sharedHome, some .home) :=
  ⟨(home_all_or_nothing { home := some "0,0,0,1,1000,0,0,10,0,1,0".toList } sharedHome
      "0,0,0,1,1000,0,0,10,0,1,0".toList rfl (by decide)).1 (by decide) (by decide)
      ⟨_, _, _, _, _, _, _, _, _, rfl, rfl, rfl, rfl, rfl, rfl⟩,
    (home_all_or_nothing { home := some "1,2,3".toList } sharedHome "1,2,3".toList rfl
      (by decide)).2 (by decide)⟩

/-- C14 as stated fails for the empty `home` value (the URL holds `home=`): it
does not have 11 fields, yet the block is skipped and no error is signalled. -/
theorem home_empty_not_rejected :
    (split ',' ([] : JSString)).length ≠ 11 ∧
    homeStage { home := some [] } (demoState, none) = .ok (demoState, none) ∧
    ∃ st', updateStateFromParam { home := some [] } demoState = .ok (st', none) :=
  ⟨by decide, rfl, _, rfl⟩

/-! ## The `section` parameter -/

theorem decodeSection_count (st : JSValue) {v : JSString} (h : (split ',' v).length ≠ 6) :
    decodeSection v st = .ok (st, some .section_) := by
  unfold decodeSection
  split
  · rename_i heq
    rw [heq] at h
    exact absurd rfl h
  · rfl

theorem decodeSection_ready {st : JSValue} (h : HasSection st) {b : JSValue}
    (hb : getPath st ["sectioning"] = some b) (ht : truthy b = true) {v : JSString}
    (hlen : (split ',' v).length = 6) :
    ∃ st', decodeSection v st = .ok (st', none) ∧
      sectionFields st' = (split ',' v).map fun g => some (.str g) := by
  obtain ⟨ps, ms, ss, dst, pit, yaw, fx, fp, rfl, hm, hsec, hdst, hdst', hpit, hpit', hyaw,
    hyaw', hfxp⟩ := h
  match hsp : split ',' v, hlen with
  | [g0, g1, g2, g3, g4, g5], _ =>
    unfold decodeSection
    rw [hsp]
    have hb' : (lookup "sectioning" ps).getD .undefined = b := by
      simpa [getPath, getKey, Key.name] using hb
    simp only [readPath, assign, getPath, setPath, getKey, setKey, Key.name, orThrow, bind,
      Except.bind, pure, Except.pure, lookup_assocSet, assocSet_assocSet, Option.bind, hm, hsec,
      hdst, hpit, hyaw, hfxp, hb', ht, hdst', hpit', hyaw', if_true, if_false, reduceIte,
      String.reduceEq, Option.getD_some, Bool.or_self, Bool.false_eq_true]
    refine ⟨_, rfl, ?_⟩
    simp only [sectionFields, getPath, getKey, Key.name, lookup_assocSet, getD_setElem,
      String.reduceEq, Option.getD_some, Option.bind, if_true, if_false, reduceIte,
      OfNat.ofNat_ne_zero, OfNat.zero_ne_ofNat, Nat.reduceEqDiff, OfNat.ofNat_ne_one,
      OfNat.one_ne_ofNat, zero_ne_one, one_ne_zero, List.map]

theorem decodeSection_not_ready (st : JSValue) {v : JSString}
    (hlen : (split ',' v).length = 6) (h : ¬ SectionReady st) :
    Always (fun s => s = st) (fun r => r = (st, none)) (decodeSection v st) := by
  match hsp : split ',' v, hlen with
  | [g0, g1, g2, g3, g4, g5], _ =>
    unfold decodeSection
    rw [hsp]
    simp only [readPath, bind, Except.bind, pure, Except.pure]
    cases h1 : getPath st ["sectioning"] with
    | none => rfl
    | some b =>
      simp only [orThrow]
      by_cases hb : truthy b = true
      · simp only [hb, if_true]
        cases h2 : getPath st ["model", "section"] with
        | none => rfl
        | some sec =>
          simp only
          cases hu : sec.isUndefined with
          | true => simp only [if_true]; rfl
          | false =>
            simp only [Bool.false_eq_true, if_false]
            cases h3 : getPath st ["model", "section", "dst"] with
            | none => rfl
            | some dst =>
              simp only
              cases h4 : getPath st ["model", "section", "pit"] with
              | none => rfl
              | some pit =>
                simp only
                cases h5 : getPath st ["model", "section", "yaw"] with
                | none => rfl
                | some yaw =>
                  simp only
                  cases h6 : getPath st ["model", "section", "fxp"] with
                  | none => rfl
                  | some fxp =>
                    simp only
                    split
                    · rfl
                    · rename_i hdef
                      simp only [Bool.or_eq_true, not_or, Bool.not_eq_true] at hdef
                      exact absurd ⟨⟨b, h1, hb⟩, ⟨sec, h2, hu⟩, ⟨dst, h3, hdef.1.1.1⟩,
                        ⟨pit, h4, hdef.1.1.2⟩, ⟨yaw, h5, hdef.1.2⟩, ⟨fxp, h6, hdef.2⟩⟩ h
      · simp only [hb, Bool.false_eq_true, if_false]
        rfl

theorem getKey_of_not_nullish {v : JSValue} (h : v.isNullish = false) (k : Key) :
    ∃ x, getKey v k = some x := by
  cases v with
  | undefined => cases h
  | null => cases h
  | bool b => exact ⟨_, rfl⟩
  | num n => exact ⟨_, rfl⟩
  | obj ps => exact ⟨_, rfl⟩
  | str s =>
    cases k with
    | idx i => exact ⟨_, rfl⟩
    | prop p => by_cases hp : p = "length" <;> simp [getKey, hp]
  | arr es ps =>
    cases k with
    | idx i => exact ⟨_, rfl⟩
    | prop p => by_cases hp : p = "length" <;> simp [getKey, hp]

theorem decodeSection_not_ready_ok {st : JSValue} (hobj : ObjModel st)
    (hnull : getPath st ["model", "section"] ≠ some .null) {v : JSString}
    (hlen : (split ',' v).length = 6) (h : ¬ SectionReady st) :
    decodeSection v st = .ok (st, none) := by
  have ha := decodeSection_not_ready st hlen h
  cases hres : decodeSection v st with
  | ok r => rw [hres] at ha; rw [ha]
  | error e =>
    exfalso
    obtain ⟨ps, ms, rfl, hm⟩ := hobj
    have hsec : getPath (.obj ps) ["model", "section"] =
        some ((lookup "section" ms).getD .undefined) := by
      simp [getPath, getKey, Key.name, hm]
    have hkey : ∀ k : String, (lookup "section" ms).getD .undefined ≠ .undefined →
        ∃ x, getPath (.obj ps) ["model", "section", .prop k] = some x := by
      intro k hu
      have hn : ((lookup "section" ms).getD .undefined).isNullish = false := by
        rw [hsec] at hnull
        cases hv : (lookup "section" ms).getD .undefined <;> simp_all [JSValue.isNullish]
      obtain ⟨x, hx⟩ := getKey_of_not_nullish hn (.prop k)
      refine ⟨x, ?_⟩
      have := getPath_append (.obj ps) ["model", "section"] [.prop k]
      simp only [List.cons_append, List.nil_append] at this
      rw [this, hsec]
      simp [getPath, hx]
    match hsp : split ',' v, hlen with
    | [g0, g1, g2, g3, g4, g5], _ =>
      unfold decodeSection at hres
      rw [hsp] at hres
      have h1 : getPath (.obj ps) ["sectioning"] =
          some ((lookup "sectioning" ps).getD .undefined) := by
        simp [getPath, getKey, Key.name]
      simp only [readPath, bind, Except.bind, pure, Except.pure, h1, hsec, orThrow] at hres
      split at hres
      · split at hres
        · cases hres
        · rename_i hu
          have hu' : (lookup "section" ms).getD .undefined ≠ .undefined := by
            intro e
            rw [e] at hu
            exact hu rfl
          obtain ⟨x1, hx1⟩ := hkey "dst" hu'
          obtain ⟨x2, hx2⟩ := hkey "pit" hu'
          obtain ⟨x3, hx3⟩ := hkey "yaw" hu'
          obtain ⟨x4, hx4⟩ := hkey "fxp" hu'
          simp only [hx1, hx2, hx3, hx4] at hres
          split at hres
          · cases hres
          · rename_i hb hdef
            simp only [Bool.or_eq_true, not_or, Bool.not_eq_true] at hdef
            apply h
            refine ⟨⟨_, h1, hb⟩, ⟨_, hsec, ?_⟩, ⟨x1, hx1, hdef.1.1.1⟩, ⟨x2, hx2, hdef.1.1.2⟩,
              ⟨x3, hx3, hdef.1.2⟩, ⟨x4, hx4, hdef.2⟩⟩
            simpa using hu
      · cases hres

/-- C15, as amended: for a `section` value that is not empty, decoded with no
earlier error.  With a field count other than 6 the block returns with the
error `section` and the state unchanged.  With exactly 6 fields: when
`state.sectioning` is truthy and the section is an object with `dst`, `pit`
and `yaw` defined and an array `fxp`, the block returns without an error and
`dst`, `pit`, `yaw` and `fxp[0..2]` hold the six fields; when the test of the
block fails (sectioning is falsy, or the section or one of `dst`, `pit`, `yaw`,
`fxp` is undefined) the state is unchanged however the block ends, and the
block returns without an error when the state and its model are objects and the
section is not `null`: an absent section stays absent. -/
theorem section_never_created (prm : Params) (st : JSValue) (v : JSString)
    (hprm : prm.section_ = some v) (hne : v ≠ []) :
    ((split ',' v).length ≠ 6 → sectionStage prm (st, none) = .ok (st, some .section_)) ∧
    ((split ',' v).length = 6 → HasSection st →
      (∃ b, getPath st ["sectioning"] = some b ∧ truthy b = true) →
      ∃ st', sectionStage prm (st, none) = .ok (st', none) ∧
        sectionFields st' = (split ',' v).map fun g => some (.str g)) ∧
    ((split ',' v).length = 6 → ¬ SectionReady st →
      Always (fun s => s = st) (fun r => r = (st, none)) (sectionStage prm (st, none)) ∧
      (ObjModel st → getPath st ["model", "section"] ≠ some .null →
        sectionStage prm (st, none) = .ok (st, none))) := by
  have hgiven : paramGiven prm.section_ = some v := by rw [hprm]; exact paramGiven_of_ne_nil hne
  have hstage : sectionStage prm (st, none) = decodeSection v st := by
    simp only [sectionStage, hgiven]
  rw [hstage]
  refine ⟨decodeSection_count st, fun hlen hsec hb => ?_, fun hlen hnr =>
    ⟨decodeSection_not_ready st hlen hnr, fun hobj hnull =>
      decodeSection_not_ready_ok hobj hnull hlen hnr⟩⟩
  obtain ⟨b, hb1, hb2⟩ := hb
  exact decodeSection_ready hsec hb1 hb2 hlen

/-- Witness for C15: `section=1,2,3` signals `section`; `section=1,2,3,4,5,6`
sets the six values of an existing section when sectioning is on, and leaves a
state without a section as it is. -/
theorem section_never_created_witness :
    sectionStage { section_ := some "1,2,3".toList } (demoSectioned, none)
      = .ok (demoSectioned, some .section_) ∧
    (∃ st', sectionStage { section_ := some "1,2,3,4,5,6".toList } (demoSectioned, none)
        = .ok (st', none) ∧
      sectionFields st' = [some (.str "1".toList), some (.str "2".toList),
        some (.str "3".toList), some (.str "4".toList), some (.str "5".toList),
        some (.str "6".toList)]) ∧
    sectionStage { section_ := some "1,2,3,4,5,6".toList } (demoState, none)
      = .ok (demoState, none) ∧
    getPath demoState ["model", "section"] = some .undefined :=
  ⟨(section_never_created { section_ := some "1,2,3".toList } demoSectioned "1,2,3".toList rfl
      (by decide)).1 (by decide),
    (section_never_created { section_ := some "1,2,3,4,5,6".toList } demoSectioned
      "1,2,3,4,5,6".toList rfl (by decide)).2.1 (by decide)
      ⟨_, _, _, _, _, _, _, _, rfl, rfl, rfl, rfl, rfl, rfl, rfl, rfl, rfl, rfl⟩
      ⟨_, rfl, rfl⟩,
    ((section_never_created { section_ := some "1,2,3,4,5,6".toList } demoState
      "1,2,3,4,5,6".toList rfl (by decide)).2.2 (by decide)
      (by
        rintro ⟨⟨b, hb, ht⟩, _⟩
        obtain rfl : JSValue.undefined = b := Option.some.inj hb
        cases ht)).2 ⟨_, _, rfl, rfl⟩
      (by
        intro h
        have h2 : JSValue.undefined = JSValue.null := Option.some.inj h
        cases h2),
    rfl⟩

/-- C15 as stated fails for the empty `section` value (the URL holds
`section=`): its field count is not 6, yet the block is skipped and no error
is signalled. -/
theorem section_empty_not_rejected :
    (split ',' ([] : JSString)).length ≠ 6 ∧
    sectionStage { section_ := some [] } (demoSectioned, none) = .ok (demoSectioned, none) ∧
    ∃ st', updateStateFromParam { section_ := some [] } demoSectioned = .ok (st', none) :=
  ⟨by decide, rfl, _, rfl⟩

/-! ## The `sectioning` parameter -/

/-- C16, as amended: in a state that is an object, decoded with no earlier
error.  If the `sectioning` parameter is present with a value that is not
empty, `state.sectioning` becomes the boolean that is `true` exactly when the
value is the string `true`; if the parameter is absent or its value is empty,
`state.sectioning` becomes the boolean coercion of its previous value.  No
other key of the state changes. -/
theorem sectioning_decoded (prm : Params) (st : JSValue) (hst : st.isObj = true) :
    ∃ st', sectioningStage prm (st, none) = .ok (st', none) ∧
      (∀ k : String, k ≠ "sectioning" → getKey st' (.prop k) = getKey st (.prop k)) ∧
      (∀ v, prm.sectioning = some v → v ≠ [] →
        getPath st' ["sectioning"] = some (.bool (decide (v = "true".toList)))) ∧
      ((prm.sectioning = none ∨ prm.sectioning = some []) →
        ∃ old, getPath st ["sectioning"] = some old ∧
          getPath st' ["sectioning"] = some (.bool (truthy old))) := by
  cases st with
  | obj ps =>
    cases hp : prm.sectioning with
    | none =>
      refine ⟨.obj (assocSet "sectioning"
        (.bool (truthy ((lookup "sectioning" ps).getD .undefined))) ps), ?_, ?_, ?_, ?_⟩
      · simp [sectioningStage, decodeSectioning, hp, paramGiven, readPath, assign, getPath,
          setPath, getKey, setKey, Key.name, orThrow, bind, Except.bind]
      · intro k hk
        simp only [getKey, Key.name, lookup_assocSet_ne (Ne.symm hk)]
      · intro v hv
        cases hv
      · intro _
        exact ⟨_, rfl, by simp [getPath, getKey, Key.name, lookup_assocSet_same]⟩
    | some v =>
      cases v with
      | nil =>
        refine ⟨.obj (assocSet "sectioning"
          (.bool (truthy ((lookup "sectioning" ps).getD .undefined))) ps), ?_, ?_, ?_, ?_⟩
        · simp [sectioningStage, decodeSectioning, hp, paramGiven, readPath, assign, getPath,
            setPath, getKey, setKey, Key.name, orThrow, bind, Except.bind]
        · intro k hk
          simp only [getKey, Key.name, lookup_assocSet_ne (Ne.symm hk)]
        · intro v hv hne
          cases hv
          exact absurd rfl hne
        · intro _
          exact ⟨_, rfl, by simp [getPath, getKey, Key.name, lookup_assocSet_same]⟩
      | cons c cs =>
        refine ⟨.obj (assocSet "sectioning" (.bool (decide (c :: cs = "true".toList))) ps),
          ?_, ?_, ?_, ?_⟩
        · simp [sectioningStage, decodeSectioning, hp, paramGiven, assign, setPath, setKey,
            Key.name, orThrow]
        · intro k hk
          simp only [getKey, Key.name, lookup_assocSet_ne (Ne.symm hk)]
        · intro v hv _
          cases hv
          simp [getPath, getKey, Key.name, lookup_assocSet_same]
        · rintro (h | h) <;> cases h
  | _ => cases hst

/-- Witness for C16: on a state with sectioning on, `sectioning=true` and
`sectioning=yes` leave `true` and `false`, and without the parameter the
previous value is kept as a boolean. -/
theorem sectioning_decoded_witness :
    (∃ st', sectioningStage { sectioning := some "true".toList } (demoState, none)
        = .ok (st', none) ∧ getPath st' ["sectioning"] = some (.bool true)) ∧
    (∃ st', sectioningStage { sectioning := some "yes".toList } (demoSectioned, none)
        = .ok (st', none) ∧ getPath st' ["sectioning"] = some (.bool false)) ∧
    (∃ st', sectioningStage {} (demoSectioned, none) = .ok (st', none) ∧
      getPath st' ["sectioning"] = some (.bool true)) := by
  obtain ⟨s1, h1, _, h1v, _⟩ := sectioning_decoded { sectioning := some "true".toList }
    demoState rfl
  obtain ⟨s2, h2, _, h2v, _⟩ := sectioning_decoded { sectioning := some "yes".toList }
    demoSectioned rfl
  obtain ⟨s3, h3, _, _, h3v⟩ := sectioning_decoded {} demoSectioned rfl
  refine ⟨⟨s1, h1, h1v _ rfl (by decide)⟩, ⟨s2, h2, h2v _ rfl (by decide)⟩, ⟨s3, h3, ?_⟩⟩
  obtain ⟨old, ho, hn⟩ := h3v (Or.inl rfl)
  obtain rfl : JSValue.bool true = old := Option.some.inj ho
  exact hn

/-- C16 as stated fails for a `sectioning` parameter that is present with the
empty value (the URL holds `sectioning=`): the value is not the string `true`,
yet `state.sectioning`, which was `true`, stays `true`. -/
theorem sectioning_empty_keeps_true :
    ([] : JSString) ≠ "true".toList ∧
    getPath demoSectioned ["sectioning"] = some (.bool true) ∧
    ∃ st', updateStateFromParam { sectioning := some [] } demoSectioned = .ok (st', none) ∧
      getPath st' ["sectioning"] = some (.bool true) :=
  ⟨by decide, rfl, _, rfl, rfl⟩

/-! ## The `domains` value of the share URL -/

/-- C17, at a failing input: for the example state, whose three domains are
visible, not visible and visible, the `domains` value that `shareViewAction`
builds holds the words `true` and `false`, the text of `dom.visible`, where
the claim (and the grammar `visible = [tTfF]` in the decoder) has the single
characters `t` and `f`; the `model` value of the same URL does hold `t`. -/
theorem share_domains_visible_text (numStr : JSNum → JSString)
    (floatStr : JSValue → JSString) :
    shareDomainsValue numStr demoState =
      .ok (some "0,ff0000,true,1,00ff00,false,2,0000ff,true".toList) ∧
    "0,ff0000,true,1,00ff00,false,2,0000ff,true".toList ≠
      "0,ff0000,t,1,00ff00,f,2,0000ff,t".toList ∧
    shareModelValue numStr demoState = .ok "ffffff,t".toList ∧
    shareViewAction numStr floatStr demoView "http://h/v.html".toList "c.json".toList demoState =
      .ok ("http://h/v.html?config=c.json&model=ffffff,t".toList ++
        "&domains=0,ff0000,true,1,00ff00,false,2,0000ff,true".toList ++ "&home=".toList ++
        [','].intercalate [floatStr (JSValue.ofNat 0), floatStr (JSValue.ofNat 0),
          floatStr (JSValue.ofNat 0), floatStr (JSValue.ofNat 1), floatStr (JSValue.ofNat 1000),
          floatStr (JSValue.ofNat 0), floatStr (JSValue.ofNat 0), floatStr (JSValue.ofNat 10),
          floatStr (JSValue.ofNat 0), floatStr (JSValue.ofNat 1), floatStr (JSValue.ofNat 0)]) :=
  ⟨rfl, by decide, rfl, by
    have h1 : shareModelValue numStr demoState = .ok "ffffff,t".toList := rfl
    have h2 : shareDomainsValue numStr demoState =
        .ok (some "0,ff0000,true,1,00ff00,false,2,0000ff,true".toList) := rfl
    have h3 : shareSectionValue floatStr demoState = .ok none := rfl
    have h4 : readPath demoState ["debug"] = .ok .undefined := rfl
    simp only [shareViewAction, h1, h2, h3, h4, bind, Except.bind, pure, Except.pure, demoView,
      List.append_nil, List.append_assoc]
    rfl⟩

/-! ## The grey value range of the section -/

/-- C18, at a failing input: the section starts with the range 0 to 255.  The
number input of `vmax` is set to 9, then the range slider of `vmin` is moved
to 10.  Both values reach the action as strings (`ip.value`, and
`getSliderValue` of a slider of type `INT`); the first is compared with the
number 0, the second with the string `9` stored by the first edit, as strings:
`'10' > '9'` is false, so 10 is stored as `map_vmin` above `map_vmax`, which is
9. -/
theorem vmin_above_vmax (numStr : JSNum → JSString) (conv : SliderSpec → JSString → JSValue) :
    numLt (toNumber (JSValue.ofNat 255)) (toNumber (JSValue.ofNat 0)) = false ∧
    ∃ st1 st2,
      setLabelSliderValueAction numStr conv "sec_".toList "vmax".toList
        { widget := .number, value := "9".toList } demoMapped = .ok st1 ∧
      setLabelSliderValueAction numStr conv "sec_".toList "vmin".toList
        { widget := .range, value := "10".toList, slider := some { st := .INT } } st1
        = .ok st2 ∧
      getPath st2 ["model", "section", "map_vmin"] = some (.str "10".toList) ∧
      getPath st2 ["model", "section", "map_vmax"] = some (.str "9".toList) ∧
      numLt (toNumber (.str "9".toList)) (toNumber (.str "10".toList)) = true :=
  ⟨by decide, _, _, rfl, rfl, rfl, rfl, by decide⟩

/-! ## Inputs on which the claims fail -/

/-- C19, at a failing input: the example state has a `domains` array and a
`camera_home` with the arrays `cen`, `pos` and `up` of 3 elements.  The values
`1,ff00aa` and `1` of the `domains` parameter, whose field counts are not
multiples of 3, make `updateStateFromParam` throw a TypeError (the loop reads
the missing field of the last group and calls a method of it); with
`1,ff00aa,t,2` it throws after domain 1 was updated. -/
theorem decode_partial_triplet_throws :
    HasDomains demoState demoDomains ∧ HasCameraHome demoState ∧
    getPath demoState ["model", "camera_home", "cen", "length"] = some (JSValue.ofNat 3) ∧
    getPath demoState ["model", "camera_home", "pos", "length"] = some (JSValue.ofNat 3) ∧
    getPath demoState ["model", "camera_home", "up", "length"] = some (JSValue.ofNat 3) ∧
    (∃ e, updateStateFromParam { domains := some "1,ff00aa".toList } demoState = .error e ∧
      e.kind = .typeError) ∧
    (∃ e, updateStateFromParam { domains := some "1".toList } demoState = .error e ∧
      e.kind = .typeError) ∧
    (∃ e, updateStateFromParam { domains := some "1,ff00aa,t,2".toList } demoState = .error e ∧
      e.kind = .typeError ∧
      getPath e.now ["model", "domains", .idx 1, "color"] = some (.str "ff00aa".toList)) :=
  ⟨demoState_hasDomains, ⟨_, _, _, _, _, _, _, _, _, rfl, rfl, rfl, rfl, rfl, rfl⟩, rfl, rfl, rfl,
    ⟨_, rfl, rfl⟩, ⟨_, rfl, rfl⟩, ⟨_, rfl, rfl, rfl⟩⟩

/-- C20, at a failing input: with sectioning on and no section,
`checkModelSection` creates the section as an array and its two
`for(var p in [...])` loops go over the indices of the array literals: the
elements 0, 1 and 2 are set to 0, and `dst`, `pit`, `yaw`, `flip` and `visible`
stay undefined; `fxp` and `voxelsz` do get their defaults.  A section that
holds `fxp` only keeps it and gets the keys `0`, `1`, `2`, not `dst`. -/
theorem checkModelSection_defaults_indices :
    getPath demoNoSection ["sectioning"] = some (.bool true) ∧
    (∃ st', checkModelSection demoNoSection = .ok st' ∧
      getPath st' ["model", "section", "dst"] = some .undefined ∧
      getPath st' ["model", "section", "pit"] = some .undefined ∧
      getPath st' ["model", "section", "yaw"] = some .undefined ∧
      getPath st' ["model", "section", "flip"] = some .undefined ∧
      getPath st' ["model", "section", "visible"] = some .undefined ∧
      getPath st' ["model", "section", .idx 0] = some (JSValue.ofNat 0) ∧
      getPath st' ["model", "section", .idx 1] = some (JSValue.ofNat 0) ∧
      getPath st' ["model", "section", .idx 2] = some (JSValue.ofNat 0) ∧
      getPath st' ["model", "section", "fxp"] =
        some (.arr [JSValue.ofNat 0, JSValue.ofNat 0, JSValue.ofNat 0] []) ∧
      getPath st' ["model", "section", "voxelsz"] =
        some (.arr [JSValue.ofNat 1, JSValue.ofNat 1, JSValue.ofNat 1] [])) ∧
    (∃ st', checkModelSection demoFocusOnly = .ok st' ∧
      getPath st' ["model", "section", "dst"] = some .undefined ∧
      getPath st' ["model", "section", "visible"] = some .undefined ∧
      getPath st' ["model", "section", .idx 0] = some (JSValue.ofNat 0) ∧
      getPath st' ["model", "section", "fxp"] =
        some (.arr [JSValue.ofNat 1, JSValue.ofNat 2, JSValue.ofNat 3] [])) :=
  ⟨rfl, ⟨_, rfl, rfl, rfl, rfl, rfl, rfl, rfl, rfl, rfl, rfl, rfl⟩, ⟨_, rfl, rfl, rfl, rfl, rfl⟩⟩

/-! ## The colour picked from the swatch -/

set_option maxRecDepth 100000 in
theorem tripleHexStep_byte (c : JSString) (n : Nat) (h : n < 256) :
    tripleHexStep c (n : Int) = c ++ hexPair n := by
  have key : ∀ m : Fin 256, (if ((m.val : Nat) : Int) < 16 then ['0'] else []) ++
      toString16 ((m.val : Nat) : Int) = hexPair m.val := by decide
  have := key ⟨n, h⟩
  simp only at this
  unfold tripleHexStep
  rw [← this]
  split <;> simp

theorem digitChar_isLowerHex (d : Nat) (h : d < 16) : isLowerHex (Nat.digitChar d) = true := by
  have key : ∀ m : Fin 16, isLowerHex (Nat.digitChar m.val) = true := by decide
  exact key ⟨d, h⟩

theorem digitValue_digitChar (d : Nat) (h : d < 16) : digitValue (Nat.digitChar d) = some d := by
  have key : ∀ m : Fin 16, digitValue (Nat.digitChar m.val) = some m.val := by decide
  exact key ⟨d, h⟩

theorem takeDigits_digitChar (d : Nat) (h : d < 16) (cs : JSString) :
    takeDigits 16 (Nat.digitChar d :: cs) = (d :: (takeDigits 16 cs).1, (takeDigits 16 cs).2) := by
  rw [takeDigits]
  simp only [digitValue_digitChar d h, h, if_true]

theorem parseInt_hex (cs : JSString) :
    parseInt ('0' :: 'x' :: cs) =
      if (takeDigits 16 cs).1 = [] then none
      else some (digitsValue 16 (takeDigits 16 cs).1 : Int) := by
  have hw : isStrWhiteSpace '0' = false := by decide
  simp [parseInt, List.dropWhile, hw]

theorem tripleHexColor_bytes (r g b : Nat) (rest : List Int) (hr : r < 256) (hg : g < 256)
    (hb : b < 256) :
    tripleHexColor ((r : Int) :: (g : Int) :: (b : Int) :: rest) =
      some (hexPair r ++ hexPair g ++ hexPair b) := by
  simp only [tripleHexColor, tripleHexLoop, List.getElem?_cons_zero, List.getElem?_cons_succ,
    tripleHexStep_byte _ _ hr, tripleHexStep_byte _ _ hg, tripleHexStep_byte _ _ hb,
    List.nil_append]

theorem hexPair_lowerHex (n : Nat) (h : n < 256) : ∀ c ∈ hexPair n, isLowerHex c = true := by
  intro c hc
  simp only [hexPair, List.mem_cons, List.mem_singleton, List.not_mem_nil, or_false] at hc
  rcases hc with rfl | rfl
  · exact digitChar_isLowerHex _ (by omega)
  · exact digitChar_isLowerHex _ (by omega)

theorem hex6_value (r g b : Nat) (hr : r < 256) (hg : g < 256) (hb : b < 256) :
    parseInt ('0' :: 'x' :: (hexPair r ++ hexPair g ++ hexPair b)) =
      some ((r * 65536 + g * 256 + b : Nat) : Int) := by
  rw [parseInt_hex]
  have h1 : r / 16 < 16 := by omega
  have h2 : r % 16 < 16 := by omega
  have h3 : g / 16 < 16 := by omega
  have h4 : g % 16 < 16 := by omega
  have h5 : b / 16 < 16 := by omega
  have h6 : b % 16 < 16 := by omega
  simp only [hexPair, List.cons_append, List.nil_append, takeDigits_digitChar _ h1,
    takeDigits_digitChar _ h2, takeDigits_digitChar _ h3, takeDigits_digitChar _ h4,
    takeDigits_digitChar _ h5, takeDigits_digitChar _ h6,
    show takeDigits 16 [] = ([], []) from rfl, digitsValue,
    List.foldl, reduceCtorEq, if_false, Option.some.injEq, Nat.cast_inj]
  omega

theorem readSame (st : JSValue) (p : List Key) :
    Always (fun s => s = st) (fun _ => True) (readPath st p) :=
  readPath_always (P := fun s => s = st) rfl p

theorem boundSame (st : JSValue) (p : List Key) :
    Always (fun s => s = st) (fun _ => True) (loopBound st p) :=
  loopBound_always (P := fun s => s = st) rfl p

theorem baseURL_reads {st : JSValue} : Always (fun s => s = st) (fun _ => True) (baseURL st) := by
  unfold baseURL
  refine always_bind (readSame st _) fun srv _ => ?_
  refine always_bind (readSame st _) fun wlz _ => ?_
  split
  · exact always_bind (readSame st _) fun _ _ => trivial
  · trivial

theorem setSectionTexture_reads {st : JSValue} :
    Always (fun s => s = st) (fun s => s = st) (setSectionTexture st) := by
  unfold setSectionTexture
  refine always_bind baseURL_reads fun _ _ => ?_
  refine always_bind (readSame st _) fun _ _ => ?_
  refine always_bind (readSame st _) fun vis _ => ?_
  split
  · refine always_bind (boundSame st _) fun n _ => ?_
    refine forFrom_always (P := fun s => s = st) (fun i s hs => ?_) n 0 st rfl
    exact always_bind (by subst hs; exact readSame _ _) fun _ _ => hs
  · rfl

theorem updateSection_reads {st : JSValue} :
    Always (fun s => s = st) (fun s => s = st) (updateSection st) := by
  unfold updateSection
  refine always_bind (readSame st _) fun sectioning _ => ?_
  split
  · refine always_bind (readSame st _) fun vis _ => ?_
    split
    · refine always_bind baseURL_reads fun _ _ => ?_
      refine always_bind (readSame st _) fun _ _ => ?_
      exact setSectionTexture_reads
    · rfl
  · rfl

theorem updateModel_reads {st : JSValue} :
    Always (fun s => s = st) (fun s => s = st) (updateModel st) := by
  unfold updateModel
  exact always_bind (readSame st _) fun _ _ => updateSection_reads

theorem updateDomain_reads (i : Nat) {st : JSValue} :
    Always (fun s => s = st) (fun s => s = st) (updateDomain i st) := by
  unfold updateDomain
  refine always_bind (readSame st _) fun _ _ => ?_
  exact always_bind (boundSame st _) fun _ _ => updateSection_reads

theorem storeSwatchColor_model {st : JSValue} (h : ObjModel st) (mat : List JSString)
    (c : JSString) :
    Always (fun s => getPath s ["model", "color"] = some (.str c))
      (fun s => getPath s ["model", "color"] = some (.str c))
      (storeSwatchColor "model_color".toList mat c st) := by
  obtain ⟨ps, ms, rfl, hm⟩ := h
  have ha : assign (.obj ps) ["model", "color"] (.str c) =
      .ok (.obj (assocSet "model" (.obj (assocSet "color" (.str c) ms)) ps)) := by
    simp [assign, setPath, getKey, setKey, Key.name, hm, orThrow]
  have hc : getPath (.obj (assocSet "model" (.obj (assocSet "color" (.str c) ms)) ps))
      ["model", "color"] = some (.str c) := by
    simp [getPath, getKey, Key.name, lookup_assocSet_same]
  unfold storeSwatchColor
  rw [if_pos rfl, ha]
  exact always_mono (fun s hs => by rw [hs]; exact hc) (fun s hs => by rw [hs]; exact hc)
    updateModel_reads

theorem storeSwatchColor_domain {st : JSValue} {ds : List JSValue} (h : HasDomains st ds)
    {i : Nat} {dp : Props} (hd : ds[i]? = some (.obj dp)) (m0 m1 : JSString)
    (more : List JSString) (hp : parseInt m1 = some (i : Int)) (c : JSString) :
    Always (fun s => getPath s ["model", "domains", .idx i, "color"] = some (.str c))
      (fun s => getPath s ["model", "domains", .idx i, "color"] = some (.str c))
      (storeSwatchColor "domainbutton".toList (m0 :: m1 :: more) c st) := by
  obtain ⟨st1, ha, hd1⟩ := hasDomains_assign h hd "color" (.str c)
  have hi : i < ds.length := by
    rcases Nat.lt_or_ge i ds.length with h | h
    · exact h
    · rw [List.getElem?_eq_none h] at hd; cases hd
  have hc : getPath st1 ["model", "domains", .idx i, "color"] = some (.str c) := by
    rw [hasDomains_getField hd1 (List.getElem?_set_self hi) "color", lookup_assocSet_same]
    rfl
  unfold storeSwatchColor
  rw [if_neg (by decide), if_pos rfl]
  simp only [List.head?_cons, Option.bind, hp, Option.map, Int.toNat_ofNat, ha]
  exact always_mono (fun s hs => by rw [hs]; exact hc) (fun s hs => by rw [hs]; exact hc)
    (updateDomain_reads i)

theorem swatchDoneAction_store (a : App) (target : JSString) (v : List Int) (c : JSString)
    (hst : a.state.isNullish = false) (ht : target ≠ []) (hv : tripleHexColor v = some c) :
    ∃ u, swatchDoneAction (some target) "swatch".toList v a =
      liftState ⟨a.state, u, a.redoStack⟩
        (storeSwatchColor (stripFromDigit target) (digitRuns target) c a.state) := by
  obtain ⟨cl, hcl⟩ := cloneStruct_isSome hst
  obtain ⟨s, u, r⟩ := a
  refine ⟨truncateStack u ++ [cl], ?_⟩
  have hd1 : debug ⟨s, u, r⟩ = .ok ⟨s, u, r⟩ := debug_ok hst
  have hd2 : debug ⟨s, truncateStack u ++ [cl], r⟩ = .ok ⟨s, truncateStack u ++ [cl], r⟩ :=
    debug_ok hst
  simp only [swatchDoneAction, hd1, paramGiven_of_ne_nil ht, if_true, pushState_ok u r hst hcl,
    hd2, hv]

theorem liftState_always {P : JSValue → Prop} (a : App) {r : Except (Thrown JSValue) JSValue}
    (h : Always P P r) :
    Always (fun b : App => P b.state) (fun b : App => P b.state) (liftState a r) := by
  cases r <;> exact h

theorem sanitizeColor_of_lowerHex {s : JSString} (h : ∀ c ∈ s, isLowerHex c = true) :
    sanitizeColor s = s := by
  have hmap : toLowerCase s = s := by
    unfold toLowerCase
    conv_rhs => rw [← List.map_id s]
    exact List.map_congr_left fun c hc => lowerChar_of_isLowerHex (h c hc)
  show (toLowerCase s).filter isLowerHex = s
  rw [hmap, List.filter_eq_self]
  exact h

/-- C21: for integers `r`, `g`, `b` from 0 to 255 (and whatever follows them
in `v`, as the alpha value does), `tripleHexColor` returns the six characters
made of the two hexadecimal digits of `r`, of `g` and of `b`, each zero-padded
and in lower case; read as a hexadecimal number the string is
`r * 65536 + g * 256 + b`.  The decoder of `domains` accepts it unchanged: its
sanitised form is the string itself, of length 6, so a triplet with this colour
is rejected only for its index.  It is the colour `swatchDoneAction` stores:
in `state.model.color` for the target `model_color`, in the colour of domain
`i` for a target `domainbutton<n>-<i>`, however the call ends. -/
theorem tripleHexColor_hex6 (r g b : Int) (rest : List Int)
    (hr : 0 ≤ r ∧ r ≤ 255) (hg : 0 ≤ g ∧ g ≤ 255) (hb : 0 ≤ b ∧ b ≤ 255) :
    ∃ s, tripleHexColor (r :: g :: b :: rest) = some s ∧
      s = hexPair r.toNat ++ hexPair g.toNat ++ hexPair b.toNat ∧
      s.length = 6 ∧ (∀ c ∈ s, isLowerHex c = true) ∧
      parseInt ('0' :: 'x' :: s) = some (r * 65536 + g * 256 + b) ∧
      sanitizeColor s = s ∧ (sanitizeColor s).length = 6 ∧
      (∀ idx vis : JSString, Triplet.offending ⟨idx, s, vis⟩ = (parseInt idx).isNone) ∧
      (∀ (a : App) (target : JSString), ObjModel a.state →
        stripFromDigit target = "model_color".toList →
        Always (fun a' : App => getPath a'.state ["model", "color"] = some (.str s))
          (fun a' : App => getPath a'.state ["model", "color"] = some (.str s))
          (swatchDoneAction (some target) "swatch".toList (r :: g :: b :: rest) a)) ∧
      (∀ (a : App) (target : JSString) (ds : List JSValue) (i : Nat) (dp : Props)
        (m0 m1 : JSString) (more : List JSString), HasDomains a.state ds →
        ds[i]? = some (.obj dp) → stripFromDigit target = "domainbutton".toList →
        digitRuns target = m0 :: m1 :: more → parseInt m1 = some (i : Int) →
        Always
          (fun a' : App => getPath a'.state ["model", "domains", .idx i, "color"] = some (.str s))
          (fun a' : App => getPath a'.state ["model", "domains", .idx i, "color"] = some (.str s))
          (swatchDoneAction (some target) "swatch".toList (r :: g :: b :: rest) a)) := by
  obtain ⟨r, rfl⟩ := Int.eq_ofNat_of_zero_le hr.1
  obtain ⟨g, rfl⟩ := Int.eq_ofNat_of_zero_le hg.1
  obtain ⟨b, rfl⟩ := Int.eq_ofNat_of_zero_le hb.1
  have hr' : r < 256 := by omega
  have hg' : g < 256 := by omega
  have hb' : b < 256 := by omega
  have hv := tripleHexColor_bytes r g b rest hr' hg' hb'
  have hlow : ∀ c ∈ hexPair r ++ hexPair g ++ hexPair b, isLowerHex c = true := by
    intro c hc
    simp only [List.mem_append] at hc
    rcases hc with (hc | hc) | hc
    · exact hexPair_lowerHex r hr' c hc
    · exact hexPair_lowerHex g hg' c hc
    · exact hexPair_lowerHex b hb' c hc
  have hsan := sanitizeColor_of_lowerHex hlow
  have hlen : (hexPair r ++ hexPair g ++ hexPair b).length = 6 := rfl
  refine ⟨_, hv, by simp only [Int.toNat_ofNat], hlen, hlow, ?_, hsan, by rw [hsan, hlen], ?_,
    ?_, ?_⟩
  · rw [hex6_value r g b hr' hg' hb']
    push_cast
    rfl
  · intro idx vis
    simp only [Triplet.offending, hsan, hlen, ne_eq, not_true_eq_false, decide_False,
      Bool.or_false]
  · intro a target hobj hwhat
    have hne : target ≠ [] := by
      rintro rfl
      exact absurd hwhat (by decide)
    obtain ⟨ps, ms, hps, hm⟩ := hobj
    have hnn : a.state.isNullish = false := by rw [hps]; rfl
    obtain ⟨u, hrun⟩ := swatchDoneAction_store a target _ _ hnn hne hv
    rw [hrun, hwhat]
    exact liftState_always _ (storeSwatchColor_model ⟨ps, ms, hps, hm⟩ _ _)
  · intro a target ds i dp m0 m1 more hdom hd hwhat hruns hp
    have hne : target ≠ [] := by
      rintro rfl
      exact absurd hwhat (by decide)
    have hnn : a.state.isNullish = false := by
      obtain ⟨ps, ms, hps, _⟩ := hasDomains_objModel hdom
      rw [hps]; rfl
    obtain ⟨u, hrun⟩ := swatchDoneAction_store a target _ _ hnn hne hv
    rw [hrun, hwhat, hruns]
    exact liftState_always _ (storeSwatchColor_domain hdom hd m0 m1 more hp _)

/-- Witness for C21: the pixel (18, 171, 159) with alpha 255 gives `12ab9f`,
which is 1223583 in hexadecimal and passes the check of the decoder; picked
for the button `domainbutton0-1` in the example state, it becomes the colour
of domain 1. -/
theorem tripleHexColor_hex6_witness :
    tripleHexColor [18, 171, 159, 255] = some "12ab9f".toList ∧
    parseInt "0x12ab9f".toList = some 1223583 ∧
    Triplet.offending ⟨"1".toList, "12ab9f".toList, "t".toList⟩ = false ∧
    ∃ a', swatchDoneAction (some "domainbutton0-1".toList) "swatch".toList [18, 171, 159, 255]
        ⟨demoState, [], []⟩ = .ok a' ∧
      getPath a'.state ["model", "domains", .idx 1, "color"] = some (.str "12ab9f".toList) := by
  obtain ⟨s, h1, h2, _, _, h5, _, _, h8, _, h10⟩ := tripleHexColor_hex6 18 171 159 [255]
    (by decide) (by decide) (by decide)
  have hs : s = "12ab9f".toList := by rw [h2]; rfl
  subst hs
  refine ⟨h1, h5, ?_, ?_⟩
  · rw [h8]; rfl
  · have hrun := h10 ⟨demoState, [], []⟩ "domainbutton0-1".toList demoDomains 1 _
      "0".toList "1".toList [] demoState_hasDomains rfl (by decide) (by decide) rfl
    cases hres : swatchDoneAction (some "domainbutton0-1".toList) "swatch".toList
        [18, 171, 159, 255] ⟨demoState, [], []⟩ with
    | ok a' =>
      rw [hres] at hrun
      exact ⟨a', rfl, hrun⟩
    | error e =>
      exfalso
      have : swatchDoneAction (some "domainbutton0-1".toList) "swatch".toList
          [18, 171, 159, 255] ⟨demoState, [], []⟩ = .ok _ := rfl
      rw [this] at hres
      cases hres

end GCA
